import Mathlib

/-!
# idigna: an HTTP-to-Gopher gateway

A shallow embedding of `idigna.c` and a verification development over it.

Conventions of the embedding

* A byte (`char`) is a natural number; the byte strings handled by the program
  are lists of bytes.  A `(pointer, length)` pair of the source (`buffer` with
  `buffer_size`, `path` with `path_size`) is one list, the length being the
  list's length.
* `size_t` and `ssize_t` values are `Nat` and `Int`.
* The two global tables (`sockets` with `number_sockets`, `connections` with
  `number_connections`) are lists; `exit(1)` is the result `none`.
* A store is checked against the bounds of the array it is made into
  (`memwrite`): an invocation that stores bytes outside an array has no defined
  behaviour, it ends in the flow `fault` and its result is `none` as well.
* Memory allocation is taken to succeed: the `exit(1)` that follows a null
  `malloc`, `realloc`, `strndup` or `asprintf` is not part of the embedding.
* The operating system is an oracle `Env`: what `recv`, `send` and
  `connect_to_remote` return, and the contents of uninitialised memory.  Every
  system call is logged in the `trace` of the `World`.
-/

namespace Idigna

set_option maxRecDepth 100000

/-- A byte of the C program (`char`). -/
abbrev Byte := Nat

/-- The bytes of a string literal of the source (ASCII). -/
def str (s : String) : List Byte := s.toList.map Char.toNat

/-! ## Constants and tables (idigna.c, lines 22-43) -/

/-- Source: `const char default_itemtype = (char) 48`, the text file type. -/
def default_itemtype : Byte := 48

/-- Source: `default_mimetype`. -/
def default_mimetype : String := "application/octet-stream"

/-- Source: the table `mimetypes[]`. -/
def mimetypes : List (Byte × String) :=
  [ (48,  "text/plain; charset=utf-8"),  -- 0: text file
    (52,  "application/binhex"),         -- 4: BinHex archive
    (53,  "application/octet-stream"),   -- 5: binary archive
    (54,  "text/x-uuencode"),            -- 6: UUEncoded file
    (57,  "application/octet-stream"),   -- 9: binary file
    (103, "image/gif"),                  -- g: GIF image
    (104, "text/html; charset=utf-8") ]  -- h: HTML document

/-- Source: the table `extension_mimetypes[]`. -/
def extension_mimetypes : List (String × String) :=
  [ (".jpg", "image/jpeg"),
    (".jpeg", "image/jpeg"),
    (".png", "image/png"),
    (".wav", "audio/wav"),
    (".mp3", "audio/mpeg") ]

/-! ## Data model (idigna.c, lines 50-78) -/

/-- Source: `enum connection_state`. -/
inductive connection_state where
  | START | PATH | REQUEST_END | CONNECT | REQUEST_WRITE | HEADER_WRITE | READ | WRITE
  deriving DecidableEq, Repr

/-- Source: `enum copymode`. -/
inductive copymode where
  | TEXT | BINARY | GOPHERMAP
  deriving DecidableEq, Repr

/-- Source: `struct connection`.  `buffer` stands for `buffer[0 .. buffer_size)`
and `path` for `path[0 .. path_size)`. -/
structure connection where
  state : connection_state
  sock : Int
  sock_other : Int
  path : List Byte
  itemtype : Byte
  copymode : copymode
  buffer : List Byte
  written : Nat
  read : Nat
  beginning_of_line : Bool
  deriving DecidableEq, Repr

/-- Source: the field `buffer_size` of `struct connection`. -/
def connection.buffer_size (c : connection) : Nat := c.buffer.length

/-- Source: the field `path_size` of `struct connection`. -/
def connection.path_size (c : connection) : Nat := c.path.length

/-- Source: `struct pollfd` of `poll.h` (the fields the program writes). -/
structure pollfd where
  fd : Int
  events : Nat
  deriving DecidableEq, Repr

/-- Event mask `POLLIN` of `poll.h` (its Linux value). -/
def POLLIN : Nat := 1

/-- Event mask `POLLOUT` of `poll.h` (its Linux value). -/
def POLLOUT : Nat := 4

/-- A system call made by the program, with what it was given and what it returned. -/
inductive Event where
  /-- Call `recv(sock, dst, len, 0)`: `dst` lies `dst_off` bytes after the start of
  an array of `cap` bytes; `result` is `none` for -1, else the bytes received. -/
  | recv (sock : Int) (dst_off len cap : Nat) (result : Option (List Byte))
  /-- Call `send(sock, offered, |offered|, 0)` and the value returned. -/
  | send (sock : Int) (offered : List Byte) (amount : Int)
  /-- Call `connect_to_remote()` and the value returned. -/
  | connect (result : Int)
  deriving DecidableEq, Repr

/-- The global state of the program: the two tables, `number_interfaces`, and
the log of the system calls made so far. -/
structure World where
  sockets : List pollfd
  number_interfaces : Nat
  connections : List connection
  trace : List Event
  deriving DecidableEq, Repr

/-- Source: the global `number_sockets`. -/
def World.number_sockets (w : World) : Nat := w.sockets.length

/-- Source: the global `number_connections`. -/
def World.number_connections (w : World) : Nat := w.connections.length

/-- The environment of the program.  Each oracle is asked at the current length
of the trace, so that successive calls get independent answers.
* `recv`: `none` is the return value -1, `some d` delivers the bytes `d`
  (cut to the length requested), so `some []` is end of file;
* `send`: `none` is -1, `some n` accepts `n` of the bytes offered (at most all);
* `connect`: what `connect_to_remote` returns, `none` when it calls `exit(1)`;
* `stack`, `heap`: the contents of uninitialised memory. -/
structure Env where
  recv : Nat → Option (List Byte)
  send : Nat → Option Nat
  connect : Nat → Option Int
  stack : Nat → List Byte
  heap : Nat → List Byte

/-! ## The item-type classifier (idigna.c, lines 398-495) -/

/-- Source: `recognised_itemtype`. -/
def recognised_itemtype (itemtype : Byte) : Bool :=
  itemtype == 48 ||   -- 0: text file
  itemtype == 49 ||   -- 1: Gopher directory listing
  itemtype == 52 ||   -- 4: BinHex archive
  itemtype == 53 ||   -- 5: binary archive
  itemtype == 54 ||   -- 6: UUEncoded file
  itemtype == 57 ||   -- 9: binary file
  itemtype == 103 ||  -- g: GIF image
  itemtype == 104 ||  -- h: HTML document
  itemtype == 73 ||   -- I: image (generic)
  itemtype == 115     -- s: sound

/-- Source: `get_itemtype_selector`.  The result is `(*itemtype, selector)`. -/
def get_itemtype_selector (path : List Byte) : Byte × List Byte :=
  -- Ignore a / on the beginning of path
  let start := if path.length > 0 ∧ path.head? = some 47 then path.drop 1 else path
  if start.length = 0 then
    (49, start)
  else if start.length ≥ 1 ∧ recognised_itemtype (start.headD 0) = true then
    (start.headD 0, start.drop 1)
  else
    (default_itemtype, start)

/-- Source: `memrchr(s, c, n)` of the C library: the offset of the last
occurrence of `c` in `s[0 .. n)`, scanning backwards. -/
def memrchr (s : List Byte) (c : Byte) : Nat → Option Nat
  | 0 => none
  | k + 1 => if s.getD k 0 = c then some k else memrchr s c k

/-- Source: `memchr(s, c, |s|)` of the C library: the offset of the first
occurrence of `c` in `s`. -/
def memchr : List Byte → Byte → Option Nat
  | [], _ => none
  | b :: bs, c => if b = c then some 0 else (memchr bs c).map (· + 1)

/-- Source: `strndup(s, n)` of the C library: the C string made of the bytes of
`s[0 .. n)` that come before the first NUL byte. -/
def strndup (s : List Byte) (n : Nat) : List Byte :=
  (s.take n).takeWhile (· ≠ 0)

/-- The loop over `extension_mimetypes` in `get_mimetype`: the media type of the
first entry whose `ext` compares equal (`strcmp`) to the C string `extension`. -/
def lookup_extension (extension : List Byte) : List (String × String) → Option String
  | [] => none
  | (ext, mimetype) :: rest =>
    if extension = str ext then some mimetype else lookup_extension extension rest

/-- The loop over `mimetypes` in `get_mimetype`. -/
def lookup_itemtype (itemtype : Byte) : List (Byte × String) → Option String
  | [] => none
  | (t, mimetype) :: rest =>
    if itemtype = t then some mimetype else lookup_itemtype itemtype rest

/-- Source: `get_mimetype`. -/
def get_mimetype (itemtype : Byte) (selector : List Byte) : String :=
  -- Special handling for itemtype 1
  if itemtype = 49 then
    "text/plain; charset=utf-8"
  -- Special handling for itemtypes I and s
  else if itemtype = 73 ∨ itemtype = 115 then
    match memrchr selector 46 selector.length with
    | none => default_mimetype
    | some off =>
      let extension_legth := selector.length - off
      let extension := strndup (selector.drop off) extension_legth
      match lookup_extension extension extension_mimetypes with
      | some mimetype => mimetype
      | none => default_mimetype
  else
    match lookup_itemtype itemtype mimetypes with
    | some mimetype => mimetype
    | none => default_mimetype

/-- Source: `get_copymode`. -/
def get_copymode (itemtype : Byte) : copymode :=
  if itemtype = 49 then
    .GOPHERMAP
  else if itemtype = 48 ∨ itemtype = 52 ∨ itemtype = 54 ∨ itemtype = 104 then
    .TEXT
  else
    .BINARY

/-! ## Port numbers (idigna.c, lines 101-112) -/

/-- Source: `isspace` of the C library, in the C locale: space, and the
control characters from horizontal tab to carriage return. -/
def isspace (c : Byte) : Bool := c == 32 || (9 ≤ c && c ≤ 13)

/-- Source: `isdigit` of the C library. -/
def isdigit (c : Byte) : Bool := 48 ≤ c && c ≤ 57

/-- Largest value of `long` (64 bits). -/
def LONG_MAX : Int := 9223372036854775807

/-- Smallest value of `long` (64 bits). -/
def LONG_MIN : Int := -9223372036854775808

/-- The digit loop of `strtol` in base 10: the value accumulated from `acc` and
the number of digits consumed. -/
def strtol_digits : List Byte → Nat → Nat × Nat
  | [], acc => (acc, 0)
  | c :: rest, acc =>
    if isdigit c = true then
      ((strtol_digits rest (acc * 10 + (c - 48))).1,
        (strtol_digits rest (acc * 10 + (c - 48))).2 + 1)
    else (acc, 0)

/-- The scan of `strtol` after `white` bytes of white space: an optional sign,
then the decimal digits.  The result is the value and the offset of `endptr`;
when no digit is found the value is 0 and `endptr` is `string`. -/
def strtol_signed (white : Nat) : List Byte → Int × Nat
  | 45 :: s2 =>
    if (strtol_digits s2 0).2 = 0 then (0, 0)
    else (-((strtol_digits s2 0).1 : Int), white + 1 + (strtol_digits s2 0).2)
  | 43 :: s2 =>
    if (strtol_digits s2 0).2 = 0 then (0, 0)
    else (((strtol_digits s2 0).1 : Int), white + 1 + (strtol_digits s2 0).2)
  | s1 =>
    if (strtol_digits s1 0).2 = 0 then (0, 0)
    else (((strtol_digits s1 0).1 : Int), white + (strtol_digits s1 0).2)

/-- The scan of `strtol(string, &endptr, 10)` before the result is brought into
the range of `long`: white space is skipped, then the signed digits are read. -/
def strtol_scan (string : List Byte) : Int × Nat :=
  strtol_signed (string.takeWhile isspace).length (string.dropWhile isspace)

/-- Source: `strtol(string, &endptr, 10)` of the C library: a value outside the
range of `long` is replaced by `LONG_MAX` or `LONG_MIN`. -/
def strtol (string : List Byte) : Int × Nat :=
  (max LONG_MIN (min LONG_MAX (strtol_scan string).1), (strtol_scan string).2)

/-- Source: `parse_port`.  `string` holds the bytes of the C string before its
terminating NUL, so `*endptr` is 0 at the end of the list. -/
def parse_port (string : List Byte) : Int :=
  let port := (strtol string).1
  let endptr := (strtol string).2
  if endptr = 0 ∨ string.getD endptr 0 ≠ 0 then
    -- String did not fully scan as number
    -1
  else if port < 0 ∨ port > 65536 then
    -- Port value out of range (1 << 16 is 65536)
    -1
  else
    port

/-! ## The socket and connection tables (idigna.c, lines 125-243) -/

/-- The removal idiom of `remove_socket` and `remove_connection`: when `index`
is not the last entry, the last entry is copied over it (`memmove`); then the
table shrinks by one entry (`realloc` with the decremented count). -/
def swap_remove {α : Type} (table : List α) (index : Nat) : List α :=
  let moved :=
    if index ≠ table.length - 1 then
      match table.getLast? with
      | some last => table.set index last
      | none => table
    else table
  moved.take (table.length - 1)

/-- Source: `add_socket`. -/
def add_socket (sock : Int) (events : Nat) (w : World) : World :=
  { w with sockets := w.sockets ++ [{ fd := sock, events := events }] }

/-- Source: `remove_socket` (the `close` of the descriptor is not logged). -/
def remove_socket (index : Nat) (w : World) : World :=
  { w with sockets := swap_remove w.sockets index }

/-- Source: `get_socket_index`, on the table `sockets`: the first index whose
`fd` is `sock`, or the number of entries when there is none. -/
def get_socket_index : List pollfd → Int → Nat
  | [], _ => 0
  | s :: rest, sock => if s.fd = sock then 0 else get_socket_index rest sock + 1

/-- Source: the connection that `add_connection` creates (`calloc`, then the
three assignments). -/
def new_connection (sock : Int) : connection :=
  { state := .START, sock := sock, sock_other := -1, path := [], itemtype := 0,
    copymode := .TEXT, buffer := [], written := 0, read := 0,
    beginning_of_line := false }

/-- Source: `add_connection`. -/
def add_connection (sock : Int) (w : World) : World :=
  let w1 := add_socket sock POLLIN w
  { w1 with connections := w1.connections ++ [new_connection sock] }

/-- Source: `remove_connection`; `none` is the `exit(1)` taken when the
connection's socket is not in the table of sockets, or an index out of range. -/
def remove_connection (index : Nat) (w : World) : Option World :=
  match w.connections[index]? with
  | none => none
  | some conn =>
    let socket_index := get_socket_index w.sockets conn.sock
    if socket_index = w.number_sockets then
      none
    else
      let w1 := remove_socket socket_index w
      some { w1 with connections := swap_remove w1.connections index }

/-- Source: `get_connection_index`. -/
def get_connection_index : List connection → Int → Nat
  | [], _ => 0
  | c :: rest, sock => if c.sock = sock then 0 else get_connection_index rest sock + 1

/-- Source: the initial values of the global tables. -/
def boot : World :=
  { sockets := [], number_interfaces := 0, connections := [], trace := [] }

/-- Source: `setup_listen`, given the descriptors that `socket` returns for the
addresses to listen on: each is added with `add_socket(sock, POLLIN)` (in
`add_listen`), then `number_interfaces` is set to `number_sockets`. -/
def setup_listen (listeners : List Int) (w : World) : World :=
  let w1 := listeners.foldl (fun acc sock => add_socket sock POLLIN acc) w
  { w1 with number_interfaces := w1.number_sockets }

/-! ## Helpers of the state machine (idigna.c, lines 323-396) -/

/-- Source: `buffer_append`, on the connection's buffer. -/
def buffer_append (conn : connection) (appended : List Byte) : connection :=
  { conn with buffer := conn.buffer ++ appended }

/-- Source: `switch_sockets`. -/
def switch_sockets (conn : connection) : connection :=
  { conn with sock_other := conn.sock, sock := conn.sock_other }

/-- Source: `socket_change`; `none` is its `exit(1)`. -/
def socket_change (old new : Int) (events : Nat) (w : World) : Option World :=
  let socket_index := get_socket_index w.sockets old
  if socket_index = w.number_sockets then
    none
  else
    some { w with sockets := w.sockets.set socket_index { fd := new, events := events } }

/-- A block of `n` bytes of uninitialised memory whose contents are `garbage`. -/
def fresh_block (garbage : List Byte) (n : Nat) : List Byte :=
  (garbage ++ List.replicate n 0).take n

/-- Storing `data` at byte offset `off` from the start of the array `mem`
(`memmove`, or the store that `recv` does into its destination).  Storing no
byte changes nothing.  `none` when a byte would be stored outside the array:
the C program has no defined behaviour from there on. -/
def memwrite (mem : List Byte) (off : Nat) (data : List Byte) : Option (List Byte) :=
  if data = [] then some mem
  else if off + data.length ≤ mem.length then
    some (mem.take off ++ data ++ mem.drop (off + data.length))
  else none

/-- Appending an event to the log of system calls. -/
def World.log (w : World) (e : Event) : World :=
  { w with trace := w.trace ++ [e] }

/-- The bytes a `recv` of at most `len` bytes delivers. -/
def recv_data (env : Env) (w : World) (len : Nat) : List Byte :=
  match env.recv w.trace.length with
  | none => []
  | some d => d.take len

/-- The value a `recv` of at most `len` bytes returns. -/
def recv_amount (env : Env) (w : World) (len : Nat) : Int :=
  match env.recv w.trace.length with
  | none => -1
  | some d => ((d.take len).length : Int)

/-- The event logged by a `recv`. -/
def recv_event (env : Env) (w : World) (sock : Int) (dst_off len cap : Nat) : Event :=
  .recv sock dst_off len cap ((env.recv w.trace.length).map (fun d => d.take len))

/-- The value a `send` of `left` bytes returns. -/
def send_amount (env : Env) (w : World) (left : Nat) : Int :=
  match env.send w.trace.length with
  | none => -1
  | some n => ((min n left : Nat) : Int)

/-- The text of `asprintf` with the format of the HTTP response head. -/
def response_head (mimetype : String) : List Byte :=
  str "HTTP/1.1 200 OK\r\nContent-type: " ++ str mimetype ++ str "\r\n\r\n"

/-! ## The connection state machine (idigna.c, lines 497-792)

`handle_connection` is a sequence of `if (conn->state == ...)` blocks.  Each
block is a function from the connection record (the object `conn` points to)
and the world to a `Flow`, which says how control leaves the block. -/

/-- How control leaves a block of `handle_connection`. -/
inductive Flow where
  /-- Control falls through to the next block. -/
  | next (conn : connection) (w : World)
  /-- The function returns and the connection stays in the table. -/
  | ret (conn : connection) (w : World)
  /-- The function returns after `remove_connection(index)`. -/
  | gone (w : World)
  /-- The process exits (`exit(1)`). -/
  | exit
  /-- The program stored bytes outside an array, in the world `w`: its
  behaviour is undefined from there on, and the invocation does not return. -/
  | fault (w : World)
  deriving DecidableEq, Repr

/-- Sequencing of blocks: the next block runs only when control fell through. -/
def Flow.andThen (f : Flow) (k : connection → World → Flow) : Flow :=
  match f with
  | .next conn w => k conn w
  | .ret conn w => .ret conn w
  | .gone w => .gone w
  | .exit => .exit
  | .fault w => .fault w

/-- Source: the statements `remove_connection(index); return;`.  The record
`conn` is the object in slot `index` of the table. -/
def remove_and_return (index : Nat) (conn : connection) (w : World) : Flow :=
  match remove_connection index { w with connections := w.connections.set index conn } with
  | some w1 => .gone w1
  | none => .exit

/-- Source: lines 500-534, the `recv` of the parser states.  A `recv` that
returns 0 or -1 has stored nothing; otherwise the bytes received are stored in
the local array `buffer` of 1024 bytes.  In `REQUEST_END` the retained bytes
are first copied to the start of the array, and the destination of the `recv`
is `&buffer + buffer_fill`; the invocation ends in a fault when the retained
bytes do not fit the array or the bytes received are stored outside it. -/
def block_recv (env : Env) (index : Nat) (conn : connection) (w : World) : Flow :=
  if conn.state = .START ∨ conn.state = .PATH then
    -- Read data and append to buffer
    let buffer0 := fresh_block (env.stack w.trace.length) 1024
    let amount := recv_amount env w 1024
    let w1 := w.log (recv_event env w conn.sock 0 1024 1024)
    if amount ≤ 0 then
      remove_and_return index conn w1
    else
      match memwrite buffer0 0 (recv_data env w 1024) with
      | none => .fault w1
      | some buffer => .next (buffer_append conn (buffer.take amount.toNat)) w1
  else if conn.state = .REQUEST_END then
    -- Read data and keep the last 4 bytes
    let buffer0 := fresh_block (env.stack w.trace.length) 1024
    let buffer_fill := conn.buffer_size
    -- `memmove(buffer, conn->buffer, buffer_fill)`
    match memwrite buffer0 0 conn.buffer with
    | none => .fault w
    | some buffer1 =>
      -- the destination is `&buffer + buffer_fill`: pointer arithmetic on
      -- `char (*)[1024]` advances by `buffer_fill` arrays of 1024 bytes
      let dst_off := 1024 * buffer_fill
      let len := 1024 - buffer_fill
      let amount := recv_amount env w len
      let w1 := w.log (recv_event env w conn.sock dst_off len 1024)
      if amount ≤ 0 then
        remove_and_return index conn w1
      else
        -- the bytes received are stored at the destination
        match memwrite buffer1 dst_off (recv_data env w len) with
        | none => .fault w1
        | some buffer =>
          let buffer_fill := buffer_fill + amount.toNat
          if buffer_fill < 4 then
            .next { conn with buffer := buffer.take buffer_fill } w1
          else
            .next { conn with buffer := (buffer.drop (buffer_fill - 4)).take 4 } w1
  else
    .next conn w

/-- Source: lines 536-545, the state `START`. -/
def block_start (conn : connection) (w : World) : Flow :=
  if conn.state = .START then
    if conn.buffer_size ≥ 4 ∧ conn.buffer.take 4 = str "GET " then
      -- Remove the first 4 bytes from the buffer
      .next { conn with buffer := conn.buffer.drop 4, state := .PATH } w
    else
      .next conn w
  else
    .next conn w

/-- Source: lines 547-578, the state `PATH`. -/
def block_path (conn : connection) (w : World) : Flow :=
  if conn.state = .PATH then
    match memchr conn.buffer 32 with
    | some path_end =>
      let path := conn.buffer.take path_end
      -- Copy max. 4 bytes off the end
      let left_over := conn.buffer_size - path_end
      let tmpbuf :=
        if left_over < 4 then (conn.buffer.drop path_end).take left_over
        else (conn.buffer.drop (conn.buffer_size - 4)).take 4
      .next { conn with path := path, buffer := tmpbuf, state := .REQUEST_END } w
    | none => .next conn w
  else
    .next conn w

/-- Source: lines 580-589, the state `REQUEST_END`. -/
def block_request_end (conn : connection) (w : World) : Flow :=
  if conn.state = .REQUEST_END then
    if conn.buffer_size ≥ 4 ∧ conn.buffer.take 4 = str "\r\n\r\n" then
      .next { conn with buffer := [], state := .CONNECT } w
    else
      .next conn w
  else
    .next conn w

/-- Source: lines 591-616, the state `CONNECT`.  The value of
`connect_to_remote()` goes through `size_t` back to `int` unchanged. -/
def block_connect (env : Env) (conn : connection) (w : World) : Flow :=
  if conn.state = .CONNECT then
    match env.connect w.trace.length with
    | none => .exit
    | some remote_socket =>
      let w1 := w.log (.connect remote_socket)
      let conn1 := { conn with sock_other := conn.sock, sock := remote_socket }
      -- Change socket in the table of sockets
      match socket_change conn1.sock_other remote_socket POLLOUT w1 with
      | none => .exit
      | some w2 =>
        -- Separate itemtype and selector
        let r := get_itemtype_selector conn1.path
        let conn2 := { conn1 with itemtype := r.1, path := r.2 }
        -- Put conn->path to conn->buffer and append \r\n to it
        let conn3 := buffer_append { conn2 with buffer := conn2.path } (str "\r\n")
        .ret { conn3 with state := .REQUEST_WRITE } w2
  else
    .next conn w

/-- Source: lines 618-658, the state `REQUEST_WRITE`. -/
def block_request_write (env : Env) (index : Nat) (conn : connection) (w : World) : Flow :=
  if conn.state = .REQUEST_WRITE then
    let start := conn.buffer.drop conn.written
    let left := conn.buffer_size - conn.written
    let amount := send_amount env w left
    let w1 := w.log (.send conn.sock (start.take left) amount)
    if amount = -1 then
      remove_and_return index conn w1
    else
      let conn1 := { conn with written := conn.written + amount.toNat }
      if conn1.written ≥ conn1.buffer_size then
        -- Create new buffer with HTTP response
        let mimetype := get_mimetype conn1.itemtype conn1.path
        let conn2 := { conn1 with buffer := response_head mimetype, written := 0 }
        -- Switch socket and change to write mode
        let conn3 := switch_sockets conn2
        match socket_change conn3.sock_other conn3.sock POLLOUT w1 with
        | none => .exit
        | some w2 => .ret { conn3 with state := .HEADER_WRITE } w2
      else
        .next conn1 w1
  else
    .next conn w

/-- Source: lines 660-700, the state `HEADER_WRITE`. -/
def block_header_write (env : Env) (index : Nat) (conn : connection) (w : World) : Flow :=
  if conn.state = .HEADER_WRITE then
    let start := conn.buffer.drop conn.written
    let left := conn.buffer_size - conn.written
    let amount := send_amount env w left
    let w1 := w.log (.send conn.sock (start.take left) amount)
    if amount = -1 then
      remove_and_return index conn w1
    else
      let conn1 := { conn with written := conn.written + amount.toNat }
      if conn1.written ≥ conn1.buffer_size then
        -- Allocate a fixed buffer for data copying, set copying mode
        let conn2 := { conn1 with
          buffer := fresh_block (env.heap w1.trace.length) 1024,
          copymode := get_copymode conn1.itemtype,
          beginning_of_line := true }
        -- Switch socket and change to read mode
        let conn3 := switch_sockets conn2
        match socket_change conn3.sock_other conn3.sock POLLIN w1 with
        | none => .exit
        | some w2 => .ret { conn3 with state := .READ } w2
      else
        .next conn1 w1
  else
    .next conn w

/-- Source: lines 702-727, the state `READ`.  A `recv` that returns 0 or -1 has
stored nothing. -/
def block_read (env : Env) (index : Nat) (conn : connection) (w : World) : Flow :=
  if conn.state = .READ then
    let amount := recv_amount env w conn.buffer_size
    let w1 := w.log (recv_event env w conn.sock 0 conn.buffer_size conn.buffer_size)
    if amount = -1 then
      remove_and_return index conn w1
    else if amount = 0 then
      -- EOF reached
      remove_and_return index conn w1
    else
      -- the bytes received are stored at the start of the body buffer
      match memwrite conn.buffer 0 (recv_data env w conn.buffer_size) with
      | none => .fault w1
      | some buffer =>
        let conn1 := { conn with buffer := buffer, read := amount.toNat, written := 0 }
        -- Switch socket and change to write mode
        let conn2 := switch_sockets conn1
        match socket_change conn2.sock_other conn2.sock POLLOUT w1 with
        | none => .exit
        | some w2 => .ret { conn2 with state := .WRITE } w2
  else
    .next conn w

/-- Source: lines 775-791, the end of the state `WRITE`, after the `send`
returned `amount` with `skipped` bytes left out before the slice. -/
def write_finish (index : Nat) (conn : connection) (w : World)
    (amount : Int) (skipped : Nat) : Flow :=
  if amount = -1 then
    remove_and_return index conn w
  else
    let conn1 := { conn with written := conn.written + (amount + skipped).toNat }
    if conn1.written ≥ conn1.read then
      -- Switch socket and change to read mode
      let conn2 := switch_sockets conn1
      match socket_change conn2.sock_other conn2.sock POLLIN w with
      | none => .exit
      | some w2 => .ret { conn2 with state := .READ } w2
    else
      .next conn1 w

/-- Source: lines 757-769, the choice of the slice in `TEXT` mode and its
`send`: the window is `buffer[start .. start + max_left)`. -/
def write_text_line (env : Env) (index : Nat) (conn : connection) (w : World)
    (start max_left skipped : Nat) : Flow :=
  let window := (conn.buffer.drop start).take max_left
  match memchr window 10 with
  | none =>
    let left := max_left
    let conn1 := { conn with beginning_of_line := false }
    let amount := send_amount env w left
    write_finish index conn1 (w.log (.send conn.sock ((conn.buffer.drop start).take left) amount))
      amount skipped
  | some end_off =>
    -- Include the \n in the sent text as well
    let left := end_off + 1
    let conn1 := { conn with beginning_of_line := true }
    let amount := send_amount env w left
    write_finish index conn1 (w.log (.send conn.sock ((conn.buffer.drop start).take left) amount))
      amount skipped

/-- Source: lines 738-791, the state `WRITE` once the copy mode is settled: the
choice of the slice, its `send`, and the bookkeeping after it. -/
def write_slice (env : Env) (index : Nat) (conn : connection) (w : World) : Flow :=
  if conn.copymode = .BINARY then
    let start := conn.buffer.drop conn.written
    let left := conn.read - conn.written
    let amount := send_amount env w left
    write_finish index conn (w.log (.send conn.sock (start.take left) amount)) amount 0
  else if conn.copymode = .TEXT then
    let start := conn.written
    let max_left := conn.read - conn.written
    if conn.beginning_of_line = true ∧ max_left ≥ 2 ∧
        (conn.buffer.drop start).take 2 = str ".." then
      -- Remove the double period in the beginning of line
      write_text_line env index conn w (start + 1) (max_left - 1) 1
    else if conn.beginning_of_line = true ∧ max_left ≥ 3 ∧
        (conn.buffer.drop start).take 3 = str ".\r\n" then
      -- Close connection
      remove_and_return index conn w
    else
      write_text_line env index conn w start max_left 0
  else
    -- Illegal value of conn->copymode
    .exit

/-- Source: lines 729-791, the state `WRITE`: the Gophermap copy mode is
replaced by the text copy mode, then the slice is sent. -/
def block_write (env : Env) (index : Nat) (conn : connection) (w : World) : Flow :=
  if conn.state = .WRITE then
    write_slice env index
      (if conn.copymode = .GOPHERMAP then { conn with copymode := .TEXT } else conn) w
  else
    .next conn w

/-- The return of `handle_connection`: the record `conn` is the object in slot
`index` of the table, unless the connection was removed; `none` when the
invocation does not return: `exit(1)`, or a store outside an array. -/
def Flow.finish (index : Nat) : Flow → Option World
  | .next conn w => some { w with connections := w.connections.set index conn }
  | .ret conn w => some { w with connections := w.connections.set index conn }
  | .gone w => some w
  | .exit => none
  | .fault _ => none

/-- Source: `handle_connection`.  `none` when the invocation does not return:
`exit(1)`, or a store outside an array (or an index outside the table, which
the caller never passes). -/
def handle_connection (env : Env) (index : Nat) (w : World) : Option World :=
  match w.connections[index]? with
  | none => none
  | some conn =>
    (((((((((block_recv env index conn w).andThen block_start).andThen
      block_path).andThen block_request_end).andThen (block_connect env)).andThen
      (block_request_write env index)).andThen (block_header_write env index)).andThen
      (block_read env index)).andThen (block_write env index)).finish index

/-- At most `n` successive invocations of `handle_connection` on the connection
in slot `index`, all against the same environment, stopping once the
connection has been removed from the table. -/
def run (env : Env) (index : Nat) : Nat → World → Option World
  | 0, w => some w
  | n + 1, w =>
    match handle_connection env index w with
    | none => none
    | some w1 =>
      if w1.number_connections < w.number_connections then some w1
      else run env index n w1

/-- The bytes accepted by the `send` calls of a trace on the socket `sock`, in order. -/
def sent_bytes (sock : Int) : List Event → List Byte
  | [] => []
  | .send s offered amount :: rest =>
    if s = sock then offered.take amount.toNat ++ sent_bytes sock rest
    else sent_bytes sock rest
  | _ :: rest => sent_bytes sock rest

/-- The bytes delivered by the `recv` calls of a trace on the socket `sock`, in order. -/
def received_bytes (sock : Int) : List Event → List Byte
  | [] => []
  | .recv s _ _ _ (some data) :: rest =>
    if s = sock then data ++ received_bytes sock rest
    else received_bytes sock rest
  | _ :: rest => received_bytes sock rest

/-! ## Reference definitions, written after the specification -/

/-- The classifier in the words of the specification (section 4.3): strip a
single leading slash; an empty remainder has item type 1 and an empty
selector; a remainder that starts with a recognised item type gives that type
and the rest; any other remainder has item type 0 and is the selector. -/
def classify_spec (path : List Byte) : Byte × List Byte :=
  let remainder := match path with
    | 47 :: rest => rest
    | _ => path
  match remainder with
  | [] => (49, [])
  | t :: rest =>
    if t ∈ [48, 49, 52, 53, 54, 57, 103, 104, 73, 115] then (t, rest) else (48, t :: rest)

/-- The substring that runs from the last dot of `selector` to its end, if
`selector` has a dot. -/
def last_dot_suffix : List Byte → Option (List Byte)
  | [] => none
  | b :: rest =>
    match last_dot_suffix rest with
    | some suffix => some suffix
    | none => if b = 46 then some (b :: rest) else none

/-- The extension table of the specification (section 4.3) applied to a suffix:
case-sensitive, the literal suffix with its dot; the default media type when
there is no suffix or the suffix is not in the table. -/
def mimetype_of_suffix_spec : Option (List Byte) → String
  | none => "application/octet-stream"
  | some suffix =>
    if suffix = str ".jpg" ∨ suffix = str ".jpeg" then "image/jpeg"
    else if suffix = str ".png" then "image/png"
    else if suffix = str ".wav" then "audio/wav"
    else if suffix = str ".mp3" then "audio/mpeg"
    else "application/octet-stream"

/-! ## Auxiliary definitions of the development -/

/-- A flow whose fall-through leaves the connection in a state that satisfies `P`. -/
def Flow.next_state (f : Flow) (P : connection_state → Prop) : Prop :=
  ∀ c w, f = .next c w → P c.state

/-- The states in which the request head is read. -/
def parser_state (s : connection_state) : Prop :=
  s = .START ∨ s = .PATH ∨ s = .REQUEST_END

/-! ## Concrete environments and worlds -/

/-- One scripted answer of the environment. -/
inductive Answer where
  /-- A `recv` delivers these bytes (none of them: end of file). -/
  | data (d : List Byte)
  /-- A `send` accepts this many bytes. -/
  | accept (n : Nat)
  /-- The call returns -1. -/
  | fail
  /-- The upstream connect returns this descriptor. -/
  | fd (sock : Int)
  deriving DecidableEq, Repr

/-- The environment that answers the call made at trace position `k` with the
`k`-th scripted answer (and with -1 past the end of the script); uninitialised
memory holds the bytes `garbage`. -/
def script (answers : List Answer) (garbage : List Byte) : Env :=
  { recv := fun k =>
      match answers[k]? with
      | some (.data d) => some d
      | _ => none,
    send := fun k =>
      match answers[k]? with
      | some (.accept n) => some n
      | _ => none,
    connect := fun k =>
      match answers[k]? with
      | some (.fd sock) => some sock
      | _ => some (-1),
    stack := fun _ => garbage,
    heap := fun _ => garbage }

/-- A server with one listener (descriptor 3) that has accepted one client
(descriptor 5). -/
def one_client : World :=
  add_connection 5
    { sockets := [{ fd := 3, events := POLLIN }], number_interfaces := 1,
      connections := [], trace := [] }

/-- The world `one_client` after the request `GET /Ifoo.png HTTP/1.0` was read
and the upstream (descriptor 9) connected. -/
def one_client_request : World :=
  { sockets := [{ fd := 3, events := POLLIN }, { fd := 9, events := POLLOUT }],
    number_interfaces := 1,
    connections :=
      [{ new_connection 5 with
          state := .REQUEST_WRITE, sock := 9, sock_other := 5, itemtype := 73,
          path := str "foo.png", buffer := str "foo.png\r\n", written := 0 }],
    trace := [.recv 5 0 1024 1024 (some (str "GET /Ifoo.png HTTP/1.0\r\n\r\n")), .connect 9] }

/-- A connection in `READ` with the given copy mode, upstream 9 and client 5. -/
def streaming (mode : copymode) : World :=
  { sockets := [{ fd := 3, events := POLLIN }, { fd := 9, events := POLLIN }],
    number_interfaces := 1,
    connections :=
      [{ new_connection 9 with
          state := .READ, sock_other := 5, itemtype := 48, copymode := mode,
          buffer := fresh_block [] 1024, beginning_of_line := true }],
    trace := [] }

/-- The record of the connection of `streaming mode`. -/
def streaming_conn (mode : copymode) : connection :=
  { new_connection 9 with
      state := .READ, sock_other := 5, itemtype := 48, copymode := mode,
      buffer := fresh_block [] 1024, beginning_of_line := true }

/-- The bytes of the current chunk that `WRITE` has still to send. -/
def pending (conn : connection) : List Byte :=
  (conn.buffer.drop conn.written).take (conn.read - conn.written)

/-- The invariant of BINARY streaming between upstream `u` and client `c`, for
the connection in slot `index`, over the events `evs` logged since streaming
began: in `READ` everything received has been sent on; in `WRITE` what has been
sent, followed by the pending bytes of the chunk, is what has been received. -/
def binary_inv (u c : Int) (index : Nat) (base : List Event) (w : World) : Prop :=
  ∃ conn evs, w.connections[index]? = some conn ∧ w.trace = base ++ evs ∧
    conn.copymode = .BINARY ∧
    get_socket_index w.sockets conn.sock < w.sockets.length ∧
    ((conn.state = .READ ∧ conn.sock = u ∧ conn.sock_other = c ∧
        sent_bytes c evs = received_bytes u evs) ∨
     (conn.state = .WRITE ∧ conn.sock = c ∧ conn.sock_other = u ∧
        sent_bytes c evs ++ pending conn = received_bytes u evs))

/-- An environment whose upstream delivers a chunk of eight bytes at each of the
first trace positions and then closes, and whose client accepts between 0 and
3 bytes at each `send`. -/
def trickle : Env :=
  { recv := fun k => if k < 20 then some [46, 46, 13, 10, 46, 13, 10, k] else some [],
    send := fun k => some (k % 4),
    connect := fun _ => some 9,
    stack := fun _ => [],
    heap := fun _ => [] }

/-- An environment whose upstream delivers a chunk of eight bytes, with dots,
line ends and a terminator line in it, at each of the first six trace
positions and then closes, and whose client accepts between 1 and 3 bytes at
each `send`. -/
def binary_feed : Env :=
  { recv := fun k => if k < 6 then some [46, 46, 13, 10, 46, 13, 10, k] else some [],
    send := fun k => some (k % 3 + 1),
    connect := fun _ => some 9,
    stack := fun _ => [],
    heap := fun _ => [] }

/-- The invariant of a connection stalled in `START`: since streaming of the
events `evs` began it has only received, its buffer keeps its first four
bytes `b4`, and it is still in `START`. -/
def stall_inv (sock : Int) (b4 : List Byte) (index : Nat) (base : List Event) (w : World) :
    Prop :=
  ∃ conn evs, w.connections[index]? = some conn ∧ w.trace = base ++ evs ∧
    (∀ e ∈ evs, ∃ r, e = .recv sock 0 1024 1024 r) ∧
    conn.state = .START ∧ conn.sock = sock ∧
    get_socket_index w.sockets conn.sock < w.sockets.length ∧
    4 ≤ conn.buffer.length ∧ conn.buffer.take 4 = b4

/-- A table state as the program keeps it: the descriptors of the table of
sockets are pairwise distinct, so are the active sockets of the connections,
and the socket of every connection is registered after the first
`number_interfaces` entries, which are the listeners. -/
def table_ok (w : World) : Prop :=
  (w.sockets.map (·.fd)).Nodup ∧
  (w.connections.map (·.sock)).Nodup ∧
  ∀ c ∈ w.connections, ∃ k, w.number_interfaces ≤ k ∧ (w.sockets[k]?).map (·.fd) = some c.sock

/-- The value of a string of decimal digits. -/
def decimal_value (digits : List Byte) : Nat :=
  digits.foldl (fun acc c => acc * 10 + (c - 48)) 0

/-- The whole string `s` scans as the base-10 integer `n`, in the sense of
`strtol`: `s` is optional white space, an optional sign, and a non-empty
sequence of decimal digits whose value, negated after a minus sign, is `n`. -/
def scans_as (s : List Byte) (n : Int) : Prop :=
  ∃ white sign digits, s = white ++ sign ++ digits ∧
    (∀ c ∈ white, isspace c = true) ∧
    (sign = [] ∨ sign = [43] ∨ sign = [45]) ∧
    digits ≠ [] ∧ (∀ c ∈ digits, isdigit c = true) ∧
    n = if sign = [45] then -(decimal_value digits : Int) else (decimal_value digits : Int)

/-- The event mask that goes with a state (specification, section 3): readable
in the states that read, writable in the states that write and on entering
`CONNECT`. -/
def poll_events : connection_state → Nat
  | .START => POLLIN
  | .PATH => POLLIN
  | .REQUEST_END => POLLIN
  | .READ => POLLIN
  | .CONNECT => POLLOUT
  | .REQUEST_WRITE => POLLOUT
  | .HEADER_WRITE => POLLOUT
  | .WRITE => POLLOUT

/-- The states after the upstream connection was opened. -/
def past_connect (s : connection_state) : Prop :=
  s = .REQUEST_WRITE ∨ s = .HEADER_WRITE ∨ s = .READ ∨ s = .WRITE

/-- The socket of a `recv` or `send` event. -/
def Event.io_sock : Event → Option Int
  | .recv sock _ _ _ _ => some sock
  | .send sock _ _ => some sock
  | .connect _ => none

/-- The sockets on which the events of a trace do I/O, in order. -/
def io_calls (evs : List Event) : List Int := evs.filterMap Event.io_sock

/-- The events of one invocation: at most one `recv` or `send`, on `sock`,
possibly followed by the upstream connect. -/
def one_call (sock : Int) (evs : List Event) : Prop :=
  evs = [] ∨ (∃ o l c r, evs = [.recv sock o l c r]) ∨ (∃ offered a, evs = [.send sock offered a]) ∨
  (∃ fd, evs = [.connect fd]) ∨ (∃ o l c r fd, evs = [.recv sock o l c r, .connect fd])

/-- The copy mode of a streaming connection is the one of its item type, or
the text mode that replaced the Gophermap mode. -/
def copymode_inv (c : connection) : Prop :=
  (c.state = .READ ∨ c.state = .WRITE) →
    (c.copymode = get_copymode c.itemtype ∨ c.copymode = .TEXT)

/-- The counters of the body buffer: the buffer has 1024 bytes while streaming;
in `WRITE` part of the chunk is still to be sent; in `READ` the chunk was sent
whole, or no chunk was received yet; before streaming `read` is 0. -/
def counters_inv (c : connection) : Prop :=
  ((c.state = .READ ∨ c.state = .WRITE) → c.buffer.length = 1024 ∧ c.read ≤ 1024) ∧
  (c.state = .WRITE → c.written < c.read) ∧
  (c.state = .READ → c.read = 0 ∨ c.written = c.read) ∧
  ((c.state ≠ .READ ∧ c.state ≠ .WRITE) → c.read = 0)

/-- The effect of an invocation that keeps the connection: `conn` and `w` are
the record and the world at entry, `c` and `w1` the record and the world at the
return (the record not yet stored in the table).  The socket is kept, or the
two sockets are switched, or the upstream is connected; the table of sockets
follows, with the event mask of the new state. -/
def kept (env : Env) (conn : connection) (w : World) (c : connection) (w1 : World) : Prop :=
  w1.connections = w.connections ∧ w1.number_interfaces = w.number_interfaces ∧
  (∃ evs, w1.trace = w.trace ++ evs ∧ one_call conn.sock evs) ∧
  ((c.sock = conn.sock ∧ c.sock_other = conn.sock_other ∧ w1.sockets = w.sockets ∧
      ((parser_state conn.state ∧ parser_state c.state) ∨ c.state = conn.state)) ∨
   (c.sock = conn.sock_other ∧ c.sock_other = conn.sock ∧
      w1.sockets = w.sockets.set (get_socket_index w.sockets conn.sock)
        { fd := c.sock, events := poll_events c.state } ∧
      past_connect conn.state ∧ past_connect c.state) ∨
   (c.sock_other = conn.sock ∧ (∃ k, env.connect k = some c.sock) ∧
      w1.sockets = w.sockets.set (get_socket_index w.sockets conn.sock)
        { fd := c.sock, events := poll_events c.state } ∧
      c.state = .REQUEST_WRITE)) ∧
  (copymode_inv conn → copymode_inv c) ∧
  (conn.state = .WRITE → c.copymode ≠ .GOPHERMAP) ∧
  (counters_inv conn → counters_inv c)

/-- The effect of an invocation that removes the connection in slot `index`. -/
def removed (index : Nat) (conn : connection) (w : World) (w1 : World) : Prop :=
  w1.sockets = swap_remove w.sockets (get_socket_index w.sockets conn.sock) ∧
  w1.connections = swap_remove w.connections index ∧
  w1.number_interfaces = w.number_interfaces ∧
  ∃ evs, w1.trace = w.trace ++ evs ∧ one_call conn.sock evs

/-- The invocation entered with the record `conn` in the world `w` stores
bytes outside the local array of the parser: in `REQUEST_END` the retained
bytes do not fit the array of 1024 bytes, or at least one byte is retained and
the `recv` delivers at least one byte, which lands `1024 * buffer_size` bytes
after the start of the array. -/
def stores_outside (env : Env) (conn : connection) (w : World) : Prop :=
  conn.state = .REQUEST_END ∧
  (1024 < conn.buffer_size ∨
   (1 ≤ conn.buffer_size ∧ recv_data env w (1024 - conn.buffer_size) ≠ []))

/-- The effect of the blocks of an invocation, by the way control leaves them;
the process exits only when `connect_to_remote` does, and the invocation ends
in a fault only when it stores outside the local array. -/
def Flow.effect (env : Env) (index : Nat) (conn : connection) (w : World) : Flow → Prop
  | .next c w1 => kept env conn w c w1
  | .ret c w1 => kept env conn w c w1
  | .gone w1 => removed index conn w w1
  | .exit => ∃ k, env.connect k = none
  | .fault _ => stores_outside env conn w

/-- The event mask registered for the socket of the connection `c` is the one
of its state: the socket has an entry in the table of sockets, and every
entry with that descriptor carries the mask `poll_events c.state`. -/
def mask_ok (w : World) (c : connection) : Prop :=
  (∃ e ∈ w.sockets, e.fd = c.sock) ∧
  ∀ e ∈ w.sockets, e.fd = c.sock → e.events = poll_events c.state

/-- The descriptor `fd` is not in use: it is a descriptor (not -1), it is not in
the table of sockets and it is neither socket of any connection. -/
def fresh (fd : Int) (w : World) : Prop :=
  fd ≠ -1 ∧ (∀ e ∈ w.sockets, e.fd ≠ fd) ∧
  ∀ c ∈ w.connections, c.sock ≠ fd ∧ c.sock_other ≠ fd

/-- The states the server reaches from the end of listener setup on the
descriptors `listeners`, by `add_connection` on an accepted descriptor not in
use, by `remove_connection`, and by every invocation of `handle_connection`
that returns, when every descriptor returned by the upstream connect is not in
use.  An invocation that does not return (`connect_to_remote` exits, or
`REQUEST_END` stores outside its local array) leaves no state. -/
inductive Reach (listeners : List Int) : World → Prop
  | init : Reach listeners (setup_listen listeners boot)
  | add (w : World) (sock : Int) :
      Reach listeners w → fresh sock w → Reach listeners (add_connection sock w)
  | remove (w w1 : World) (index : Nat) :
      Reach listeners w → remove_connection index w = some w1 → Reach listeners w1
  | handle (env : Env) (w w1 : World) (index : Nat) :
      Reach listeners w → (∀ k fd, env.connect k = some fd → fresh fd w) →
      handle_connection env index w = some w1 → Reach listeners w1

/-- The descriptors held by the server: the listeners, the active sockets of
the connections, and their idle sockets (where there is one). -/
def descriptors (listeners : List Int) (conns : List connection) : List Int :=
  listeners ++ conns.map (·.sock) ++ (conns.map (·.sock_other)).filter (· ≠ -1)

/-- The invariant of the table of sockets: its descriptors are the listeners
and the active sockets of the connections, all the descriptors held are
pairwise distinct and none is -1, and a connection past `CONNECT` has an idle
socket. -/
def fd_inv (listeners : List Int) (w : World) : Prop :=
  (w.sockets.map (·.fd)).Perm (listeners ++ w.connections.map (·.sock)) ∧
  (descriptors listeners w.connections).Nodup ∧
  (-1 : Int) ∉ listeners ++ w.connections.map (·.sock) ∧
  ∀ c ∈ w.connections, past_connect c.state → c.sock_other ≠ -1

/-- An environment whose client sends the request `GET /Ifoo.png HTTP/1.0` in
one chunk, and otherwise behaves as `trickle` (the upstream connect returns
the descriptor 9). -/
def one_request : Env :=
  { trickle with recv := fun _ => some (str "GET /Ifoo.png HTTP/1.0\r\n\r\n") }

/-- An environment whose upstream delivers the reply `..dotted` CRLF `.` CRLF
in one chunk and whose client accepts all the bytes of every `send`. -/
def dotted_reply : Env :=
  { trickle with
      recv := fun _ => some (str "..dotted\r\n.\r\n"),
      send := fun _ => some 1024 }

/-- The connection of `streaming .TEXT` in `WRITE`, after the chunk `..dotted`
CRLF `.` CRLF was received from the upstream (descriptor 9). -/
def dotted_chunk : World :=
  { sockets := [{ fd := 3, events := POLLIN }, { fd := 5, events := POLLOUT }],
    number_interfaces := 1,
    connections :=
      [{ new_connection 5 with
          state := .WRITE, sock_other := 9, itemtype := 48, copymode := .TEXT,
          buffer := str "..dotted\r\n.\r\n" ++ (fresh_block [] 1024).drop 13,
          read := 13, written := 0, beginning_of_line := true }],
    trace := [.recv 9 0 1024 1024 (some (str "..dotted\r\n.\r\n"))] }

/-- The outcome of a `WRITE` step that offers `send` the slice
`buffer[written + skip .. written + skip + left)`: the `send` is logged; when
it returns -1 the connection is removed; otherwise `written` advances by the
amount accepted plus `skip`, and the connection stays in `WRITE` with bytes
left to send, or goes back to `READ` with the chunk sent. -/
def write_outcome (env : Env) (index : Nat) (conn : connection) (w : World)
    (skip left : Nat) (w1 : World) : Prop :=
  w1.trace = w.trace ++
    [.send conn.sock ((conn.buffer.drop (conn.written + skip)).take left)
      (send_amount env w left)] ∧
  ((send_amount env w left = -1 ∧ w1.connections = swap_remove w.connections index) ∨
   ∃ (a : Nat) (c1 : connection), send_amount env w left = (a : Int) ∧ a ≤ left ∧
     w1.connections = w.connections.set index c1 ∧
     get_socket_index w1.sockets c1.sock < w1.sockets.length ∧
     c1.written = conn.written + a + skip ∧ c1.read = conn.read ∧
     c1.buffer = conn.buffer ∧ (conn.copymode = .BINARY → c1.copymode = .BINARY) ∧
     ((c1.state = .WRITE ∧ c1.written < c1.read) ∨
      (c1.state = .READ ∧ c1.written = c1.read)))

/-- The connection of `dotted_chunk`. -/
def dotted_conn : connection :=
  { new_connection 5 with
      state := .WRITE, sock_other := 9, itemtype := 48, copymode := .TEXT,
      buffer := str "..dotted\r\n.\r\n" ++ (fresh_block [] 1024).drop 13,
      read := 13, written := 0, beginning_of_line := true }

/-- The request line of the bytes received from a client (specification): the
bytes before the first CRLF, or all of them when there is none yet. -/
def request_line : List Byte → List Byte
  | 13 :: 10 :: _ => []
  | b :: rest => b :: request_line rest
  | [] => []

/-- What the parser buffer holds of the bytes `received` from the client: all
of them in `START`, all but the method `GET ` in `PATH`, and at most four
bytes in `REQUEST_END`. -/
def head_ok (received : List Byte) (c : connection) : Prop :=
  (c.state = .START → c.buffer = received) ∧
  (c.state = .PATH → str "GET " ++ c.buffer = received) ∧
  (c.state = .REQUEST_END → c.buffer.length ≤ 4 ∧ c.buffer.length ≤ received.length)

/-- The connection record `c` in the world `w`, for a client on `sock`, the
events since `base` being those of the connection: the socket of `c` is
registered, and either `c` is past the upstream connect or its buffer holds
what `head_ok` says of the bytes received from the client. -/
def head_at (sock : Int) (base : List Event) (c : connection) (w : World) : Prop :=
  get_socket_index w.sockets c.sock < w.sockets.length ∧
  ∃ evs, w.trace = base ++ evs ∧
    (((parser_state c.state ∨ c.state = .CONNECT) ∧ c.sock = sock ∧
        head_ok (received_bytes sock evs) c) ∨
     past_connect c.state)

/-- A property of the way control leaves a block: `N` when it falls through,
`R` when the function returns, `G` when the connection was removed, `X` when
the invocation does not return. -/
def Flow.sat (N R : connection → World → Prop) (G : World → Prop) (X : Prop) : Flow → Prop
  | .next c w => N c w
  | .ret c w => R c w
  | .gone w => G w
  | .exit => X
  | .fault _ => X

/-- The record `c` and world `w1` between the blocks of the parser states, in
an invocation entered in the world `w`: the table of connections is that of
`w`, and `c` is in a parser state or in `CONNECT`. -/
def head_mid (sock : Int) (base : List Event) (w : World) (c : connection) (w1 : World) :
    Prop :=
  w1.connections = w.connections ∧ head_at sock base c w1 ∧
  (parser_state c.state ∨ c.state = .CONNECT)

/-- The record `c` and world `w1` at the end of an invocation entered in the
world `w` that keeps the connection: `c` is not in `CONNECT`. -/
def head_end (sock : Int) (base : List Event) (w : World) (c : connection) (w1 : World) :
    Prop :=
  w1.connections = w.connections ∧ head_at sock base c w1 ∧ c.state ≠ .CONNECT

/-- The invariant of the parser buffer over a run, for the connection in slot
`index` that was accepted on `sock`, the events since `base` being its own. -/
def head_inv (sock : Int) (index : Nat) (base : List Event) (w : World) : Prop :=
  ∃ conn, w.connections[index]? = some conn ∧ conn.state ≠ .CONNECT ∧
    head_at sock base conn w

/-! ## The classifier -/

theorem recognised_itemtype_iff (t : Byte) :
    recognised_itemtype t = true ↔ t ∈ [48, 49, 52, 53, 54, 57, 103, 104, 73, 115] := by
  simp [recognised_itemtype]
  tauto

theorem recognised_ne_slash (t : Byte) (h : recognised_itemtype t = true) : t ≠ 47 := by
  rintro rfl
  simp [recognised_itemtype] at h

theorem get_itemtype_selector_eq_spec (path : List Byte) :
    get_itemtype_selector path = classify_spec path := by
  have key : ∀ l : List Byte, (if l.length = 0 then ((49 : Byte), l)
      else if l.length ≥ 1 ∧ recognised_itemtype (l.headD 0) = true then (l.headD 0, l.drop 1)
      else (default_itemtype, l)) =
      (match l with
        | [] => (49, [])
        | t :: rest =>
          if t ∈ [48, 49, 52, 53, 54, 57, 103, 104, 73, 115] then (t, rest)
          else (48, t :: rest)) := by
    intro l
    cases l with
    | nil => simp
    | cons t rest =>
      by_cases h : recognised_itemtype t = true
      · have h2 := (recognised_itemtype_iff t).1 h
        simp [h, h2]
      · have h2 : ¬ t ∈ [48, 49, 52, 53, 54, 57, 103, 104, 73, 115] :=
          fun hm => h ((recognised_itemtype_iff t).2 hm)
        simp [h, h2, default_itemtype]
  unfold get_itemtype_selector classify_spec
  cases path with
  | nil => simp
  | cons b rest =>
    by_cases hb : b = 47
    · subst hb
      simpa using key rest
    · have e : (match b :: rest with
          | 47 :: r => r
          | _ => b :: rest) = b :: rest := by
        split
        · rename_i heq
          simp at heq
          exact absurd heq.1 hb
        · rfl
      simp only [List.head?_cons, Option.some.injEq, hb, and_false, if_false, e]
      exact key (b :: rest)

/-- C2: `get_itemtype_selector` equals the reference classifier on every path,
and for a recognised item type `t` and any bytes `r` the path `t :: r` is
classified as `(t, r)`. -/
theorem C2_get_itemtype_selector_refines (path : List Byte) (t : Byte) (r : List Byte)
    (ht : recognised_itemtype t = true) :
    get_itemtype_selector path = classify_spec path ∧
    get_itemtype_selector (t :: r) = (t, r) := by
  refine ⟨get_itemtype_selector_eq_spec path, ?_⟩
  have h47 := recognised_ne_slash t ht
  simp [get_itemtype_selector, h47, ht]

theorem C2_witness :
    recognised_itemtype 73 = true ∧
    get_itemtype_selector (str "/Ifoo.png") = classify_spec (str "/Ifoo.png") ∧
    get_itemtype_selector (73 :: str "foo.png") = (73, str "foo.png") :=
  ⟨by decide, C2_get_itemtype_selector_refines (str "/Ifoo.png") 73 (str "foo.png") (by decide)⟩

/-- C3: for an item type other than I and s, `get_mimetype` does not look at
the selector and returns the media type of the table of the specification. -/
theorem C3_get_mimetype_table (itemtype : Byte) (selector : List Byte)
    (hI : itemtype ≠ 73) (hs : itemtype ≠ 115) :
    get_mimetype itemtype selector =
      if itemtype = 48 ∨ itemtype = 49 then "text/plain; charset=utf-8"
      else if itemtype = 52 then "application/binhex"
      else if itemtype = 53 ∨ itemtype = 57 then "application/octet-stream"
      else if itemtype = 54 then "text/x-uuencode"
      else if itemtype = 103 then "image/gif"
      else if itemtype = 104 then "text/html; charset=utf-8"
      else "application/octet-stream" := by
  unfold get_mimetype
  by_cases h49 : itemtype = 49
  · simp [h49]
  · simp only [h49, hI, hs, or_self, if_false, or_false, mimetypes, lookup_itemtype]
    by_cases h48 : itemtype = 48
    · simp [h48]
    by_cases h52 : itemtype = 52
    · simp [h52]
    by_cases h53 : itemtype = 53
    · simp [h53]
    by_cases h54 : itemtype = 54
    · simp [h54]
    by_cases h57 : itemtype = 57
    · simp [h57]
    by_cases h103 : itemtype = 103
    · simp [h103]
    by_cases h104 : itemtype = 104
    · simp [h104]
    simp [h48, h52, h53, h54, h57, h103, h104, default_mimetype]

theorem C3_witness :
    (104 : Byte) ≠ 73 ∧ (104 : Byte) ≠ 115 ∧
    get_mimetype 104 (str "index.png") = "text/html; charset=utf-8" :=
  ⟨by decide, by decide, C3_get_mimetype_table 104 (str "index.png") (by decide) (by decide)⟩

/-- C5: `get_copymode` is GOPHERMAP exactly for item type 1, TEXT exactly for
the item types 0, 4, 6 and h, and BINARY for every other byte. -/
theorem C5_get_copymode (c : Byte) :
    (get_copymode c = .GOPHERMAP ↔ c = 49) ∧
    (get_copymode c = .TEXT ↔ (c = 48 ∨ c = 52 ∨ c = 54 ∨ c = 104)) ∧
    (get_copymode c = .BINARY ↔ ¬ (c = 49 ∨ c = 48 ∨ c = 52 ∨ c = 54 ∨ c = 104)) := by
  unfold get_copymode
  by_cases h1 : c = 49
  · subst h1
    simp
  · by_cases h2 : c = 48 ∨ c = 52 ∨ c = 54 ∨ c = 104
    · simp [h1, h2]
    · simp [h1, h2]

/-! ## The media type of the item types I and s -/

theorem memrchr_append (s t : List Byte) (c : Byte) (n : Nat) (h : n ≤ s.length) :
    memrchr (s ++ t) c n = memrchr s c n := by
  induction n with
  | zero => rfl
  | succ k ih =>
    have hk : k < s.length := h
    simp only [memrchr]
    rw [ih (Nat.le_of_lt hk)]
    simp [List.getD_eq_getElem?_getD, List.getElem?_append_left hk]

theorem memrchr_snoc (s : List Byte) (b c : Byte) :
    memrchr (s ++ [b]) c (s.length + 1) =
      if b = c then some s.length else memrchr s c s.length := by
  simp only [memrchr]
  rw [memrchr_append s [b] c s.length (Nat.le_refl _)]
  simp [List.getD_eq_getElem?_getD]

theorem last_dot_suffix_snoc (s : List Byte) (b : Byte) :
    last_dot_suffix (s ++ [b]) =
      if b = 46 then some [b] else (last_dot_suffix s).map (· ++ [b]) := by
  induction s with
  | nil =>
    by_cases hb : b = 46 <;> simp [last_dot_suffix, hb]
  | cons a rest ih =>
    rw [List.cons_append]
    simp only [last_dot_suffix]
    rw [ih]
    by_cases hb : b = 46
    · simp [hb]
    · simp only [hb, if_false]
      cases h : last_dot_suffix rest with
      | some suffix => simp
      | none =>
        by_cases ha : a = 46 <;> simp [ha]

/-- The backwards scan of `memrchr` finds the start of the last-dot suffix. -/
theorem memrchr_last_dot (s : List Byte) :
    match memrchr s 46 s.length with
    | none => last_dot_suffix s = none
    | some off => off ≤ s.length ∧ last_dot_suffix s = some (s.drop off) := by
  induction s using List.reverseRecOn with
  | nil => simp [memrchr, last_dot_suffix]
  | append_singleton s b ih =>
    rw [List.length_append, List.length_singleton, memrchr_snoc, last_dot_suffix_snoc]
    by_cases hb : b = 46
    · simp [hb]
    · simp only [hb, if_false]
      cases h : memrchr s 46 s.length with
      | none =>
        rw [h] at ih
        simp [ih]
      | some off =>
        rw [h] at ih
        obtain ⟨hle, hsuf⟩ := ih
        refine ⟨Nat.le_succ_of_le hle, ?_⟩
        simp [hsuf, List.drop_append_of_le_length hle]

theorem lookup_extension_table (extension : List Byte) :
    (match lookup_extension extension extension_mimetypes with
      | some mimetype => mimetype
      | none => default_mimetype) = mimetype_of_suffix_spec (some extension) := by
  simp only [extension_mimetypes, lookup_extension, mimetype_of_suffix_spec, default_mimetype]
  by_cases h1 : extension = str ".jpg"
  · subst h1
    decide
  by_cases h2 : extension = str ".jpeg"
  · subst h2
    decide
  by_cases h3 : extension = str ".png"
  · subst h3
    decide
  by_cases h4 : extension = str ".wav"
  · subst h4
    decide
  by_cases h5 : extension = str ".mp3"
  · subst h5
    decide
  simp [h1, h2, h3, h4, h5]

/-- The media type of an image or sound selector: the extension table applied
to the last-dot suffix cut at its first NUL byte. -/
theorem get_mimetype_extension (itemtype : Byte) (selector : List Byte)
    (ht : itemtype = 73 ∨ itemtype = 115) :
    get_mimetype itemtype selector =
      mimetype_of_suffix_spec
        ((last_dot_suffix selector).map (fun suffix => suffix.takeWhile (· ≠ 0))) := by
  have h49 : itemtype ≠ 49 := by
    rcases ht with h | h <;> simp [h]
  have hscan := memrchr_last_dot selector
  unfold get_mimetype
  simp only [h49, ht, if_false, if_true]
  cases h : memrchr selector 46 selector.length with
  | none =>
    rw [h] at hscan
    simp [hscan, mimetype_of_suffix_spec, default_mimetype]
  | some off =>
    rw [h] at hscan
    obtain ⟨_, hsuf⟩ := hscan
    simp only [hsuf, Option.map_some']
    rw [← lookup_extension_table]
    have hfull : (selector.drop off).take (selector.length - off) = selector.drop off := by
      apply List.take_of_length_le
      simp
    simp [strndup, hfull]

/-- C4, as stated, fails: the selector `.png` followed by a NUL byte does not
end in a suffix of the table, and item type I still gives `image/png`. -/
theorem C4_counterexample :
    last_dot_suffix (str ".png" ++ [0]) = some (str ".png" ++ [0]) ∧
    mimetype_of_suffix_spec (last_dot_suffix (str ".png" ++ [0])) = "application/octet-stream" ∧
    get_mimetype 73 (str ".png" ++ [0]) = "image/png" ∧
    get_mimetype 73 (str ".png" ++ [0]) ≠
      mimetype_of_suffix_spec (last_dot_suffix (str ".png" ++ [0])) := by
  decide

/-- C4, amended: for item type I or s, `get_mimetype` applies the extension
table to the bytes that run from the last dot of the selector up to the first
NUL byte after it (to the end of the selector when there is none); so for a
selector without a NUL byte it applies the table to the last-dot suffix. -/
theorem C4_get_mimetype_extension (itemtype : Byte) (selector : List Byte)
    (ht : itemtype = 73 ∨ itemtype = 115) :
    get_mimetype itemtype selector =
      mimetype_of_suffix_spec
        ((last_dot_suffix selector).map (fun suffix => suffix.takeWhile (· ≠ 0))) ∧
    ((0 : Byte) ∉ selector →
      get_mimetype itemtype selector = mimetype_of_suffix_spec (last_dot_suffix selector)) := by
  refine ⟨get_mimetype_extension itemtype selector ht, fun hnul => ?_⟩
  rw [get_mimetype_extension itemtype selector ht]
  have hscan := memrchr_last_dot selector
  cases h : memrchr selector 46 selector.length with
  | none =>
    rw [h] at hscan
    simp [hscan]
  | some off =>
    rw [h] at hscan
    obtain ⟨_, hsuf⟩ := hscan
    have hall : (selector.drop off).takeWhile (· ≠ 0) = selector.drop off := by
      rw [List.takeWhile_eq_self_iff]
      intro x hx
      have hx2 : x ∈ selector := List.mem_of_mem_drop hx
      simp only [ne_eq, decide_eq_true_eq]
      rintro rfl
      exact hnul hx2
    simp only [hsuf, Option.map_some', hall]

theorem C4_witness :
    ((73 : Byte) = 73 ∨ (73 : Byte) = 115) ∧
    get_mimetype 73 (str "a.b.jpeg") =
      mimetype_of_suffix_spec
        ((last_dot_suffix (str "a.b.jpeg")).map (fun suffix => suffix.takeWhile (· ≠ 0))) ∧
    ((0 : Byte) ∉ str "a.b.jpeg" →
      get_mimetype 73 (str "a.b.jpeg") =
        mimetype_of_suffix_spec (last_dot_suffix (str "a.b.jpeg"))) :=
  ⟨by decide, C4_get_mimetype_extension 73 (str "a.b.jpeg") (by decide)⟩

/-! ## Memory and table lemmas -/

theorem fresh_block_length (g : List Byte) (n : Nat) : (fresh_block g n).length = n := by
  simp [fresh_block]

/-- A store at the start of an array that holds the data is inside the array. -/
theorem memwrite_zero (mem data : List Byte) (h : data.length ≤ mem.length) :
    memwrite mem 0 data = some (data ++ mem.drop data.length) := by
  unfold memwrite
  by_cases hd : data = []
  · simp [hd]
  · simp [hd, h]

theorem store_length (mem data : List Byte) (h : data.length ≤ mem.length) :
    (data ++ mem.drop data.length).length = mem.length := by
  simp only [List.length_append, List.length_drop]
  omega

theorem store_take (mem data : List Byte) :
    (data ++ mem.drop data.length).take data.length = data := by
  simp

/-- A store of at least one byte that ends after the end of the array is a
store outside the array. -/
theorem memwrite_outside (mem : List Byte) (off : Nat) (data : List Byte)
    (hd : data ≠ []) (h : mem.length < off + data.length) : memwrite mem off data = none := by
  unfold memwrite
  rw [if_neg hd, if_neg (by omega)]

theorem memwrite_nil (mem : List Byte) (off : Nat) : memwrite mem off [] = some mem := by
  simp [memwrite]

theorem recv_data_length (env : Env) (w : World) (len : Nat) :
    (recv_data env w len).length ≤ len := by
  unfold recv_data
  cases env.recv w.trace.length with
  | none => simp
  | some d => simp

/-- The store of the `recv` of `START` and `PATH` is inside the local array. -/
theorem memwrite_scratch (env : Env) (w : World) (g : List Byte) :
    memwrite (fresh_block g 1024) 0 (recv_data env w 1024) =
      some (recv_data env w 1024 ++ (fresh_block g 1024).drop (recv_data env w 1024).length) :=
  memwrite_zero _ _ (by rw [fresh_block_length]; exact recv_data_length env w 1024)

/-- The retained bytes of `REQUEST_END` fit the local array when there are at
most 1024 of them. -/
theorem memwrite_retained (g b : List Byte) (h : b.length ≤ 1024) :
    memwrite (fresh_block g 1024) 0 b = some (b ++ (fresh_block g 1024).drop b.length) :=
  memwrite_zero _ _ (by rw [fresh_block_length]; exact h)

theorem memwrite_retained_none (g b : List Byte) (h : 1024 < b.length) :
    memwrite (fresh_block g 1024) 0 b = none := by
  refine memwrite_outside _ _ _ ?_ (by rw [fresh_block_length]; omega)
  intro h0
  rw [h0] at h
  simp at h

/-- The store of the `recv` of `READ` is inside the body buffer. -/
theorem memwrite_body (env : Env) (w : World) (mem : List Byte) :
    memwrite mem 0 (recv_data env w mem.length) =
      some (recv_data env w mem.length ++ mem.drop (recv_data env w mem.length).length) :=
  memwrite_zero _ _ (recv_data_length env w mem.length)

theorem memchr_append_of_not_mem (p t : List Byte) (c : Byte) (h : c ∉ p) :
    memchr (p ++ c :: t) c = some p.length := by
  induction p with
  | nil => simp [memchr]
  | cons a rest ih =>
    have ha : a ≠ c := fun e => h (by simp [e])
    have hr : c ∉ rest := fun e => h (by simp [e])
    simp [memchr, ha, ih hr]

theorem get_socket_index_le (l : List pollfd) (sock : Int) :
    get_socket_index l sock ≤ l.length := by
  induction l with
  | nil => simp [get_socket_index]
  | cons s rest ih =>
    simp only [get_socket_index]
    split
    · simp
    · simpa using ih

theorem get_socket_index_lt_iff (l : List pollfd) (sock : Int) :
    get_socket_index l sock < l.length ↔ ∃ s ∈ l, s.fd = sock := by
  induction l with
  | nil => simp [get_socket_index]
  | cons s rest ih =>
    simp only [get_socket_index]
    by_cases h : s.fd = sock
    · simp [h]
    · simp [h, ih]

/-- The call `socket_change` succeeds when the old socket is in the table. -/
theorem socket_change_some (old new : Int) (events : Nat) (w : World)
    (h : get_socket_index w.sockets old < w.sockets.length) :
    socket_change old new events w =
      some { w with sockets :=
        w.sockets.set (get_socket_index w.sockets old) { fd := new, events := events } } := by
  simp [socket_change, World.number_sockets, Nat.ne_of_lt h]

theorem get_socket_index_set (l : List pollfd) (old new : Int) (events : Nat)
    (h : get_socket_index l old < l.length) :
    get_socket_index (l.set (get_socket_index l old) { fd := new, events := events }) new
      < (l.set (get_socket_index l old) { fd := new, events := events }).length := by
  rw [get_socket_index_lt_iff]
  refine ⟨{ fd := new, events := events }, ?_, rfl⟩
  exact List.mem_iff_getElem.2 ⟨get_socket_index l old, by simpa using h, by simp⟩

theorem recv_amount_some (env : Env) (w : World) (len : Nat) (d : List Byte)
    (h : env.recv w.trace.length = some d) :
    recv_amount env w len = ((d.take len).length : Int) := by
  simp [recv_amount, h]

theorem recv_data_some (env : Env) (w : World) (len : Nat) (d : List Byte)
    (h : env.recv w.trace.length = some d) :
    recv_data env w len = d.take len := by
  simp [recv_data, h]

theorem block_recv_head_bytes (env : Env) (index : Nat) (conn : connection) (w : World)
    (d : List Byte) (hs : conn.state = .START ∨ conn.state = .PATH)
    (h : env.recv w.trace.length = some d) (h0 : 0 < d.length) (h1 : d.length ≤ 1024) :
    block_recv env index conn w =
      .next { conn with buffer := conn.buffer ++ d }
        (w.log (.recv conn.sock 0 1024 1024 (some d))) := by
  have ht : d.take 1024 = d := List.take_of_length_le h1
  have hpos : ¬ ((d.length : Int) ≤ 0) := by omega
  have hw := memwrite_zero (fresh_block (env.stack w.trace.length) 1024) d
    (by rw [fresh_block_length]; exact h1)
  simp [block_recv, hs, recv_amount, recv_data, recv_event, h, ht, hpos, buffer_append, hw]


/-! ## Control flow of `handle_connection` -/

@[simp] theorem andThen_next (c : connection) (w : World) (k : connection → World → Flow) :
    (Flow.next c w).andThen k = k c w := rfl

@[simp] theorem andThen_ret (c : connection) (w : World) (k : connection → World → Flow) :
    (Flow.ret c w).andThen k = .ret c w := rfl

@[simp] theorem andThen_gone (w : World) (k : connection → World → Flow) :
    (Flow.gone w).andThen k = .gone w := rfl

@[simp] theorem andThen_exit (k : connection → World → Flow) :
    Flow.exit.andThen k = .exit := rfl

@[simp] theorem andThen_fault (w : World) (k : connection → World → Flow) :
    (Flow.fault w).andThen k = .fault w := rfl

theorem block_recv_skip (env : Env) (index : Nat) (conn : connection) (w : World)
    (h1 : conn.state ≠ .START) (h2 : conn.state ≠ .PATH) (h3 : conn.state ≠ .REQUEST_END) :
    block_recv env index conn w = .next conn w := by
  simp [block_recv, h1, h2, h3]

theorem block_start_skip (conn : connection) (w : World) (h : conn.state ≠ .START) :
    block_start conn w = .next conn w := by
  simp [block_start, h]

theorem block_path_skip (conn : connection) (w : World) (h : conn.state ≠ .PATH) :
    block_path conn w = .next conn w := by
  simp [block_path, h]

theorem block_request_end_skip (conn : connection) (w : World)
    (h : conn.state ≠ .REQUEST_END) : block_request_end conn w = .next conn w := by
  simp [block_request_end, h]

theorem block_connect_skip (env : Env) (conn : connection) (w : World)
    (h : conn.state ≠ .CONNECT) : block_connect env conn w = .next conn w := by
  simp [block_connect, h]

theorem block_request_write_skip (env : Env) (index : Nat) (conn : connection) (w : World)
    (h : conn.state ≠ .REQUEST_WRITE) : block_request_write env index conn w = .next conn w := by
  simp [block_request_write, h]

theorem block_header_write_skip (env : Env) (index : Nat) (conn : connection) (w : World)
    (h : conn.state ≠ .HEADER_WRITE) : block_header_write env index conn w = .next conn w := by
  simp [block_header_write, h]

theorem block_read_skip (env : Env) (index : Nat) (conn : connection) (w : World)
    (h : conn.state ≠ .READ) : block_read env index conn w = .next conn w := by
  simp [block_read, h]

theorem block_write_skip (env : Env) (index : Nat) (conn : connection) (w : World)
    (h : conn.state ≠ .WRITE) : block_write env index conn w = .next conn w := by
  simp [block_write, h]

theorem remove_and_return_next_state (index : Nat) (conn : connection) (w : World)
    (P : connection_state → Prop) : (remove_and_return index conn w).next_state P := by
  intro c w1 h
  unfold remove_and_return at h
  split at h <;> simp at h

theorem block_request_write_next_state (env : Env) (index : Nat) (conn : connection)
    (w : World) (hs : conn.state = .REQUEST_WRITE) :
    (block_request_write env index conn w).next_state (· = .REQUEST_WRITE) := by
  intro c w1 h
  simp only [block_request_write, hs, if_true] at h
  split at h
  · exact remove_and_return_next_state _ _ _ (· = conn.state) c w1 h ▸ hs
  · split at h
    · split at h <;> simp at h
    · simp only [Flow.next.injEq] at h
      rw [← h.1]

theorem block_header_write_next_state (env : Env) (index : Nat) (conn : connection)
    (w : World) (hs : conn.state = .HEADER_WRITE) :
    (block_header_write env index conn w).next_state (· = .HEADER_WRITE) := by
  intro c w1 h
  simp only [block_header_write, hs, if_true] at h
  split at h
  · exact remove_and_return_next_state _ _ _ (· = conn.state) c w1 h ▸ hs
  · split at h
    · split at h <;> simp at h
    · simp only [Flow.next.injEq] at h
      rw [← h.1]

theorem handle_request_write_eq (env : Env) (index : Nat) (w : World) (conn : connection)
    (hconn : w.connections[index]? = some conn) (hs : conn.state = .REQUEST_WRITE) :
    handle_connection env index w = (block_request_write env index conn w).finish index := by
  unfold handle_connection
  rw [hconn]
  simp only
  rw [block_recv_skip _ _ _ _ (by simp [hs]) (by simp [hs]) (by simp [hs])]
  simp only [andThen_next]
  rw [block_start_skip _ _ (by simp [hs]), andThen_next,
    block_path_skip _ _ (by simp [hs]), andThen_next,
    block_request_end_skip _ _ (by simp [hs]), andThen_next,
    block_connect_skip _ _ _ (by simp [hs]), andThen_next]
  have hn := block_request_write_next_state env index conn w hs
  cases hf : block_request_write env index conn w with
  | next c w1 =>
    have hc := hn c w1 hf
    simp only [andThen_next]
    rw [block_header_write_skip _ _ _ _ (by simp [hc]), andThen_next,
      block_read_skip _ _ _ _ (by simp [hc]), andThen_next,
      block_write_skip _ _ _ _ (by simp [hc])]
  | ret c w1 => rfl
  | gone w1 => rfl
  | exit => rfl
  | fault w1 => rfl


theorem handle_header_write_eq (env : Env) (index : Nat) (w : World) (conn : connection)
    (hconn : w.connections[index]? = some conn) (hs : conn.state = .HEADER_WRITE) :
    handle_connection env index w = (block_header_write env index conn w).finish index := by
  unfold handle_connection
  rw [hconn]
  simp only
  rw [block_recv_skip _ _ _ _ (by simp [hs]) (by simp [hs]) (by simp [hs])]
  simp only [andThen_next]
  rw [block_start_skip _ _ (by simp [hs]), andThen_next,
    block_path_skip _ _ (by simp [hs]), andThen_next,
    block_request_end_skip _ _ (by simp [hs]), andThen_next,
    block_connect_skip _ _ _ (by simp [hs]), andThen_next,
    block_request_write_skip _ _ _ _ (by simp [hs]), andThen_next]
  have hn := block_header_write_next_state env index conn w hs
  cases hf : block_header_write env index conn w with
  | next c w1 =>
    have hc := hn c w1 hf
    simp only [andThen_next]
    rw [block_read_skip _ _ _ _ (by simp [hc]), andThen_next,
      block_write_skip _ _ _ _ (by simp [hc])]
  | ret c w1 => rfl
  | gone w1 => rfl
  | exit => rfl
  | fault w1 => rfl

theorem block_read_next_state (env : Env) (index : Nat) (conn : connection)
    (w : World) (hs : conn.state = .READ) :
    (block_read env index conn w).next_state (fun _ => False) := by
  intro c w1 h
  simp only [block_read, hs, if_true, connection.buffer_size, memwrite_body] at h
  split at h
  · exact remove_and_return_next_state _ _ _ (fun _ => False) c w1 h
  · split at h
    · exact remove_and_return_next_state _ _ _ (fun _ => False) c w1 h
    · split at h <;> simp at h

theorem handle_read_eq (env : Env) (index : Nat) (w : World) (conn : connection)
    (hconn : w.connections[index]? = some conn) (hs : conn.state = .READ) :
    handle_connection env index w = (block_read env index conn w).finish index := by
  unfold handle_connection
  rw [hconn]
  simp only
  rw [block_recv_skip _ _ _ _ (by simp [hs]) (by simp [hs]) (by simp [hs])]
  simp only [andThen_next]
  rw [block_start_skip _ _ (by simp [hs]), andThen_next,
    block_path_skip _ _ (by simp [hs]), andThen_next,
    block_request_end_skip _ _ (by simp [hs]), andThen_next,
    block_connect_skip _ _ _ (by simp [hs]), andThen_next,
    block_request_write_skip _ _ _ _ (by simp [hs]), andThen_next,
    block_header_write_skip _ _ _ _ (by simp [hs]), andThen_next]
  have hn := block_read_next_state env index conn w hs
  cases hf : block_read env index conn w with
  | next c w1 => exact absurd (hn c w1 hf) id
  | ret c w1 => rfl
  | gone w1 => rfl
  | exit => rfl
  | fault w1 => rfl

theorem handle_write_eq (env : Env) (index : Nat) (w : World) (conn : connection)
    (hconn : w.connections[index]? = some conn) (hs : conn.state = .WRITE) :
    handle_connection env index w = (block_write env index conn w).finish index := by
  unfold handle_connection
  rw [hconn]
  simp only
  rw [block_recv_skip _ _ _ _ (by simp [hs]) (by simp [hs]) (by simp [hs])]
  simp only [andThen_next]
  rw [block_start_skip _ _ (by simp [hs]), andThen_next,
    block_path_skip _ _ (by simp [hs]), andThen_next,
    block_request_end_skip _ _ (by simp [hs]), andThen_next,
    block_connect_skip _ _ _ (by simp [hs]), andThen_next,
    block_request_write_skip _ _ _ _ (by simp [hs]), andThen_next,
    block_header_write_skip _ _ _ _ (by simp [hs]), andThen_next,
    block_read_skip _ _ _ _ (by simp [hs]), andThen_next]

theorem andThen_next_state (f : Flow) (k : connection → World → Flow)
    (P Q : connection_state → Prop) (hf : f.next_state P)
    (hk : ∀ c w, P c.state → (k c w).next_state Q) : (f.andThen k).next_state Q := by
  cases f with
  | next c w => exact hk c w (hf c w rfl)
  | ret c w => intro c1 w1 h; simp at h
  | gone w => intro c1 w1 h; simp at h
  | exit => intro c1 w1 h; simp at h
  | fault w1 => intro c1 w1 h; simp at h

theorem block_recv_next_state (env : Env) (index : Nat) (conn : connection) (w : World) :
    (block_recv env index conn w).next_state (· = conn.state) := by
  intro c w1 h
  unfold block_recv at h
  split at h
  · simp only [memwrite_scratch] at h
    split at h
    · exact remove_and_return_next_state _ _ _ (· = conn.state) c w1 h
    · simp only [Flow.next.injEq] at h
      rw [← h.1]
      rfl
  · split at h
    · simp only at h
      split at h
      · simp at h
      · split at h
        · exact remove_and_return_next_state _ _ _ (· = conn.state) c w1 h
        · split at h
          · simp at h
          · split at h
            · simp only [Flow.next.injEq] at h
              rw [← h.1]
            · simp only [Flow.next.injEq] at h
              rw [← h.1]
    · simp only [Flow.next.injEq] at h
      rw [← h.1]

theorem block_start_next_state (conn : connection) (w : World) (hs : parser_state conn.state) :
    (block_start conn w).next_state parser_state := by
  intro c w1 h
  unfold block_start at h
  split at h
  · split at h
    · simp only [Flow.next.injEq] at h
      rw [← h.1]
      simp [parser_state]
    · simp only [Flow.next.injEq] at h
      rw [← h.1]
      exact hs
  · simp only [Flow.next.injEq] at h
    rw [← h.1]
    exact hs

theorem block_path_next_state (conn : connection) (w : World) (hs : parser_state conn.state) :
    (block_path conn w).next_state parser_state := by
  intro c w1 h
  unfold block_path at h
  split at h
  · split at h
    · simp only [Flow.next.injEq] at h
      rw [← h.1]
      simp [parser_state]
    · simp only [Flow.next.injEq] at h
      rw [← h.1]
      exact hs
  · simp only [Flow.next.injEq] at h
    rw [← h.1]
    exact hs

theorem block_request_end_next_state (conn : connection) (w : World)
    (hs : parser_state conn.state) :
    (block_request_end conn w).next_state (fun s => parser_state s ∨ s = .CONNECT) := by
  intro c w1 h
  unfold block_request_end at h
  split at h
  · split at h
    · simp only [Flow.next.injEq] at h
      rw [← h.1]
      simp
    · simp only [Flow.next.injEq] at h
      rw [← h.1]
      exact Or.inl hs
  · simp only [Flow.next.injEq] at h
    rw [← h.1]
    exact Or.inl hs

theorem block_connect_next_state (env : Env) (conn : connection) (w : World)
    (hs : parser_state conn.state ∨ conn.state = .CONNECT) :
    (block_connect env conn w).next_state parser_state := by
  intro c w1 h
  unfold block_connect at h
  split at h
  · split at h
    · simp at h
    · simp only at h
      split at h <;> simp at h
  · simp only [Flow.next.injEq] at h
    rw [← h.1]
    rcases hs with hs | hs
    · exact hs
    · contradiction

/-- In a parser state only the blocks up to `CONNECT` run. -/
theorem handle_parser_eq (env : Env) (index : Nat) (w : World) (conn : connection)
    (hconn : w.connections[index]? = some conn) (hs : parser_state conn.state) :
    handle_connection env index w =
      (((((block_recv env index conn w).andThen block_start).andThen block_path).andThen
        block_request_end).andThen (block_connect env)).finish index := by
  unfold handle_connection
  rw [hconn]
  simp only
  have h1 : (block_recv env index conn w).next_state parser_state := by
    intro c w1 h
    rw [block_recv_next_state env index conn w c w1 h]
    exact hs
  have h2 := andThen_next_state _ block_start _ parser_state h1
    (fun c w hc => block_start_next_state c w hc)
  have h3 := andThen_next_state _ block_path _ parser_state h2
    (fun c w hc => block_path_next_state c w hc)
  have h4 := andThen_next_state _ block_request_end _ _ h3
    (fun c w hc => block_request_end_next_state c w hc)
  have h5 := andThen_next_state _ (block_connect env) _ parser_state h4
    (fun c w hc => block_connect_next_state env c w hc)
  cases hf : ((((block_recv env index conn w).andThen block_start).andThen block_path).andThen
        block_request_end).andThen (block_connect env) with
  | next c w1 =>
    have hc := h5 c w1 hf
    simp only [andThen_next]
    have hc1 : c.state ≠ .REQUEST_WRITE := by rcases hc with h | h | h <;> simp [h]
    have hc2 : c.state ≠ .HEADER_WRITE := by rcases hc with h | h | h <;> simp [h]
    have hc3 : c.state ≠ .READ := by rcases hc with h | h | h <;> simp [h]
    have hc4 : c.state ≠ .WRITE := by rcases hc with h | h | h <;> simp [h]
    rw [block_request_write_skip _ _ _ _ hc1, andThen_next,
      block_header_write_skip _ _ _ _ hc2, andThen_next,
      block_read_skip _ _ _ _ hc3, andThen_next,
      block_write_skip _ _ _ _ hc4]
  | ret c w1 => rfl
  | gone w1 => rfl
  | exit => rfl
  | fault w1 => rfl


/-! ## The request head -/

theorem str_GET : str "GET " = [71, 69, 84, 32] := by decide

theorem str_CRLF : str "\r\n" = [13, 10] := by decide

theorem str_CRLFCRLF : str "\r\n\r\n" = [13, 10, 13, 10] := by decide

theorem drop_length_sub_append (a b : List Byte) :
    (a ++ b).drop ((a ++ b).length - b.length) = b := by
  simp

/-- A complete request head in one chunk takes a fresh connection from `START`
through `PATH`, `REQUEST_END` and `CONNECT` to `REQUEST_WRITE`. -/
theorem handle_start_full_head (env : Env) (index : Nat) (w : World) (conn : connection)
    (p t0 : List Byte) (fd : Int)
    (hconn : w.connections[index]? = some conn) (hs : conn.state = .START)
    (hbuf : conn.buffer = [])
    (hreg : get_socket_index w.sockets conn.sock < w.sockets.length)
    (hp : (32 : Byte) ∉ p)
    (hlen : (str "GET " ++ p ++ 32 :: (t0 ++ str "\r\n\r\n")).length ≤ 1024)
    (hrecv : env.recv w.trace.length = some (str "GET " ++ p ++ 32 :: (t0 ++ str "\r\n\r\n")))
    (hcon : env.connect (w.trace.length + 1) = some fd) :
    handle_connection env index w =
      some { sockets := w.sockets.set (get_socket_index w.sockets conn.sock)
               { fd := fd, events := POLLOUT },
             number_interfaces := w.number_interfaces,
             connections := w.connections.set index
               { conn with state := .REQUEST_WRITE,
                           sock := fd,
                           sock_other := conn.sock,
                           itemtype := (get_itemtype_selector p).1,
                           path := (get_itemtype_selector p).2,
                           buffer := (get_itemtype_selector p).2 ++ str "\r\n" },
             trace := w.trace ++
               [.recv conn.sock 0 1024 1024
                  (some (str "GET " ++ p ++ 32 :: (t0 ++ str "\r\n\r\n"))),
                .connect fd] } := by
  rw [handle_parser_eq env index w conn hconn (Or.inl hs)]
  rw [block_recv_head_bytes env index conn w _ (Or.inl hs) hrecv (by simp [str_GET]) hlen]
  simp only [andThen_next, hbuf, List.nil_append]
  have e1 : block_start { conn with buffer := str "GET " ++ p ++ 32 :: (t0 ++ str "\r\n\r\n") }
      (w.log (.recv conn.sock 0 1024 1024
        (some (str "GET " ++ p ++ 32 :: (t0 ++ str "\r\n\r\n"))))) =
      .next { conn with buffer := p ++ 32 :: (t0 ++ str "\r\n\r\n"), state := .PATH }
        (w.log (.recv conn.sock 0 1024 1024
          (some (str "GET " ++ p ++ 32 :: (t0 ++ str "\r\n\r\n"))))) := by
    simp [block_start, hs, connection.buffer_size, str_GET]
  rw [e1, andThen_next]
  have e2 : block_path { conn with buffer := p ++ 32 :: (t0 ++ str "\r\n\r\n"), state := .PATH }
      (w.log (.recv conn.sock 0 1024 1024
        (some (str "GET " ++ p ++ 32 :: (t0 ++ str "\r\n\r\n"))))) =
      .next { conn with path := p, buffer := str "\r\n\r\n", state := .REQUEST_END }
        (w.log (.recv conn.sock 0 1024 1024
          (some (str "GET " ++ p ++ 32 :: (t0 ++ str "\r\n\r\n"))))) := by
    have hd : (p ++ 32 :: (t0 ++ str "\r\n\r\n")).drop
        ((p ++ 32 :: (t0 ++ str "\r\n\r\n")).length - 4) = str "\r\n\r\n" := by
      have := drop_length_sub_append (p ++ 32 :: t0) (str "\r\n\r\n")
      simpa [str_CRLFCRLF] using this
    have hl : ¬ ((p ++ 32 :: (t0 ++ str "\r\n\r\n")).length - p.length < 4) := by
      simp [str_CRLFCRLF]
    simp only [block_path, if_true, memchr_append_of_not_mem p _ 32 hp, connection.buffer_size,
      hl, if_false, hd]
    simp [str_CRLFCRLF]
  rw [e2, andThen_next]
  simp only [block_request_end, connection.buffer_size, if_true]
  simp only [str_CRLFCRLF, List.length_cons, List.length_nil, List.take_succ_cons, List.take_zero,
    ge_iff_le, Nat.le_refl, and_self, if_true, andThen_next]
  simp only [block_connect, if_true, World.log, List.length_append, List.length_singleton, hcon]
  rw [socket_change_some _ _ _ _ (by simpa using hreg)]
  simp [Flow.finish, buffer_append, str_CRLF, str_GET]


theorem send_amount_some (env : Env) (w : World) (left n : Nat)
    (h : env.send w.trace.length = some n) :
    send_amount env w left = ((min n left : Nat) : Int) := by
  simp [send_amount, h]

/-- A `send` in `REQUEST_WRITE` that accepts all the bytes offered completes the
request: the response head replaces the buffer and the state is `HEADER_WRITE`. -/
theorem handle_request_write_done (env : Env) (index : Nat) (w : World) (conn : connection)
    (n : Nat) (hconn : w.connections[index]? = some conn) (hs : conn.state = .REQUEST_WRITE)
    (hreg : get_socket_index w.sockets conn.sock < w.sockets.length)
    (hsend : env.send w.trace.length = some n)
    (hall : conn.buffer.length - conn.written ≤ n) :
    handle_connection env index w =
      some { sockets := w.sockets.set (get_socket_index w.sockets conn.sock)
               { fd := conn.sock_other, events := POLLOUT },
             number_interfaces := w.number_interfaces,
             connections := w.connections.set index
               { conn with state := .HEADER_WRITE,
                           buffer := response_head (get_mimetype conn.itemtype conn.path),
                           written := 0,
                           sock := conn.sock_other,
                           sock_other := conn.sock },
             trace := w.trace ++ [.send conn.sock (conn.buffer.drop conn.written)
               ((conn.buffer.length - conn.written : Nat) : Int)] } := by
  rw [handle_request_write_eq env index w conn hconn hs]
  have hmin : min n (conn.buffer.length - conn.written) = conn.buffer.length - conn.written :=
    Nat.min_eq_right hall
  have hne : ¬ (((conn.buffer.length - conn.written : Nat) : Int) = -1) := by omega
  have hge : conn.written + (conn.buffer.length - conn.written) ≥ conn.buffer.length := by omega
  have htake : (conn.buffer.drop conn.written).take (conn.buffer.length - conn.written) =
      conn.buffer.drop conn.written := List.take_of_length_le (by simp)
  simp only [block_request_write, hs, if_true, connection.buffer_size,
    send_amount_some env w _ n hsend, hmin, hne, if_false, Int.toNat_ofNat, hge, switch_sockets,
    htake]
  rw [socket_change_some _ _ _ _ (by simpa [World.log] using hreg)]
  simp [Flow.finish, World.log]

/-- A `send` in `REQUEST_WRITE` that accepts fewer bytes than offered only
advances `written`. -/
theorem handle_request_write_partial (env : Env) (index : Nat) (w : World) (conn : connection)
    (n : Nat) (hconn : w.connections[index]? = some conn) (hs : conn.state = .REQUEST_WRITE)
    (hsend : env.send w.trace.length = some n)
    (hpart : n < conn.buffer.length - conn.written) :
    handle_connection env index w =
      some { w with
             connections := w.connections.set index { conn with written := conn.written + n },
             trace := w.trace ++ [.send conn.sock
               ((conn.buffer.drop conn.written).take (conn.buffer.length - conn.written))
               (n : Int)] } := by
  rw [handle_request_write_eq env index w conn hconn hs]
  have hmin : min n (conn.buffer.length - conn.written) = n :=
    Nat.min_eq_left (Nat.le_of_lt hpart)
  have hne : ¬ ((n : Int) = -1) := by omega
  have hge : ¬ (conn.written + n ≥ conn.buffer.length) := by omega
  simp only [block_request_write, hs, if_true, connection.buffer_size,
    send_amount_some env w _ n hsend, hmin, hne, if_false, Int.toNat_ofNat, hge]
  simp [Flow.finish, World.log]

/-- C1: a fresh connection that receives a complete request head `GET p t` in
one chunk (`p` without a space, `t` ending in CRLF CRLF, at most 1024 bytes),
the upstream connect succeeding, ends the invocation in `REQUEST_WRITE` with
the buffer `selector ++ CRLF`, the item type and selector being those of
`get_itemtype_selector p`; from there a `send` that accepts fewer bytes than
are left only advances `written`, and the `send` that accepts the rest makes
the buffer the response head with the media type of `get_mimetype` and the
state `HEADER_WRITE`. -/
theorem C1_request_to_response_head (env env2 : Env) (index : Nat) (w w1 : World)
    (conn : connection) (p t0 : List Byte) (fd : Int) (k n : Nat)
    (hconn : w.connections[index]? = some conn) (hs : conn.state = .START)
    (hbuf : conn.buffer = []) (hwritten : conn.written = 0)
    (hreg : get_socket_index w.sockets conn.sock < w.sockets.length)
    (hp : (32 : Byte) ∉ p)
    (hlen : (str "GET " ++ p ++ 32 :: (t0 ++ str "\r\n\r\n")).length ≤ 1024)
    (hrecv : env.recv w.trace.length = some (str "GET " ++ p ++ 32 :: (t0 ++ str "\r\n\r\n")))
    (hcon : env.connect (w.trace.length + 1) = some fd) (_hfd : fd ≠ -1)
    (hw1 : w1.connections[index]? = some
      { conn with state := .REQUEST_WRITE,
                  sock := fd,
                  sock_other := conn.sock,
                  itemtype := (get_itemtype_selector p).1,
                  path := (get_itemtype_selector p).2,
                  buffer := (get_itemtype_selector p).2 ++ str "\r\n",
                  written := k })
    (hreg1 : get_socket_index w1.sockets fd < w1.sockets.length)
    (_hk : k < ((get_itemtype_selector p).2 ++ str "\r\n").length)
    (hsend : env2.send w1.trace.length = some n) :
    (∃ w0, handle_connection env index w = some w0 ∧
      w0.connections[index]? = some
        { conn with state := .REQUEST_WRITE,
                    sock := fd,
                    sock_other := conn.sock,
                    itemtype := (get_itemtype_selector p).1,
                    path := (get_itemtype_selector p).2,
                    buffer := (get_itemtype_selector p).2 ++ str "\r\n",
                    written := 0 } ∧
      get_socket_index w0.sockets fd < w0.sockets.length) ∧
    (n < ((get_itemtype_selector p).2 ++ str "\r\n").length - k →
      ∃ w2, handle_connection env2 index w1 = some w2 ∧
        w2.connections[index]? = some
          { conn with state := .REQUEST_WRITE,
                      sock := fd,
                      sock_other := conn.sock,
                      itemtype := (get_itemtype_selector p).1,
                      path := (get_itemtype_selector p).2,
                      buffer := (get_itemtype_selector p).2 ++ str "\r\n",
                      written := k + n } ∧
        get_socket_index w2.sockets fd < w2.sockets.length) ∧
    (((get_itemtype_selector p).2 ++ str "\r\n").length - k ≤ n →
      ∃ w2, handle_connection env2 index w1 = some w2 ∧
        w2.connections[index]? = some
          { conn with state := .HEADER_WRITE,
                      sock := conn.sock,
                      sock_other := fd,
                      itemtype := (get_itemtype_selector p).1,
                      path := (get_itemtype_selector p).2,
                      buffer := str "HTTP/1.1 200 OK\r\nContent-type: " ++
                        str (get_mimetype (get_itemtype_selector p).1 (get_itemtype_selector p).2)
                        ++ str "\r\n\r\n",
                      written := 0 }) := by
  have hidx : index < w.connections.length := by
    rcases Nat.lt_or_ge index w.connections.length with h | h
    · exact h
    · rw [List.getElem?_eq_none h] at hconn
      exact absurd hconn (by simp)
  have hidx1 : index < w1.connections.length := by
    rcases Nat.lt_or_ge index w1.connections.length with h | h
    · exact h
    · rw [List.getElem?_eq_none h] at hw1
      exact absurd hw1 (by simp)
  refine ⟨?_, ?_, ?_⟩
  · refine ⟨_, handle_start_full_head env index w conn p t0 fd hconn hs hbuf hreg hp hlen hrecv
      hcon, ?_, ?_⟩
    · simp [hidx, hwritten.symm]
    · exact get_socket_index_set w.sockets conn.sock fd POLLOUT hreg
  · intro hpart
    refine ⟨_, handle_request_write_partial env2 index w1 _ n hw1 rfl hsend hpart, ?_, ?_⟩
    · simp [hidx1]
    · exact hreg1
  · intro hall
    refine ⟨_, handle_request_write_done env2 index w1 _ n hw1 rfl hreg1 hsend hall, ?_⟩
    simp [hidx1, response_head]


theorem C1_witness :
    ((∃ w0, handle_connection
        (script [.data (str "GET /Ifoo.png HTTP/1.0\r\n\r\n"), .fd 9] []) 0 one_client = some w0 ∧
      w0.connections[0]? = some
        { new_connection 5 with
                    state := .REQUEST_WRITE,
                    sock := 9,
                    sock_other := (new_connection 5).sock,
                    itemtype := (get_itemtype_selector (str "/Ifoo.png")).1,
                    path := (get_itemtype_selector (str "/Ifoo.png")).2,
                    buffer := (get_itemtype_selector (str "/Ifoo.png")).2 ++ str "\r\n",
                    written := 0 } ∧
      get_socket_index w0.sockets 9 < w0.sockets.length) ∧
    (4 < ((get_itemtype_selector (str "/Ifoo.png")).2 ++ str "\r\n").length - 3 →
      ∃ w2, handle_connection (script [.fail, .fail, .accept 4] []) 0
          { one_client_request with
            connections := one_client_request.connections.map
              (fun c => { c with written := 3 }) } = some w2 ∧
        w2.connections[0]? = some
          { new_connection 5 with
                      state := .REQUEST_WRITE,
                      sock := 9,
                      sock_other := (new_connection 5).sock,
                      itemtype := (get_itemtype_selector (str "/Ifoo.png")).1,
                      path := (get_itemtype_selector (str "/Ifoo.png")).2,
                      buffer := (get_itemtype_selector (str "/Ifoo.png")).2 ++ str "\r\n",
                      written := 3 + 4 } ∧
        get_socket_index w2.sockets 9 < w2.sockets.length) ∧
    (((get_itemtype_selector (str "/Ifoo.png")).2 ++ str "\r\n").length - 3 ≤ 4 →
      ∃ w2, handle_connection (script [.fail, .fail, .accept 4] []) 0
          { one_client_request with
            connections := one_client_request.connections.map
              (fun c => { c with written := 3 }) } = some w2 ∧
        w2.connections[0]? = some
          { new_connection 5 with
                      state := .HEADER_WRITE,
                      sock := (new_connection 5).sock,
                      sock_other := 9,
                      itemtype := (get_itemtype_selector (str "/Ifoo.png")).1,
                      path := (get_itemtype_selector (str "/Ifoo.png")).2,
                      buffer := str "HTTP/1.1 200 OK\r\nContent-type: " ++
                        str (get_mimetype (get_itemtype_selector (str "/Ifoo.png")).1
                          (get_itemtype_selector (str "/Ifoo.png")).2)
                        ++ str "\r\n\r\n",
                      written := 0 })) ∧
    get_itemtype_selector (str "/Ifoo.png") = (73, str "foo.png") ∧
    get_mimetype 73 (str "foo.png") = "image/png" ∧
    get_itemtype_selector [] = (49, []) ∧
    get_mimetype 49 [] = "text/plain; charset=utf-8" ∧
    get_itemtype_selector (str "/h%2Findex.html") = (104, str "%2Findex.html") ∧
    get_mimetype 104 (str "%2Findex.html") = "text/html; charset=utf-8" ∧
    (handle_connection (script [.fail, .fail, .accept 100] []) 0 one_client_request).map
        (fun w => w.connections.map (fun c => (c.state, c.sock, c.sock_other, c.buffer))) =
      some [(.HEADER_WRITE, 5, 9, str "HTTP/1.1 200 OK\r\nContent-type: image/png\r\n\r\n")] :=
  ⟨C1_request_to_response_head
    (script [.data (str "GET /Ifoo.png HTTP/1.0\r\n\r\n"), .fd 9] [])
    (script [.fail, .fail, .accept 4] []) 0 one_client
    { one_client_request with
      connections := one_client_request.connections.map (fun c => { c with written := 3 }) }
    (new_connection 5) (str "/Ifoo.png") (str "HTTP/1.0") 9 3 4
    (by decide) (by decide) (by decide) (by decide) (by decide) (by decide) (by decide)
    (by decide) (by decide) (by decide) (by decide) (by decide) (by decide) (by decide),
    by decide, by decide, by decide, by decide, by decide, by decide, by decide⟩

/-! ## Evaluations of the state machine -/

/-- C6: the body `..hello CRLF world CRLF . CRLF` in TEXT mode.  Received in
one chunk, the client is sent `.hello CRLF world CRLF` and the connection is
removed at the terminator.  Received as the chunk `.` followed by the rest
(the boundary between the two dots), the client is sent both dots: the
dot-stuffing is not undone. -/
theorem C6_text_body_split_between_dots :
    (run (script [.data (str "..hello\r\nworld\r\n.\r\n"), .accept 1024, .accept 1024] [])
        0 10 (streaming .TEXT)).map
      (fun w => (sent_bytes 5 w.trace, w.number_connections, w.number_sockets)) =
      some (str ".hello\r\nworld\r\n", 0, 1) ∧
    (run (script [.data (str "."), .accept 1024, .data (str ".hello\r\nworld\r\n.\r\n"),
          .accept 1024, .accept 1024] [])
        0 10 (streaming .TEXT)).map
      (fun w => (sent_bytes 5 w.trace, w.number_connections, w.number_sockets)) =
      some (str "..hello\r\nworld\r\n", 0, 1) ∧
    received_bytes 9 ((run (script [.data (str "."), .accept 1024,
          .data (str ".hello\r\nworld\r\n.\r\n"), .accept 1024, .accept 1024] [])
        0 10 (streaming .TEXT)).map (·.trace) |>.getD []) = str "..hello\r\nworld\r\n.\r\n" := by
  decide

/-- C8: the request head `GET /x HTTP/1.0 CRLF` followed by the chunk `CRLF`.
After the first chunk the connection is in `REQUEST_END` with the four
retained bytes `.0 CRLF`.  The second `recv` is given a destination 4096
bytes past the start of the 1024-byte array, so the two bytes received are
stored outside the array: the retained bytes never become `CRLF CRLF`, the
connection does not go to `CONNECT`, and the invocation does not return
(whatever the uninitialised array holds). -/
theorem C8_request_end_split_sentinel :
    (run (script [.data (str "GET /x HTTP/1.0\r\n"), .data (str "\r\n")] []) 0 1 one_client).map
      (fun w => w.connections.map (fun c => (c.state, c.buffer))) =
      some [(.REQUEST_END, str ".0\r\n")] ∧
    (run (script [.data (str "GET /x HTTP/1.0\r\n"), .data (str "\r\n")] []) 0 1 one_client).map
      (fun w => w.connections.map (fun c =>
        match block_recv (script [.data (str "GET /x HTTP/1.0\r\n"), .data (str "\r\n")] [])
            0 c w with
        | .fault w1 => w1.trace.getLast?
        | _ => none)) =
      some [some (.recv 5 4096 1020 1024 (some (str "\r\n")))] ∧
    run (script [.data (str "GET /x HTTP/1.0\r\n"), .data (str "\r\n")] []) 0 2 one_client =
      none ∧
    run (script [.data (str "GET /x HTTP/1.0\r\n"), .data (str "\r\n")] (List.replicate 1024 88))
      0 2 one_client = none := by
  decide

/-- C9: a complete request head while `connect_to_remote` returns -1.  The
connection is not removed: it stays in the table in `REQUEST_WRITE` with the
socket -1, and its entry of the table of sockets now holds the descriptor -1. -/
theorem C9_connect_failure_not_removed :
    (handle_connection (script [.data (str "GET /x HTTP/1.0\r\n\r\n"), .fd (-1)] [])
        0 one_client).map (fun w => w.connections) =
      some [{ new_connection 5 with
              state := .REQUEST_WRITE, sock := -1, sock_other := 5, path := str "x",
              buffer := str "x\r\n", itemtype := 48 }] ∧
    (handle_connection (script [.data (str "GET /x HTTP/1.0\r\n\r\n"), .fd (-1)] [])
        0 one_client).map (fun w => w.sockets) =
      some [{ fd := 3, events := POLLIN }, { fd := -1, events := POLLOUT }] ∧
    (handle_connection (script [.data (str "GET /x HTTP/1.0\r\n\r\n"), .fd (-1)] [])
        0 one_client).map (fun w => w.trace.getLast?) = some (some (.connect (-1))) ∧
    one_client.number_connections = 1 := by
  decide


/-! ## Failure of the I/O call -/

theorem take_set_of_le {α : Type} (a : α) {n m : Nat} (l : List α) (h : m ≤ n) :
    (l.set n a).take m = l.take m :=
  List.ext_getElem? fun i => by
    rw [List.getElem?_take, List.getElem?_take]
    split
    · rw [List.getElem?_set_ne (by omega)]
    · rfl

theorem swap_remove_length {α : Type} (table : List α) (index : Nat)
    (h : index < table.length) :
    (swap_remove table index).length + 1 = table.length := by
  unfold swap_remove
  simp only [List.length_take]
  split
  · split
    · simp only [List.length_set]
      omega
    · omega
  · omega

theorem swap_remove_set {α : Type} (table : List α) (index : Nat) (x : α) :
    swap_remove (table.set index x) index = swap_remove table index := by
  unfold swap_remove
  simp only [List.length_set]
  by_cases h : index = table.length - 1
  · simp only [h, ne_eq, not_true_eq_false, if_false]
    exact take_set_of_le x table (Nat.le_refl _)
  · simp only [ne_eq, h, not_false_eq_true, if_true]
    have hl : (table.set index x).getLast? = table.getLast? := by
      rw [List.getLast?_eq_getElem?, List.getLast?_eq_getElem?, List.length_set,
        List.getElem?_set_ne h]
    rw [hl]
    cases hlast : table.getLast? with
    | none =>
      have hnil : table = [] := List.getLast?_eq_none_iff.1 hlast
      subst hnil
      rfl
    | some last => simp [List.set_set]

theorem getElem?_lt_length {α : Type} {l : List α} {i : Nat} {x : α}
    (h : l[i]? = some x) : i < l.length := by
  rcases Nat.lt_or_ge i l.length with h1 | h1
  · exact h1
  · rw [List.getElem?_eq_none h1] at h
    exact absurd h (by simp)

/-- The statements `remove_connection(index); return;` when the connection's
socket is in the table of sockets: both tables lose one entry. -/
theorem remove_and_return_finish (index : Nat) (conn c : connection) (w : World)
    (hconn : w.connections[index]? = some conn)
    (hreg : get_socket_index w.sockets c.sock < w.sockets.length) :
    (remove_and_return index c w).finish index =
      some { w with
             sockets := swap_remove w.sockets (get_socket_index w.sockets c.sock),
             connections := swap_remove w.connections index } := by
  have hidx := getElem?_lt_length hconn
  simp only [remove_and_return, remove_connection, World.number_sockets]
  rw [List.getElem?_set_eq_of_lt _ hidx]
  simp only [Nat.ne_of_lt hreg, if_false, remove_socket, swap_remove_set, Flow.finish]


@[simp] theorem andThen_remove_and_return (index : Nat) (c : connection) (w : World)
    (k : connection → World → Flow) :
    (remove_and_return index c w).andThen k = remove_and_return index c w := by
  unfold remove_and_return
  split <;> rfl

/-- The world left by an invocation that removed the connection in slot `index`
after logging the events `evs`. -/
theorem finish_removed (index : Nat) (conn c : connection) (w : World) (evs : List Event)
    (hconn : w.connections[index]? = some conn) (hsock : c.sock = conn.sock)
    (hreg : get_socket_index w.sockets conn.sock < w.sockets.length) :
    (remove_and_return index c { w with trace := w.trace ++ evs }).finish index =
      some { sockets := swap_remove w.sockets (get_socket_index w.sockets conn.sock),
             number_interfaces := w.number_interfaces,
             connections := swap_remove w.connections index,
             trace := w.trace ++ evs } := by
  have h := remove_and_return_finish index conn c { w with trace := w.trace ++ evs } hconn
    (by rw [hsock]; exact hreg)
  rw [h, hsock]

theorem recv_amount_fail (env : Env) (w : World) (len : Nat)
    (h : env.recv w.trace.length = none ∨ env.recv w.trace.length = some []) :
    recv_amount env w len = -1 ∨ recv_amount env w len = 0 := by
  rcases h with h | h
  · left; simp [recv_amount, h]
  · right; simp [recv_amount, h]

theorem handle_parser_recv_fail (env : Env) (index : Nat) (w : World) (conn : connection)
    (hconn : w.connections[index]? = some conn) (hs : parser_state conn.state)
    (hbuf : conn.state = .REQUEST_END → conn.buffer_size ≤ 1024)
    (hreg : get_socket_index w.sockets conn.sock < w.sockets.length)
    (h : env.recv w.trace.length = none ∨ env.recv w.trace.length = some []) :
    ∃ e, handle_connection env index w =
      some { sockets := swap_remove w.sockets (get_socket_index w.sockets conn.sock),
             number_interfaces := w.number_interfaces,
             connections := swap_remove w.connections index,
             trace := w.trace ++ [e] } := by
  rw [handle_parser_eq env index w conn hconn hs]
  by_cases h1 : conn.state = .START ∨ conn.state = .PATH
  · have ha : recv_amount env w 1024 ≤ 0 := by
      rcases recv_amount_fail env w 1024 h with h | h <;> omega
    refine ⟨recv_event env w conn.sock 0 1024 1024, ?_⟩
    have key : block_recv env index conn w = remove_and_return index conn
        { w with trace := w.trace ++ [recv_event env w conn.sock 0 1024 1024] } := by
      unfold block_recv
      simp only [h1, if_true, ha, World.log]
    rw [key]
    simp only [andThen_remove_and_return]
    exact finish_removed index conn conn w _ hconn rfl hreg
  · have h3 : conn.state = .REQUEST_END := by
      rcases hs with h | h | h
      · exact absurd (Or.inl h) h1
      · exact absurd (Or.inr h) h1
      · exact h
    have ha : recv_amount env w (1024 - conn.buffer_size) ≤ 0 := by
      rcases recv_amount_fail env w (1024 - conn.buffer_size) h with h | h <;> omega
    refine ⟨recv_event env w conn.sock (1024 * conn.buffer_size) (1024 - conn.buffer_size) 1024,
      ?_⟩
    have key : block_recv env index conn w = remove_and_return index conn
        { w with trace := w.trace ++
          [recv_event env w conn.sock (1024 * conn.buffer_size) (1024 - conn.buffer_size)
            1024] } := by
      unfold block_recv
      simp only [h3, reduceCtorEq, or_self, if_false, if_true, ha, World.log,
        memwrite_retained _ _ (hbuf h3)]
    rw [key]
    simp only [andThen_remove_and_return]
    exact finish_removed index conn conn w _ hconn rfl hreg

theorem handle_read_recv_fail (env : Env) (index : Nat) (w : World) (conn : connection)
    (hconn : w.connections[index]? = some conn) (hs : conn.state = .READ)
    (hreg : get_socket_index w.sockets conn.sock < w.sockets.length)
    (h : env.recv w.trace.length = none ∨ env.recv w.trace.length = some []) :
    ∃ e, handle_connection env index w =
      some { sockets := swap_remove w.sockets (get_socket_index w.sockets conn.sock),
             number_interfaces := w.number_interfaces,
             connections := swap_remove w.connections index,
             trace := w.trace ++ [e] } := by
  rw [handle_read_eq env index w conn hconn hs]
  refine ⟨recv_event env w conn.sock 0 conn.buffer_size conn.buffer_size, ?_⟩
  have key : block_read env index conn w =
      remove_and_return index conn
        { w with trace := w.trace ++
          [recv_event env w conn.sock 0 conn.buffer_size conn.buffer_size] } := by
    unfold block_read
    rcases recv_amount_fail env w conn.buffer_size h with ha | ha
    · simp only [hs, if_true, ha, World.log]
    · simp only [hs, if_true, ha, World.log]
      simp
  rw [key]
  exact finish_removed index conn conn w _ hconn rfl hreg

theorem send_amount_fail (env : Env) (w : World) (left : Nat)
    (h : env.send w.trace.length = none) : send_amount env w left = -1 := by
  simp [send_amount, h]

theorem handle_request_write_send_fail (env : Env) (index : Nat) (w : World)
    (conn : connection)
    (hconn : w.connections[index]? = some conn) (hs : conn.state = .REQUEST_WRITE)
    (hreg : get_socket_index w.sockets conn.sock < w.sockets.length)
    (h : env.send w.trace.length = none) :
    ∃ e, handle_connection env index w =
      some { sockets := swap_remove w.sockets (get_socket_index w.sockets conn.sock),
             number_interfaces := w.number_interfaces,
             connections := swap_remove w.connections index,
             trace := w.trace ++ [e] } := by
  rw [handle_request_write_eq env index w conn hconn hs]
  refine ⟨.send conn.sock
    ((conn.buffer.drop conn.written).take (conn.buffer_size - conn.written)) (-1), ?_⟩
  simp only [block_request_write, hs, if_true, send_amount_fail env w _ h, World.log]
  exact finish_removed index conn conn w _ hconn rfl hreg

theorem handle_header_write_send_fail (env : Env) (index : Nat) (w : World)
    (conn : connection)
    (hconn : w.connections[index]? = some conn) (hs : conn.state = .HEADER_WRITE)
    (hreg : get_socket_index w.sockets conn.sock < w.sockets.length)
    (h : env.send w.trace.length = none) :
    ∃ e, handle_connection env index w =
      some { sockets := swap_remove w.sockets (get_socket_index w.sockets conn.sock),
             number_interfaces := w.number_interfaces,
             connections := swap_remove w.connections index,
             trace := w.trace ++ [e] } := by
  rw [handle_header_write_eq env index w conn hconn hs]
  refine ⟨.send conn.sock
    ((conn.buffer.drop conn.written).take (conn.buffer_size - conn.written)) (-1), ?_⟩
  simp only [block_header_write, hs, if_true, send_amount_fail env w _ h, World.log]
  exact finish_removed index conn conn w _ hconn rfl hreg


theorem write_text_line_send_fail (env : Env) (index : Nat) (conn : connection) (w : World)
    (start max_left skipped : Nat) (h : env.send w.trace.length = none) :
    ∃ c e, c.sock = conn.sock ∧
      write_text_line env index conn w start max_left skipped =
        remove_and_return index c { w with trace := w.trace ++ [e] } := by
  cases hm : memchr ((conn.buffer.drop start).take max_left) 10 with
  | none =>
    refine ⟨{ conn with beginning_of_line := false },
      .send conn.sock ((conn.buffer.drop start).take max_left) (-1), rfl, ?_⟩
    simp only [write_text_line, hm, send_amount_fail env w _ h, write_finish, if_true, World.log]
  | some end_off =>
    refine ⟨{ conn with beginning_of_line := true },
      .send conn.sock ((conn.buffer.drop start).take (end_off + 1)) (-1), rfl, ?_⟩
    simp only [write_text_line, hm, send_amount_fail env w _ h, write_finish, if_true, World.log]

theorem write_slice_send_fail (env : Env) (index : Nat) (conn : connection) (w : World)
    (hmode : conn.copymode ≠ .GOPHERMAP) (h : env.send w.trace.length = none) :
    ∃ c evs, c.sock = conn.sock ∧ evs.length ≤ 1 ∧
      write_slice env index conn w =
        remove_and_return index c { w with trace := w.trace ++ evs } := by
  unfold write_slice
  cases hm : conn.copymode with
  | GOPHERMAP => exact absurd hm hmode
  | BINARY =>
    refine ⟨conn, [.send conn.sock
      ((conn.buffer.drop conn.written).take (conn.read - conn.written)) (-1)], rfl, by simp, ?_⟩
    simp only [if_true, send_amount_fail env w _ h, write_finish, World.log]
  | TEXT =>
    simp only [reduceCtorEq, if_false, if_true]
    split
    · obtain ⟨c, e, hc, he⟩ := write_text_line_send_fail env index conn w (conn.written + 1)
        (conn.read - conn.written - 1) 1 h
      exact ⟨c, [e], hc, by simp, he⟩
    · split
      · exact ⟨conn, [], rfl, by simp, by simp⟩
      · obtain ⟨c, e, hc, he⟩ := write_text_line_send_fail env index conn w conn.written
          (conn.read - conn.written) 0 h
        exact ⟨c, [e], hc, by simp, he⟩

theorem block_write_send_fail (env : Env) (index : Nat) (conn : connection) (w : World)
    (hs : conn.state = .WRITE) (h : env.send w.trace.length = none) :
    ∃ c evs, c.sock = conn.sock ∧ evs.length ≤ 1 ∧
      block_write env index conn w =
        remove_and_return index c { w with trace := w.trace ++ evs } := by
  unfold block_write
  rw [if_pos hs]
  by_cases hm : conn.copymode = .GOPHERMAP
  · rw [if_pos hm]
    exact write_slice_send_fail env index { conn with copymode := .TEXT } w (by simp) h
  · rw [if_neg hm]
    exact write_slice_send_fail env index conn w hm h

theorem handle_write_send_fail (env : Env) (index : Nat) (w : World) (conn : connection)
    (hconn : w.connections[index]? = some conn) (hs : conn.state = .WRITE)
    (hreg : get_socket_index w.sockets conn.sock < w.sockets.length)
    (h : env.send w.trace.length = none) :
    ∃ evs, evs.length ≤ 1 ∧ handle_connection env index w =
      some { sockets := swap_remove w.sockets (get_socket_index w.sockets conn.sock),
             number_interfaces := w.number_interfaces,
             connections := swap_remove w.connections index,
             trace := w.trace ++ evs } := by
  rw [handle_write_eq env index w conn hconn hs]
  obtain ⟨c, evs, hsock, hlen, he⟩ := block_write_send_fail env index conn w hs h
  refine ⟨evs, hlen, ?_⟩
  rw [he]
  exact finish_removed index conn c w evs hconn hsock hreg

/-- C10: when the `recv` of a reading state (`START`, `PATH`, `REQUEST_END`,
`READ`) returns 0 or -1, or the `send` of a writing state (`REQUEST_WRITE`,
`HEADER_WRITE`, `WRITE`) returns -1, the invocation removes the connection
(in `REQUEST_END` the `recv` is reached when the retained bytes, at most four
in every run, fit the local array they are first copied to):
both tables lose exactly one entry (the connection's slot and the entry of its
socket), what is left of the tables is as `remove_connection` leaves it, with
no connection modified, and at most one system call is logged. -/
theorem C10_io_failure_removes_connection (env : Env) (index : Nat) (w : World)
    (conn : connection)
    (hconn : w.connections[index]? = some conn)
    (hreg : get_socket_index w.sockets conn.sock < w.sockets.length)
    (hfail :
      ((conn.state = .START ∨ conn.state = .PATH ∨
          (conn.state = .REQUEST_END ∧ conn.buffer_size ≤ 1024) ∨
          conn.state = .READ) ∧
        (env.recv w.trace.length = none ∨ env.recv w.trace.length = some [])) ∨
      ((conn.state = .REQUEST_WRITE ∨ conn.state = .HEADER_WRITE ∨ conn.state = .WRITE) ∧
        env.send w.trace.length = none)) :
    ∃ w1 evs, handle_connection env index w = some w1 ∧
      w1.number_connections + 1 = w.number_connections ∧
      w1.number_sockets + 1 = w.number_sockets ∧
      w1.connections = swap_remove w.connections index ∧
      w1.sockets = swap_remove w.sockets (get_socket_index w.sockets conn.sock) ∧
      w1.number_interfaces = w.number_interfaces ∧
      w1.trace = w.trace ++ evs ∧ evs.length ≤ 1 := by
  have hidx := getElem?_lt_length hconn
  have key : ∃ evs, evs.length ≤ 1 ∧ handle_connection env index w =
      some { sockets := swap_remove w.sockets (get_socket_index w.sockets conn.sock),
             number_interfaces := w.number_interfaces,
             connections := swap_remove w.connections index,
             trace := w.trace ++ evs } := by
    rcases hfail with ⟨hs, hr⟩ | ⟨hs, hr⟩
    · rcases hs with hs | hs | hs | hs
      · obtain ⟨e, he⟩ := handle_parser_recv_fail env index w conn hconn (Or.inl hs)
          (fun h => by rw [hs] at h; cases h) hreg hr
        exact ⟨[e], by simp, he⟩
      · obtain ⟨e, he⟩ := handle_parser_recv_fail env index w conn hconn (Or.inr (Or.inl hs))
          (fun h => by rw [hs] at h; cases h) hreg hr
        exact ⟨[e], by simp, he⟩
      · obtain ⟨e, he⟩ := handle_parser_recv_fail env index w conn hconn
          (Or.inr (Or.inr hs.1)) (fun _ => hs.2) hreg hr
        exact ⟨[e], by simp, he⟩
      · obtain ⟨e, he⟩ := handle_read_recv_fail env index w conn hconn hs hreg hr
        exact ⟨[e], by simp, he⟩
    · rcases hs with hs | hs | hs
      · obtain ⟨e, he⟩ := handle_request_write_send_fail env index w conn hconn hs hreg hr
        exact ⟨[e], by simp, he⟩
      · obtain ⟨e, he⟩ := handle_header_write_send_fail env index w conn hconn hs hreg hr
        exact ⟨[e], by simp, he⟩
      · exact handle_write_send_fail env index w conn hconn hs hreg hr
  obtain ⟨evs, hlen, he⟩ := key
  refine ⟨_, evs, he, ?_, ?_, rfl, rfl, rfl, rfl, hlen⟩
  · exact swap_remove_length w.connections index hidx
  · exact swap_remove_length w.sockets _ hreg

/-- C10 at the end of file of the upstream in `READ`; and at the end of file of
the client in `REQUEST_END` with four bytes retained: the connection is
removed, and the second `recv`, which stored nothing, was given the
destination 4096 bytes after the start of the array. -/
theorem C10_witness :
    (∃ w1 evs, handle_connection (script [.data []] []) 0 (streaming .BINARY) = some w1 ∧
      w1.number_connections + 1 = (streaming .BINARY).number_connections ∧
      w1.number_sockets + 1 = (streaming .BINARY).number_sockets ∧
      w1.connections = swap_remove (streaming .BINARY).connections 0 ∧
      w1.sockets = swap_remove (streaming .BINARY).sockets
        (get_socket_index (streaming .BINARY).sockets
          ({ new_connection 9 with
              state := .READ, sock_other := 5, itemtype := 48, copymode := .BINARY,
              buffer := fresh_block [] 1024, beginning_of_line := true } : connection).sock) ∧
      w1.number_interfaces = (streaming .BINARY).number_interfaces ∧
      w1.trace = (streaming .BINARY).trace ++ evs ∧ evs.length ≤ 1) ∧
    (run (script [.data (str "GET /x HTTP/1.0\r\n"), .data []] []) 0 2 one_client).map
        (fun w => (w.number_connections, w.number_sockets, w.trace)) =
      some (0, 1, [.recv 5 0 1024 1024 (some (str "GET /x HTTP/1.0\r\n")),
        .recv 5 4096 1020 1024 (some [])]) :=
  ⟨C10_io_failure_removes_connection (script [.data []] []) 0 (streaming .BINARY)
    { new_connection 9 with
        state := .READ, sock_other := 5, itemtype := 48, copymode := .BINARY,
        buffer := fresh_block [] 1024, beginning_of_line := true }
    (by decide) (by decide) (by decide),
    by decide⟩


/-! ## Streaming the body in BINARY mode -/

/-- A `recv` in `READ` that delivers at least one byte stores the chunk at the
start of the buffer and hands over to `WRITE`. -/
theorem handle_read_data (env : Env) (index : Nat) (w : World) (conn : connection)
    (d : List Byte) (hconn : w.connections[index]? = some conn) (hs : conn.state = .READ)
    (hreg : get_socket_index w.sockets conn.sock < w.sockets.length)
    (hrecv : env.recv w.trace.length = some d) (hd : d.take conn.buffer.length ≠ []) :
    handle_connection env index w =
      some { sockets := w.sockets.set (get_socket_index w.sockets conn.sock)
               { fd := conn.sock_other, events := POLLOUT },
             number_interfaces := w.number_interfaces,
             connections := w.connections.set index
               { conn with state := .WRITE,
                           buffer := d.take conn.buffer.length ++
                             conn.buffer.drop (d.take conn.buffer.length).length,
                           read := (d.take conn.buffer.length).length,
                           written := 0,
                           sock := conn.sock_other,
                           sock_other := conn.sock },
             trace := w.trace ++
               [.recv conn.sock 0 conn.buffer.length conn.buffer.length
                 (some (d.take conn.buffer.length))] } := by
  rw [handle_read_eq env index w conn hconn hs]
  have hpos : 0 < (d.take conn.buffer.length).length := List.length_pos.2 hd
  have h1 : ¬ (((d.take conn.buffer.length).length : Int) = -1) := by omega
  have h0 : ¬ (((d.take conn.buffer.length).length : Int) = 0) := by omega
  simp only [block_read, hs, if_true, connection.buffer_size, recv_amount_some env w _ d hrecv,
    recv_data_some env w _ d hrecv, h1, h0, if_false, switch_sockets, Int.toNat_ofNat,
    recv_event, hrecv, Option.map_some',
    memwrite_zero conn.buffer (d.take conn.buffer.length) (by simp)]
  rw [socket_change_some _ _ _ _ (by simpa [World.log] using hreg)]
  simp [Flow.finish, World.log]

/-- The end of the `WRITE` block after a `send` that accepted `a` bytes. -/
theorem write_finish_accept (index : Nat) (conn : connection) (w : World) (a skipped : Nat) :
    write_finish index conn w (a : Int) skipped =
      if conn.written + (a + skipped) ≥ conn.read then
        match socket_change conn.sock conn.sock_other POLLIN w with
        | none => .exit
        | some w2 =>
          .ret { conn with state := .READ,
                           written := conn.written + (a + skipped),
                           sock := conn.sock_other,
                           sock_other := conn.sock } w2
      else
        .next { conn with written := conn.written + (a + skipped) } w := by
  have hne : ¬ ((a : Int) = -1) := by omega
  have hz : ((a : Int) + (skipped : Int)).toNat = a + skipped := by omega
  simp only [write_finish, hne, if_false, hz, switch_sockets]

/-- A `send` in `WRITE`, BINARY mode: the slice offered is `buffer[written .. read)`,
and `written` advances by the amount accepted; when nothing is left the
connection goes back to `READ`. -/
theorem handle_write_binary (env : Env) (index : Nat) (w : World) (conn : connection)
    (n : Nat) (hconn : w.connections[index]? = some conn) (hs : conn.state = .WRITE)
    (hm : conn.copymode = .BINARY)
    (hreg : get_socket_index w.sockets conn.sock < w.sockets.length)
    (hsend : env.send w.trace.length = some n) :
    handle_connection env index w =
      if conn.written + min n (conn.read - conn.written) ≥ conn.read then
        some { sockets := w.sockets.set (get_socket_index w.sockets conn.sock)
                 { fd := conn.sock_other, events := POLLIN },
               number_interfaces := w.number_interfaces,
               connections := w.connections.set index
                 { conn with state := .READ,
                             written := conn.written + min n (conn.read - conn.written),
                             sock := conn.sock_other,
                             sock_other := conn.sock },
               trace := w.trace ++
                 [.send conn.sock ((conn.buffer.drop conn.written).take (conn.read - conn.written))
                   ((min n (conn.read - conn.written) : Nat) : Int)] }
      else
        some { w with
               connections := w.connections.set index
                 { conn with written := conn.written + min n (conn.read - conn.written) },
               trace := w.trace ++
                 [.send conn.sock ((conn.buffer.drop conn.written).take (conn.read - conn.written))
                   ((min n (conn.read - conn.written) : Nat) : Int)] } := by
  rw [handle_write_eq env index w conn hconn hs]
  have hg : conn.copymode ≠ .GOPHERMAP := by simp [hm]
  unfold block_write
  rw [if_pos hs, if_neg hg]
  unfold write_slice
  rw [if_pos hm]
  simp only [send_amount_some env w _ n hsend]
  rw [write_finish_accept]
  simp only [Nat.add_zero]
  by_cases hdone : conn.written + min n (conn.read - conn.written) ≥ conn.read
  · rw [if_pos hdone, if_pos hdone]
    rw [socket_change_some _ _ _ _ (by simpa [World.log] using hreg)]
    simp [Flow.finish, World.log]
  · rw [if_neg hdone, if_neg hdone]
    simp [Flow.finish, World.log]


theorem sent_bytes_append (sock : Int) (a b : List Event) :
    sent_bytes sock (a ++ b) = sent_bytes sock a ++ sent_bytes sock b := by
  induction a with
  | nil => rfl
  | cons e rest ih =>
    cases e with
    | send s offered amount =>
      by_cases hs : s = sock <;> simp [sent_bytes, hs, ih]
    | recv s o l c r => simp [sent_bytes, ih]
    | connect r => simp [sent_bytes, ih]

theorem received_bytes_append (sock : Int) (a b : List Event) :
    received_bytes sock (a ++ b) = received_bytes sock a ++ received_bytes sock b := by
  induction a with
  | nil => rfl
  | cons e rest ih =>
    cases e with
    | send s offered amount => simp [received_bytes, ih]
    | recv s o l c r =>
      cases r with
      | none => simp [received_bytes, ih]
      | some data => by_cases hs : s = sock <;> simp [received_bytes, hs, ih]
    | connect r => simp [received_bytes, ih]

theorem getElem?_set_self_of_some {α : Type} {l : List α} {i : Nat} {x : α} (y : α)
    (h : l[i]? = some x) : (l.set i y)[i]? = some y :=
  List.getElem?_set_eq_of_lt y (getElem?_lt_length h)

theorem sent_bytes_snoc_send (sock : Int) (evs : List Event) (offered : List Byte) (a : Nat) :
    sent_bytes sock (evs ++ [.send sock offered (a : Int)]) =
      sent_bytes sock evs ++ offered.take a := by
  simp [sent_bytes_append, sent_bytes]

theorem sent_bytes_snoc_recv (sock s : Int) (evs : List Event) (o l c : Nat)
    (r : Option (List Byte)) :
    sent_bytes sock (evs ++ [.recv s o l c r]) = sent_bytes sock evs := by
  simp [sent_bytes_append, sent_bytes]

theorem received_bytes_snoc_send (sock s : Int) (evs : List Event) (offered : List Byte)
    (a : Int) :
    received_bytes sock (evs ++ [.send s offered a]) = received_bytes sock evs := by
  simp [received_bytes_append, received_bytes]

theorem received_bytes_snoc_recv (sock : Int) (evs : List Event) (o l c : Nat)
    (d : List Byte) :
    received_bytes sock (evs ++ [.recv sock o l c (some d)]) = received_bytes sock evs ++ d := by
  simp [received_bytes_append, received_bytes]

theorem received_bytes_snoc_recv_none (sock s : Int) (evs : List Event) (o l c : Nat) :
    received_bytes sock (evs ++ [.recv s o l c none]) = received_bytes sock evs := by
  simp [received_bytes_append, received_bytes]

theorem received_bytes_snoc_recv_nil (sock s : Int) (evs : List Event) (o l c : Nat) :
    received_bytes sock (evs ++ [.recv s o l c (some [])]) = received_bytes sock evs := by
  by_cases h : s = sock <;> simp [received_bytes_append, received_bytes, h]

/-- Sending `a` bytes of the slice `buffer[written .. read)` leaves the slice
`buffer[written + a .. read)`. -/
theorem pending_split (buffer : List Byte) (written read a : Nat) :
    ((buffer.drop written).take (read - written)).take a ++
      (buffer.drop (written + a)).take (read - (written + a)) =
    (buffer.drop written).take (read - written) := by
  have h : (buffer.drop (written + a)).take (read - (written + a)) =
      ((buffer.drop written).take (read - written)).drop a := by
    rw [List.drop_take, List.drop_drop, Nat.sub_sub]
  rw [h, List.take_append_drop]

/-- A `recv` in `READ` that returns -1 or 0 removes the connection. -/
theorem handle_read_no_data (env : Env) (index : Nat) (w : World) (conn : connection)
    (r : Option (List Byte))
    (hconn : w.connections[index]? = some conn) (hs : conn.state = .READ)
    (hreg : get_socket_index w.sockets conn.sock < w.sockets.length)
    (hr : (env.recv w.trace.length).map (fun d => d.take conn.buffer.length) = r)
    (h : r = none ∨ r = some []) :
    handle_connection env index w =
      some { sockets := swap_remove w.sockets (get_socket_index w.sockets conn.sock),
             number_interfaces := w.number_interfaces,
             connections := swap_remove w.connections index,
             trace := w.trace ++
               [.recv conn.sock 0 conn.buffer.length conn.buffer.length r] } := by
  rw [handle_read_eq env index w conn hconn hs]
  have key : block_read env index conn w =
      remove_and_return index conn
        { w with trace := w.trace ++
          [.recv conn.sock 0 conn.buffer.length conn.buffer.length r] } := by
    have ha : recv_amount env w conn.buffer.length = -1 ∨
        recv_amount env w conn.buffer.length = 0 := by
      unfold recv_amount
      cases hrv : env.recv w.trace.length with
      | none => simp
      | some d =>
        rw [hrv] at hr
        rcases h with h | h
        · rw [h] at hr
          simp at hr
        · rw [h] at hr
          simp only [Option.map_some', Option.some.injEq] at hr
          simp [hr]
    unfold block_read
    rw [if_pos hs]
    simp only [connection.buffer_size, World.log, recv_event, hr]
    rcases ha with ha | ha
    · rw [if_pos ha]
    · have hne : ¬ (recv_amount env w conn.buffer.length = -1) := by omega
      rw [if_neg hne, if_pos ha]
  rw [key]
  exact finish_removed index conn conn w _ hconn rfl hreg

/-- One invocation keeps the invariant of BINARY streaming, or removes the
connection when everything received has been sent on. -/
theorem binary_inv_step (env : Env) (u c : Int) (index : Nat) (base : List Event) (w : World)
    (hsend : ∀ k, env.send k ≠ none) (hinv : binary_inv u c index base w) :
    ∃ w1, handle_connection env index w = some w1 ∧
      ((w1.number_connections = w.number_connections ∧ binary_inv u c index base w1) ∨
       (w1.number_connections < w.number_connections ∧
          ∃ evs, w1.trace = base ++ evs ∧ sent_bytes c evs = received_bytes u evs)) := by
  obtain ⟨conn, evs, hconn, htrace, hm, hreg, hstate⟩ := hinv
  have hidx := getElem?_lt_length hconn
  have hless : (swap_remove w.connections index).length < w.connections.length := by
    have := swap_remove_length w.connections index hidx
    omega
  rcases hstate with ⟨hs, hu, hc, heq⟩ | ⟨hs, hc, hu, heq⟩
  · -- READ
    cases hr : (env.recv w.trace.length).map (fun d => d.take conn.buffer.length) with
    | none =>
      refine ⟨_, handle_read_no_data env index w conn none hconn hs hreg hr (Or.inl rfl),
        Or.inr ⟨hless, evs ++ [.recv conn.sock 0 conn.buffer.length conn.buffer.length none],
          ?_, ?_⟩⟩
      · simp only [htrace, List.append_assoc]
      · rw [sent_bytes_snoc_recv, received_bytes_snoc_recv_none, heq]
    | some data =>
      cases data with
      | nil =>
        refine ⟨_, handle_read_no_data env index w conn (some []) hconn hs hreg hr (Or.inr rfl),
          Or.inr ⟨hless,
            evs ++ [.recv conn.sock 0 conn.buffer.length conn.buffer.length (some [])], ?_, ?_⟩⟩
        · simp only [htrace, List.append_assoc]
        · rw [sent_bytes_snoc_recv, received_bytes_snoc_recv_nil, heq]
      | cons b rest =>
        obtain ⟨d, hd, hdt⟩ := Option.map_eq_some'.1 hr
        have hne : d.take conn.buffer.length ≠ [] := by simp [hdt]
        refine ⟨_, handle_read_data env index w conn d hconn hs hreg hd hne, Or.inl ⟨?_, ?_⟩⟩
        · simp [World.number_connections]
        · refine ⟨_, evs ++ [.recv conn.sock 0 conn.buffer.length conn.buffer.length
              (some (d.take conn.buffer.length))],
            getElem?_set_self_of_some _ hconn, ?_, hm, ?_, Or.inr ⟨rfl, hc, hu, ?_⟩⟩
          · simp only [htrace, List.append_assoc]
          · exact get_socket_index_set w.sockets conn.sock conn.sock_other POLLOUT hreg
          · have hlen : (d.take conn.buffer.length).length ≤ conn.buffer.length := by
              simp
            have hp := store_take conn.buffer (d.take conn.buffer.length)
            rw [sent_bytes_snoc_recv, hu, received_bytes_snoc_recv, heq]
            simp only [pending, List.drop_zero, Nat.sub_zero, hp]
  · -- WRITE
    cases hn : env.send w.trace.length with
    | none => exact absurd hn (hsend _)
    | some n =>
      have hstep := handle_write_binary env index w conn n hconn hs hm hreg hn
      have hsplit := pending_split conn.buffer conn.written conn.read
        (min n (conn.read - conn.written))
      by_cases hdone : conn.written + min n (conn.read - conn.written) ≥ conn.read
      · rw [if_pos hdone] at hstep
        refine ⟨_, hstep, Or.inl ⟨by simp [World.number_connections], ?_⟩⟩
        refine ⟨_, evs ++ [.send conn.sock
            ((conn.buffer.drop conn.written).take (conn.read - conn.written))
            ((min n (conn.read - conn.written) : Nat) : Int)],
          getElem?_set_self_of_some _ hconn, ?_, hm, ?_, Or.inl ⟨rfl, hu, hc, ?_⟩⟩
        · simp only [htrace, List.append_assoc]
        · exact get_socket_index_set w.sockets conn.sock conn.sock_other POLLIN hreg
        · have hz : conn.read - (conn.written + min n (conn.read - conn.written)) = 0 := by
            omega
          rw [hz, List.take_zero, List.append_nil] at hsplit
          rw [hc, sent_bytes_snoc_send, received_bytes_snoc_send, hsplit]
          exact heq
      · rw [if_neg hdone] at hstep
        refine ⟨_, hstep, Or.inl ⟨by simp [World.number_connections], ?_⟩⟩
        refine ⟨_, evs ++ [.send conn.sock
            ((conn.buffer.drop conn.written).take (conn.read - conn.written))
            ((min n (conn.read - conn.written) : Nat) : Int)],
          getElem?_set_self_of_some _ hconn, ?_, hm, hreg, Or.inr ⟨hs, hc, hu, ?_⟩⟩
        · simp only [htrace, List.append_assoc]
        · rw [hc, sent_bytes_snoc_send, received_bytes_snoc_send, List.append_assoc]
          simp only [pending] at heq ⊢
          rw [hsplit]
          exact heq


theorem binary_inv_run (env : Env) (u c : Int) (index : Nat) (base : List Event)
    (hsend : ∀ k, env.send k ≠ none) (n : Nat) :
    ∀ w, binary_inv u c index base w →
      ∃ w1, run env index n w = some w1 ∧
        ((w1.number_connections = w.number_connections ∧ binary_inv u c index base w1) ∨
         (w1.number_connections < w.number_connections ∧
            ∃ evs, w1.trace = base ++ evs ∧ sent_bytes c evs = received_bytes u evs)) := by
  induction n with
  | zero =>
    intro w hinv
    exact ⟨w, rfl, Or.inl ⟨rfl, hinv⟩⟩
  | succ n ih =>
    intro w hinv
    obtain ⟨w1, hstep, hcase⟩ := binary_inv_step env u c index base w hsend hinv
    rcases hcase with ⟨hnum, hinv1⟩ | ⟨hnum, hdone⟩
    · obtain ⟨w2, hrun, hcase2⟩ := ih w1 hinv1
      refine ⟨w2, ?_, ?_⟩
      · simp only [run, hstep, hnum, Nat.lt_irrefl, if_false, hrun]
      · rw [hnum] at hcase2
        exact hcase2
    · refine ⟨w1, ?_, Or.inr ⟨hnum, hdone⟩⟩
      simp only [run, hstep, hnum, if_true]

/-- The `WRITE` steps of BINARY mode drain the chunk: when every `send` accepts
at least one byte, after at most `read - written` invocations the connection
is back in `READ` on the socket it read from, and exactly the pending bytes
of the chunk have been sent, with no `recv` in between. -/
theorem binary_drains (env : Env) (index : Nat)
    (hsend : ∀ k, ∃ n, env.send k = some n ∧ 1 ≤ n) (d : Nat) :
    ∀ (w : World) (conn : connection), w.connections[index]? = some conn →
      conn.state = .WRITE → conn.copymode = .BINARY →
      get_socket_index w.sockets conn.sock < w.sockets.length →
      conn.written < conn.read → conn.read - conn.written ≤ d →
      ∃ m w1 c1 evs, m ≤ d ∧ run env index m w = some w1 ∧
        w1.number_connections = w.number_connections ∧
        w1.connections[index]? = some c1 ∧ c1.state = .READ ∧ c1.copymode = .BINARY ∧
        c1.sock = conn.sock_other ∧ c1.sock_other = conn.sock ∧
        c1.buffer.length = conn.buffer.length ∧
        get_socket_index w1.sockets c1.sock < w1.sockets.length ∧
        w1.trace = w.trace ++ evs ∧
        sent_bytes conn.sock evs = pending conn ∧
        received_bytes conn.sock_other evs = [] := by
  induction d with
  | zero =>
    intro w conn _ _ _ _ hw hd
    omega
  | succ d ih =>
    intro w conn hconn hs hm hreg hw hd
    obtain ⟨n, hn, hn1⟩ := hsend w.trace.length
    have hstep := handle_write_binary env index w conn n hconn hs hm hreg hn
    have hsplit := pending_split conn.buffer conn.written conn.read
      (min n (conn.read - conn.written))
    by_cases hdone : conn.written + min n (conn.read - conn.written) ≥ conn.read
    · rw [if_pos hdone] at hstep
      have hz : conn.read - (conn.written + min n (conn.read - conn.written)) = 0 := by
        omega
      rw [hz, List.take_zero, List.append_nil] at hsplit
      refine ⟨1,
        { sockets := w.sockets.set (get_socket_index w.sockets conn.sock)
            { fd := conn.sock_other, events := POLLIN },
          number_interfaces := w.number_interfaces,
          connections := w.connections.set index
            { conn with state := .READ,
                        written := conn.written + min n (conn.read - conn.written),
                        sock := conn.sock_other,
                        sock_other := conn.sock },
          trace := w.trace ++
            [.send conn.sock ((conn.buffer.drop conn.written).take (conn.read - conn.written))
              ((min n (conn.read - conn.written) : Nat) : Int)] },
        { conn with state := .READ,
                                written := conn.written + min n (conn.read - conn.written),
                                sock := conn.sock_other,
                                sock_other := conn.sock },
        [.send conn.sock ((conn.buffer.drop conn.written).take (conn.read - conn.written))
          ((min n (conn.read - conn.written) : Nat) : Int)], by omega, ?_, ?_,
        getElem?_set_self_of_some _ hconn, rfl, hm, rfl, rfl, rfl, ?_, rfl, ?_, ?_⟩
      · simp only [run, hstep, World.number_connections, List.length_set, Nat.lt_irrefl,
          if_false]
      · simp [World.number_connections]
      · exact get_socket_index_set w.sockets conn.sock conn.sock_other POLLIN hreg
      · simp only [sent_bytes, if_true, Int.toNat_ofNat, List.append_nil, pending]
        exact hsplit
      · simp [received_bytes]
    · rw [if_neg hdone] at hstep
      obtain ⟨m, w2, c1, evs, hm1, hrun, hnum, hc1, hs1, hmode, hsock, hother, hbuf, hreg1,
          htrace, hsent, hrecv⟩ :=
        ih { w with
             connections := w.connections.set index
               { conn with written := conn.written + min n (conn.read - conn.written) },
             trace := w.trace ++
               [.send conn.sock ((conn.buffer.drop conn.written).take (conn.read - conn.written))
                 ((min n (conn.read - conn.written) : Nat) : Int)] }
          { conn with written := conn.written + min n (conn.read - conn.written) }
          (getElem?_set_self_of_some _ hconn) hs hm hreg
          (Nat.lt_of_not_le hdone)
          (by
            show conn.read - (conn.written + min n (conn.read - conn.written)) ≤ d
            omega)
      refine ⟨m + 1, w2, c1,
        [.send conn.sock ((conn.buffer.drop conn.written).take (conn.read - conn.written))
          ((min n (conn.read - conn.written) : Nat) : Int)] ++ evs, by omega, ?_, ?_,
        hc1, hs1, hmode, hsock, hother, hbuf, hreg1, ?_, ?_, ?_⟩
      · simp only [run, hstep, World.number_connections, List.length_set, Nat.lt_irrefl,
          if_false, hrun]
      · rw [hnum]
        simp [World.number_connections]
      · rw [htrace, List.append_assoc]
      · rw [sent_bytes_append]
        have h2 : sent_bytes conn.sock evs =
            (conn.buffer.drop (conn.written + min n (conn.read - conn.written))).take
              (conn.read - (conn.written + min n (conn.read - conn.written))) := hsent
        rw [h2]
        simp only [sent_bytes, if_true, Int.toNat_ofNat, List.append_nil, pending]
        exact hsplit
      · rw [received_bytes_append]
        have h2 : received_bytes conn.sock_other evs = [] := hrecv
        rw [h2]
        simp [received_bytes]

/-- C7: BINARY streaming.  From a connection in `READ` with copy mode BINARY,
for every environment whose `send` never returns -1 (each `send` accepts
between 0 and all of the bytes offered, each `recv` delivers any chunk up to
the size of the body buffer) and every number of invocations, the run
returns, the bytes accepted by `send` on the client socket are always a prefix
of the bytes received from upstream, they are equal whenever the connection is
back in `READ`, while in `WRITE` they are followed by the pending slice of the
chunk, and they are equal once the connection has been removed (end of file
or error on the upstream); no byte is dropped, duplicated or altered.
Every chunk is delivered: when the `recv` of the `READ` step delivers a
non-empty chunk and every `send` accepts at least one byte, then after at most
one invocation more than the chunk has bytes the connection is back in `READ`
on the same sockets, and the events logged are that `recv` and `send` calls
that carried exactly the bytes of the chunk to the client.  At the end of file
(or error) of the upstream the invocation removes the connection without
another `send`. -/
theorem C7_binary_stream_exact (env : Env) (index n : Nat) (w : World) (conn : connection)
    (hconn : w.connections[index]? = some conn) (hs : conn.state = .READ)
    (hm : conn.copymode = .BINARY)
    (hreg : get_socket_index w.sockets conn.sock < w.sockets.length)
    (hsend : ∀ k, env.send k ≠ none) :
    (∃ w1 evs, run env index n w = some w1 ∧ w1.trace = w.trace ++ evs ∧
      sent_bytes conn.sock_other evs <+: received_bytes conn.sock evs ∧
      (w1.number_connections < w.number_connections →
        sent_bytes conn.sock_other evs = received_bytes conn.sock evs) ∧
      (w1.number_connections = w.number_connections →
        ∃ conn1, w1.connections[index]? = some conn1 ∧
          ((conn1.state = .READ ∧
              sent_bytes conn.sock_other evs = received_bytes conn.sock evs) ∨
           (conn1.state = .WRITE ∧
              sent_bytes conn.sock_other evs ++ pending conn1 =
                received_bytes conn.sock evs)))) ∧
    (∀ d, (∀ k, ∃ a, env.send k = some a ∧ 1 ≤ a) → env.recv w.trace.length = some d →
      d.take conn.buffer_size ≠ [] →
      ∃ m w1 c1 evs, m ≤ 1 + (d.take conn.buffer_size).length ∧
        run env index m w = some w1 ∧
        w1.number_connections = w.number_connections ∧
        w1.connections[index]? = some c1 ∧ c1.state = .READ ∧ c1.copymode = .BINARY ∧
        c1.sock = conn.sock ∧ c1.sock_other = conn.sock_other ∧
        c1.buffer_size = conn.buffer_size ∧
        get_socket_index w1.sockets c1.sock < w1.sockets.length ∧
        w1.trace = w.trace ++ evs ∧
        received_bytes conn.sock evs = d.take conn.buffer_size ∧
        sent_bytes conn.sock_other evs = d.take conn.buffer_size) ∧
    (∀ r, (env.recv w.trace.length).map (fun d => d.take conn.buffer_size) = r →
      (r = none ∨ r = some []) →
      ∃ w1, handle_connection env index w = some w1 ∧
        w1.number_connections < w.number_connections ∧
        w1.trace = w.trace ++ [.recv conn.sock 0 conn.buffer_size conn.buffer_size r]) := by
  refine ⟨?_, ?_, ?_⟩
  · have hinv : binary_inv conn.sock conn.sock_other index w.trace w :=
      ⟨conn, [], hconn, by simp, hm, hreg, Or.inl ⟨hs, rfl, rfl, rfl⟩⟩
    obtain ⟨w1, hrun, hcase⟩ :=
      binary_inv_run env conn.sock conn.sock_other index w.trace hsend n w hinv
    rcases hcase with ⟨hnum, conn1, evs, hc1, htrace, _, _, hstate⟩ | ⟨hnum, evs, htrace, heq⟩
    · refine ⟨w1, evs, hrun, htrace, ?_, ?_, ?_⟩
      · rcases hstate with ⟨_, _, _, heq⟩ | ⟨_, _, _, heq⟩
        · rw [heq]
        · exact ⟨pending conn1, heq⟩
      · intro hlt
        omega
      · intro _
        refine ⟨conn1, hc1, ?_⟩
        rcases hstate with ⟨hs1, _, _, heq⟩ | ⟨hs1, _, _, heq⟩
        · exact Or.inl ⟨hs1, heq⟩
        · exact Or.inr ⟨hs1, heq⟩
    · refine ⟨w1, evs, hrun, htrace, ?_, fun _ => heq, ?_⟩
      · rw [heq]
      · intro heqn
        omega
  · intro d hsend1 hd hne
    simp only [connection.buffer_size] at hne ⊢
    have hstep := handle_read_data env index w conn d hconn hs hreg hd hne
    have hlen : (d.take conn.buffer.length).length ≤ conn.buffer.length := by simp
    have hpos : 0 < (d.take conn.buffer.length).length := List.length_pos.2 hne
    have hp := store_take conn.buffer (d.take conn.buffer.length)
    obtain ⟨m, w2, c1, evs, hm1, hrun, hnum, hc1, hs1, hmode, hsock, hother, hbuf, hreg1,
        htrace, hsent, hrecv⟩ :=
      binary_drains env index hsend1 (d.take conn.buffer.length).length
        { sockets := w.sockets.set (get_socket_index w.sockets conn.sock)
            { fd := conn.sock_other, events := POLLOUT },
          number_interfaces := w.number_interfaces,
          connections := w.connections.set index
            { conn with state := .WRITE,
                        buffer := d.take conn.buffer.length ++
                          conn.buffer.drop (d.take conn.buffer.length).length,
                        read := (d.take conn.buffer.length).length,
                        written := 0,
                        sock := conn.sock_other,
                        sock_other := conn.sock },
          trace := w.trace ++
            [.recv conn.sock 0 conn.buffer.length conn.buffer.length
              (some (d.take conn.buffer.length))] }
        { conn with state := .WRITE,
                    buffer := d.take conn.buffer.length ++
                      conn.buffer.drop (d.take conn.buffer.length).length,
                    read := (d.take conn.buffer.length).length,
                    written := 0,
                    sock := conn.sock_other,
                    sock_other := conn.sock }
        (getElem?_set_self_of_some _ hconn) rfl hm
        (get_socket_index_set w.sockets conn.sock conn.sock_other POLLOUT hreg)
        hpos (Nat.le_refl _)
    refine ⟨m + 1, w2, c1,
      [.recv conn.sock 0 conn.buffer.length conn.buffer.length
        (some (d.take conn.buffer.length))] ++ evs, by omega, ?_, ?_, hc1, hs1, hmode, hsock,
      hother, ?_, hreg1, ?_, ?_, ?_⟩
    · simp only [run, hstep, World.number_connections, List.length_set, Nat.lt_irrefl,
        if_false, hrun]
    · rw [hnum]
      simp [World.number_connections]
    · rw [hbuf]
      exact store_length _ _ hlen
    · rw [htrace, List.append_assoc]
    · rw [received_bytes_append]
      have h2 : received_bytes conn.sock evs = [] := hrecv
      rw [h2]
      simp [received_bytes]
    · rw [sent_bytes_append]
      have h2 : sent_bytes conn.sock_other evs =
          ((d.take conn.buffer.length ++
            conn.buffer.drop (d.take conn.buffer.length).length).drop 0).take
              ((d.take conn.buffer.length).length - 0) := hsent
      rw [h2]
      simp only [List.drop_zero, Nat.sub_zero, hp]
      simp [sent_bytes]
  · intro r hr hcase
    have hidx := getElem?_lt_length hconn
    have hless : (swap_remove w.connections index).length < w.connections.length := by
      have := swap_remove_length w.connections index hidx
      omega
    exact ⟨_, handle_read_no_data env index w conn r hconn hs hreg hr hcase, hless, rfl⟩

/-- C7 at the environment `binary_feed`: two chunks of eight bytes, which hold
dots, line ends and a terminator line, are sent on to the client in slices of
one to three bytes; after twelve invocations all sixteen bytes have been sent,
unchanged and in order, and the connection has been removed at the end of file
of the upstream. -/
theorem C7_witness :
    ((∃ w1 evs, run binary_feed 0 12 (streaming .BINARY) = some w1 ∧
      w1.trace = (streaming .BINARY).trace ++ evs ∧
      sent_bytes (streaming_conn .BINARY).sock_other evs <+:
        received_bytes (streaming_conn .BINARY).sock evs ∧
      (w1.number_connections < (streaming .BINARY).number_connections →
        sent_bytes (streaming_conn .BINARY).sock_other evs =
          received_bytes (streaming_conn .BINARY).sock evs) ∧
      (w1.number_connections = (streaming .BINARY).number_connections →
        ∃ conn1, w1.connections[0]? = some conn1 ∧
          ((conn1.state = .READ ∧
              sent_bytes (streaming_conn .BINARY).sock_other evs =
                received_bytes (streaming_conn .BINARY).sock evs) ∨
           (conn1.state = .WRITE ∧
              sent_bytes (streaming_conn .BINARY).sock_other evs ++ pending conn1 =
                received_bytes (streaming_conn .BINARY).sock evs)))) ∧
    (∀ d, (∀ k, ∃ a, binary_feed.send k = some a ∧ 1 ≤ a) →
      binary_feed.recv (streaming .BINARY).trace.length = some d →
      d.take (streaming_conn .BINARY).buffer_size ≠ [] →
      ∃ m w1 c1 evs, m ≤ 1 + (d.take (streaming_conn .BINARY).buffer_size).length ∧
        run binary_feed 0 m (streaming .BINARY) = some w1 ∧
        w1.number_connections = (streaming .BINARY).number_connections ∧
        w1.connections[0]? = some c1 ∧ c1.state = .READ ∧ c1.copymode = .BINARY ∧
        c1.sock = (streaming_conn .BINARY).sock ∧
        c1.sock_other = (streaming_conn .BINARY).sock_other ∧
        c1.buffer_size = (streaming_conn .BINARY).buffer_size ∧
        get_socket_index w1.sockets c1.sock < w1.sockets.length ∧
        w1.trace = (streaming .BINARY).trace ++ evs ∧
        received_bytes (streaming_conn .BINARY).sock evs =
          d.take (streaming_conn .BINARY).buffer_size ∧
        sent_bytes (streaming_conn .BINARY).sock_other evs =
          d.take (streaming_conn .BINARY).buffer_size) ∧
    (∀ r, (binary_feed.recv (streaming .BINARY).trace.length).map
        (fun d => d.take (streaming_conn .BINARY).buffer_size) = r →
      (r = none ∨ r = some []) →
      ∃ w1, handle_connection binary_feed 0 (streaming .BINARY) = some w1 ∧
        w1.number_connections < (streaming .BINARY).number_connections ∧
        w1.trace = (streaming .BINARY).trace ++
          [.recv (streaming_conn .BINARY).sock 0 (streaming_conn .BINARY).buffer_size
            (streaming_conn .BINARY).buffer_size r])) ∧
    (∀ k, ∃ a, binary_feed.send k = some a ∧ 1 ≤ a) ∧
    (run binary_feed 0 5 (streaming .BINARY)).map
        (fun w => (w.connections.map (fun c => (c.state, c.sock, c.sock_other)),
          sent_bytes 5 w.trace, received_bytes 9 w.trace)) =
      some ([(.READ, 9, 5)], [46, 46, 13, 10, 46, 13, 10, 0], [46, 46, 13, 10, 46, 13, 10, 0]) ∧
    (run binary_feed 0 12 (streaming .BINARY)).map
        (fun w => (sent_bytes 5 w.trace, received_bytes 9 w.trace, w.number_connections)) =
      some ([46, 46, 13, 10, 46, 13, 10, 0, 46, 46, 13, 10, 46, 13, 10, 5],
        [46, 46, 13, 10, 46, 13, 10, 0, 46, 46, 13, 10, 46, 13, 10, 5], 0) :=
  ⟨C7_binary_stream_exact binary_feed 0 12 (streaming .BINARY) (streaming_conn .BINARY)
      (by decide) (by decide) (by decide) (by decide) (fun k => by simp [binary_feed]),
    fun k => ⟨k % 3 + 1, rfl, by omega⟩, by decide, by decide⟩


/-! ## A leading slash -/

/-- C13: for every byte string `s` whose first byte is not a slash,
`get_itemtype_selector` gives the same item type and selector for `s` with a
slash put in front as for `s`. -/
theorem C13_leading_slash_ignored (s : List Byte) (hs : s.head? ≠ some 47) :
    get_itemtype_selector (47 :: s) = get_itemtype_selector s := by
  simp [get_itemtype_selector, hs]

theorem C13_witness :
    (str "Ifoo.png").head? ≠ some 47 ∧
    get_itemtype_selector (47 :: str "Ifoo.png") = get_itemtype_selector (str "Ifoo.png") :=
  ⟨by decide, C13_leading_slash_ignored (str "Ifoo.png") (by decide)⟩


/-! ## A request that does not start with the method -/

/-- A `recv` in `START` or `PATH` that delivers at least one byte appends the
chunk to the buffer. -/
theorem block_recv_data (env : Env) (index : Nat) (conn : connection) (w : World)
    (d : List Byte) (hs : conn.state = .START ∨ conn.state = .PATH)
    (h : env.recv w.trace.length = some d) (h0 : d.take 1024 ≠ []) :
    block_recv env index conn w =
      .next { conn with buffer := conn.buffer ++ d.take 1024 }
        (w.log (.recv conn.sock 0 1024 1024 (some (d.take 1024)))) := by
  have hpos : 0 < (d.take 1024).length := List.length_pos.2 h0
  have hnp : ¬ (((d.take 1024).length : Int) ≤ 0) := by omega
  have hw := memwrite_zero (fresh_block (env.stack w.trace.length) 1024) (d.take 1024)
    (by rw [fresh_block_length]; simp)
  unfold block_recv
  rw [if_pos hs]
  simp only [recv_amount_some env w _ d h, recv_data_some env w _ d h, hnp, if_false,
    Int.toNat_ofNat, hw, store_take, buffer_append, recv_event, h, Option.map_some']

/-- In `START`, while the first four bytes of the buffer are not the method,
a chunk is appended and nothing else happens. -/
theorem handle_start_stall (env : Env) (index : Nat) (w : World) (conn : connection)
    (d : List Byte) (hconn : w.connections[index]? = some conn) (hs : conn.state = .START)
    (hlen : 4 ≤ conn.buffer.length) (hne : conn.buffer.take 4 ≠ str "GET ")
    (h : env.recv w.trace.length = some d) (h0 : d.take 1024 ≠ []) :
    handle_connection env index w =
      some { w with
             connections := w.connections.set index
               { conn with buffer := conn.buffer ++ d.take 1024 },
             trace := w.trace ++ [.recv conn.sock 0 1024 1024 (some (d.take 1024))] } := by
  rw [handle_parser_eq env index w conn hconn (Or.inl hs)]
  rw [block_recv_data env index conn w d (Or.inl hs) h h0, andThen_next]
  have htake : (conn.buffer ++ d.take 1024).take 4 = conn.buffer.take 4 := by
    rw [List.take_append_of_le_length hlen]
  have e1 : block_start { conn with buffer := conn.buffer ++ d.take 1024 }
      (w.log (.recv conn.sock 0 1024 1024 (some (d.take 1024)))) =
      .next { conn with buffer := conn.buffer ++ d.take 1024 }
        (w.log (.recv conn.sock 0 1024 1024 (some (d.take 1024)))) := by
    unfold block_start
    rw [if_pos hs, if_neg]
    rw [htake]
    exact fun hc => hne hc.2
  rw [e1, andThen_next, block_path_skip _ _ (by simp [hs]), andThen_next,
    block_request_end_skip _ _ (by simp [hs]), andThen_next,
    block_connect_skip _ _ _ (by simp [hs])]
  simp [Flow.finish, World.log]


theorem stall_inv_step (env : Env) (sock : Int) (b4 : List Byte) (index : Nat)
    (base : List Event) (w : World) (hb4 : b4 ≠ str "GET ")
    (hinv : stall_inv sock b4 index base w) :
    ∃ w1, handle_connection env index w = some w1 ∧
      ((w1.number_connections = w.number_connections ∧ stall_inv sock b4 index base w1) ∨
       (w1.number_connections < w.number_connections ∧
          ∃ evs, w1.trace = base ++ evs ∧ ∀ e ∈ evs, ∃ r, e = .recv sock 0 1024 1024 r)) := by
  obtain ⟨conn, evs, hconn, htrace, hevs, hs, hsock, hreg, hlen, htake⟩ := hinv
  have hidx := getElem?_lt_length hconn
  have hless : (swap_remove w.connections index).length < w.connections.length := by
    have := swap_remove_length w.connections index hidx
    omega
  by_cases hfail : recv_amount env w 1024 ≤ 0
  · -- the connection is removed
    have key : block_recv env index conn w = remove_and_return index conn
        { w with trace := w.trace ++ [recv_event env w conn.sock 0 1024 1024] } := by
      unfold block_recv
      rw [if_pos (Or.inl hs)]
      simp only [hfail, if_true, World.log]
    have hstep : handle_connection env index w =
        some { sockets := swap_remove w.sockets (get_socket_index w.sockets conn.sock),
               number_interfaces := w.number_interfaces,
               connections := swap_remove w.connections index,
               trace := w.trace ++ [recv_event env w conn.sock 0 1024 1024] } := by
      rw [handle_parser_eq env index w conn hconn (Or.inl hs), key]
      simp only [andThen_remove_and_return]
      exact finish_removed index conn conn w _ hconn rfl hreg
    refine ⟨_, hstep, Or.inr ⟨hless, evs ++ [recv_event env w conn.sock 0 1024 1024], ?_, ?_⟩⟩
    · simp only [htrace, List.append_assoc]
    · intro e he
      rcases List.mem_append.1 he with h | h
      · exact hevs e h
      · rw [List.mem_singleton] at h
        exact ⟨_, by rw [h, recv_event, hsock]⟩
  · -- a chunk is appended
    cases hr : env.recv w.trace.length with
    | none => simp [recv_amount, hr] at hfail
    | some d =>
      have h0 : d.take 1024 ≠ [] := by
        intro h
        simp [recv_amount, hr, h] at hfail
      refine ⟨_, handle_start_stall env index w conn d hconn hs hlen (htake ▸ hb4) hr h0,
        Or.inl ⟨by simp [World.number_connections], ?_⟩⟩
      refine ⟨_, evs ++ [.recv conn.sock 0 1024 1024 (some (d.take 1024))],
        getElem?_set_self_of_some _ hconn, ?_, ?_, hs, hsock, hreg, ?_, ?_⟩
      · simp only [htrace, List.append_assoc]
      · intro e he
        rcases List.mem_append.1 he with h | h
        · exact hevs e h
        · rw [List.mem_singleton] at h
          exact ⟨_, by rw [h, hsock]⟩
      · simp only [List.length_append]
        omega
      · simp only
        rw [List.take_append_of_le_length hlen, htake]

theorem stall_inv_run (env : Env) (sock : Int) (b4 : List Byte) (index : Nat)
    (base : List Event) (hb4 : b4 ≠ str "GET ") (n : Nat) :
    ∀ w, stall_inv sock b4 index base w →
      ∃ w1, run env index n w = some w1 ∧
        ((w1.number_connections = w.number_connections ∧ stall_inv sock b4 index base w1) ∨
         (w1.number_connections < w.number_connections ∧
            ∃ evs, w1.trace = base ++ evs ∧
              ∀ e ∈ evs, ∃ r, e = .recv sock 0 1024 1024 r)) := by
  induction n with
  | zero =>
    intro w hinv
    exact ⟨w, rfl, Or.inl ⟨rfl, hinv⟩⟩
  | succ n ih =>
    intro w hinv
    obtain ⟨w1, hstep, hcase⟩ := stall_inv_step env sock b4 index base w hb4 hinv
    rcases hcase with ⟨hnum, hinv1⟩ | ⟨hnum, hdone⟩
    · obtain ⟨w2, hrun, hcase2⟩ := ih w1 hinv1
      refine ⟨w2, ?_, ?_⟩
      · simp only [run, hstep, hnum, Nat.lt_irrefl, if_false, hrun]
      · rw [hnum] at hcase2
        exact hcase2
    · refine ⟨w1, ?_, Or.inr ⟨hnum, hdone⟩⟩
      simp only [run, hstep, hnum, if_true]

/-- C11: a connection in `START` whose buffer holds at least four bytes that
are not the method `GET` followed by a space.  For every environment and every
number of invocations the run does not exit, the only system calls made are
`recv` calls on the client socket (no upstream connect, no `send`), and as
long as the connection is in the table it is in `START` with the same first
four bytes; a `recv` that fails removes it. -/
theorem C11_malformed_request_stalls (env : Env) (index n : Nat) (w : World)
    (conn : connection)
    (hconn : w.connections[index]? = some conn) (hs : conn.state = .START)
    (hlen : 4 ≤ conn.buffer.length) (hne : conn.buffer.take 4 ≠ str "GET ")
    (hreg : get_socket_index w.sockets conn.sock < w.sockets.length) :
    ∃ w1 evs, run env index n w = some w1 ∧ w1.trace = w.trace ++ evs ∧
      (∀ e ∈ evs, ∃ r, e = .recv conn.sock 0 1024 1024 r) ∧
      sent_bytes conn.sock evs = [] ∧
      (w1.number_connections = w.number_connections →
        ∃ conn1, w1.connections[index]? = some conn1 ∧ conn1.state = .START ∧
          conn1.sock = conn.sock ∧ conn1.buffer.take 4 = conn.buffer.take 4) := by
  have hinv : stall_inv conn.sock (conn.buffer.take 4) index w.trace w :=
    ⟨conn, [], hconn, by simp, by simp, hs, rfl, hreg, hlen, rfl⟩
  have hnosend : ∀ evs : List Event, (∀ e ∈ evs, ∃ r, e = .recv conn.sock 0 1024 1024 r) →
      sent_bytes conn.sock evs = [] := by
    intro evs
    induction evs with
    | nil => intro _; rfl
    | cons e rest ih =>
      intro h
      obtain ⟨r, hr⟩ := h e (by simp)
      rw [hr]
      simp only [sent_bytes]
      exact ih (fun e he => h e (by simp [he]))
  obtain ⟨w1, hrun, hcase⟩ :=
    stall_inv_run env conn.sock (conn.buffer.take 4) index w.trace hne n w hinv
  rcases hcase with ⟨hnum, conn1, evs, hc1, htrace, hevs, hs1, hsock, _, _, htake⟩ |
    ⟨hnum, evs, htrace, hevs⟩
  · exact ⟨w1, evs, hrun, htrace, hevs, hnosend evs hevs,
      fun _ => ⟨conn1, hc1, hs1, hsock, htake⟩⟩
  · refine ⟨w1, evs, hrun, htrace, hevs, hnosend evs hevs, fun h => ?_⟩
    omega

theorem C11_witness :
    ∃ w1 evs, run trickle 0 7
        { one_client with connections := [{ new_connection 5 with buffer := str "POST /" }] } =
          some w1 ∧
      w1.trace = ({ one_client with
          connections := [{ new_connection 5 with buffer := str "POST /" }] } : World).trace ++
        evs ∧
      (∀ e ∈ evs, ∃ r, e = .recv
        ({ new_connection 5 with buffer := str "POST /" } : connection).sock 0 1024 1024 r) ∧
      sent_bytes ({ new_connection 5 with buffer := str "POST /" } : connection).sock evs = [] ∧
      (w1.number_connections = ({ one_client with
          connections := [{ new_connection 5 with buffer := str "POST /" }] } :
            World).number_connections →
        ∃ conn1, w1.connections[0]? = some conn1 ∧ conn1.state = .START ∧
          conn1.sock = ({ new_connection 5 with buffer := str "POST /" } : connection).sock ∧
          conn1.buffer.take 4 =
            ({ new_connection 5 with buffer := str "POST /" } : connection).buffer.take 4) :=
  C11_malformed_request_stalls trickle 0 7
    { one_client with connections := [{ new_connection 5 with buffer := str "POST /" }] }
    { new_connection 5 with buffer := str "POST /" }
    (by decide) (by decide) (by decide) (by decide) (by decide)


/-! ## Removal of a connection -/

/-- Removing the entry at the end of a prefix `p`: the last entry takes its
place. -/
theorem swap_remove_middle {α : Type} (p : List α) (a : α) (b : List α) :
    swap_remove (p ++ a :: b) p.length =
      match b.getLast? with
      | none => p
      | some last => p ++ last :: b.dropLast := by
  rcases List.eq_nil_or_concat b with hb | ⟨b0, last, hb⟩
  · subst hb
    simp [swap_remove]
  · subst hb
    have hlast : (p ++ a :: (b0 ++ [last])).getLast? = some last := by
      rw [List.getLast?_eq_some_iff]
      exact ⟨p ++ a :: b0, by simp⟩
    have hne : p.length ≠ (p ++ a :: (b0 ++ [last])).length - 1 := by
      simp
    simp only [List.concat_eq_append, swap_remove, ne_eq, hne, not_false_eq_true, if_true, hlast,
      List.getLast?_concat, List.dropLast_concat]
    rw [List.set_append_right _ _ (Nat.le_refl _)]
    simp only [Nat.sub_self, List.set_cons_zero]
    have e : p ++ last :: (b0 ++ [last]) = (p ++ last :: b0) ++ [last] := by simp
    have hl : (p ++ a :: (b0 ++ [last])).length - 1 = (p ++ last :: b0).length := by
      simp
    rw [e, hl, List.take_left']
    rfl

theorem split_at_index {α : Type} (l : List α) (i : Nat) (a : α) (h : l[i]? = some a) :
    l = l.take i ++ a :: l.drop (i + 1) ∧ (l.take i).length = i := by
  have hi := getElem?_lt_length h
  have ha : l[i] = a := by
    rw [List.getElem?_eq_getElem hi] at h
    exact Option.some.inj h
  refine ⟨?_, by simp [Nat.le_of_lt hi]⟩
  rw [← ha, ← List.drop_eq_getElem_cons hi, List.take_append_drop]

/-- The table before a removal is the removed entry together with the table
after it. -/
theorem perm_swap_remove {α : Type} (l : List α) (i : Nat) (a : α) (h : l[i]? = some a) :
    l.Perm (a :: swap_remove l i) := by
  obtain ⟨hl, hlen⟩ := split_at_index l i a h
  have key : swap_remove l i =
      match (l.drop (i + 1)).getLast? with
      | none => l.take i
      | some last => l.take i ++ last :: (l.drop (i + 1)).dropLast := by
    conv_lhs => rw [hl]
    have := swap_remove_middle (l.take i) a (l.drop (i + 1))
    rw [hlen] at this
    exact this
  rw [key]
  conv_lhs => rw [hl]
  cases hlast : (l.drop (i + 1)).getLast? with
  | none =>
    have hnil : l.drop (i + 1) = [] := List.getLast?_eq_none_iff.1 hlast
    rw [hnil]
    simp only
    exact List.perm_append_singleton a _
  | some last =>
    obtain ⟨ys, hys⟩ := List.getLast?_eq_some_iff.1 hlast
    rw [hys, List.dropLast_concat]
    simp only
    refine List.perm_middle.trans (List.Perm.cons a ?_)
    refine (List.Perm.append_left _ ?_)
    exact List.perm_append_singleton last ys

theorem swap_remove_take {α : Type} (l : List α) (i k : Nat) (hk : k ≤ i) (hi : i < l.length) :
    (swap_remove l i).take k = l.take k := by
  unfold swap_remove
  rw [List.take_take, Nat.min_eq_left (by omega)]
  split
  · split
    · exact take_set_of_le _ l hk
    · rfl
  · rfl


theorem get_socket_index_eq_of_nodup (l : List pollfd) (sock : Int) (k : Nat)
    (hnd : (l.map (·.fd)).Nodup) (hk : (l[k]?).map (·.fd) = some sock) :
    get_socket_index l sock = k := by
  induction l generalizing k with
  | nil => simp at hk
  | cons s rest ih =>
    rw [List.map_cons, List.nodup_cons] at hnd
    cases k with
    | zero =>
      simp only [List.getElem?_cons_zero, Option.map_some', Option.some.injEq] at hk
      simp [get_socket_index, hk]
    | succ k =>
      simp only [List.getElem?_cons_succ] at hk
      have hne : s.fd ≠ sock := by
        intro he
        apply hnd.1
        obtain ⟨e, he1, he2⟩ := Option.map_eq_some'.1 hk
        rw [he, ← he2]
        exact List.mem_map_of_mem _ (List.getElem?_mem he1)
      simp only [get_socket_index, hne, if_false]
      rw [ih k hnd.2 hk]

/-- C12: in a table state whose descriptors are pairwise distinct and whose
first `number_interfaces` socket entries are the listeners, for a valid
index, `remove_connection` returns, both counts decrease by exactly one, the
table of sockets loses exactly the entry of the connection's socket, the
listeners and `number_interfaces` are unchanged, and every other connection
stays in the table unchanged with the entry of its socket unchanged. -/
theorem C12_remove_connection_frame (index : Nat) (w : World) (conn : connection)
    (hconn : w.connections[index]? = some conn) (hok : table_ok w) :
    ∃ w1 entry, remove_connection index w = some w1 ∧
      w1.number_sockets + 1 = w.number_sockets ∧
      w1.number_connections + 1 = w.number_connections ∧
      w1.number_interfaces = w.number_interfaces ∧
      w1.sockets.take w.number_interfaces = w.sockets.take w.number_interfaces ∧
      entry.fd = conn.sock ∧ w.sockets.Perm (entry :: w1.sockets) ∧
      w.connections.Perm (conn :: w1.connections) ∧
      (∀ j c, j ≠ index → w.connections[j]? = some c → c ∈ w1.connections) ∧
      (∀ c ∈ w1.connections, ∀ e ∈ w.sockets, e.fd = c.sock → e ∈ w1.sockets) ∧
      w1.trace = w.trace := by
  obtain ⟨hnd, hcn, hregs⟩ := hok
  have hidx := getElem?_lt_length hconn
  have hmem : conn ∈ w.connections := List.getElem?_mem hconn
  obtain ⟨k, hk, hkfd⟩ := hregs conn hmem
  obtain ⟨entry, hentry, hfd⟩ := Option.map_eq_some'.1 hkfd
  have hklt := getElem?_lt_length hentry
  have hgsi := get_socket_index_eq_of_nodup w.sockets conn.sock k hnd hkfd
  have hpc := perm_swap_remove w.connections index conn hconn
  have hps := perm_swap_remove w.sockets k entry hentry
  have hstep : remove_connection index w =
      some { w with sockets := swap_remove w.sockets k,
                    connections := swap_remove w.connections index } := by
    simp only [remove_connection, hconn, hgsi, World.number_sockets, Nat.ne_of_lt hklt, if_false,
      remove_socket]
  refine ⟨_, entry, hstep, ?_, ?_, rfl, ?_, hfd, hps, hpc, ?_, ?_, rfl⟩
  · exact swap_remove_length w.sockets k hklt
  · exact swap_remove_length w.connections index hidx
  · exact swap_remove_take w.sockets k w.number_interfaces hk hklt
  · intro j c hj hc
    have hcmem : c ∈ w.connections := List.getElem?_mem hc
    rcases List.mem_cons.1 (hpc.mem_iff.1 hcmem) with h | h
    · -- the socket of `c` would be the socket of `conn` at another index
      exfalso
      have hjlt := getElem?_lt_length hc
      have h1 : (w.connections.map (·.sock))[j]? = some conn.sock := by
        simp [hc, h]
      have h2 : (w.connections.map (·.sock))[index]? = some conn.sock := by
        simp [hconn]
      have hjl : j < (w.connections.map (·.sock)).length := by simpa using hjlt
      have hil : index < (w.connections.map (·.sock)).length := by simpa using hidx
      rw [List.getElem?_eq_getElem hjl] at h1
      rw [List.getElem?_eq_getElem hil] at h2
      have := (List.Nodup.getElem_inj_iff hcn).1 ((Option.some.inj h1).trans
        (Option.some.inj h2).symm)
      exact hj this
    · exact h
  · intro c hc e he hec
    rcases List.mem_cons.1 (hps.mem_iff.1 he) with h | h
    · exfalso
      have hnd2 : (conn.sock :: (swap_remove w.connections index).map (·.sock)).Nodup := by
        have := hcn.perm (hpc.map (·.sock))
        simpa using this
      rw [List.nodup_cons] at hnd2
      apply hnd2.1
      rw [← hfd, ← h, hec]
      exact List.mem_map_of_mem _ hc
    · exact h

theorem C12_witness :
    ∃ w1 entry, remove_connection 0 one_client_request = some w1 ∧
      w1.number_sockets + 1 = one_client_request.number_sockets ∧
      w1.number_connections + 1 = one_client_request.number_connections ∧
      w1.number_interfaces = one_client_request.number_interfaces ∧
      w1.sockets.take one_client_request.number_interfaces =
        one_client_request.sockets.take one_client_request.number_interfaces ∧
      entry.fd = ({ new_connection 5 with
          state := .REQUEST_WRITE, sock := 9, sock_other := 5, itemtype := 73,
          path := str "foo.png", buffer := str "foo.png\r\n", written := 0 } : connection).sock ∧
      one_client_request.sockets.Perm (entry :: w1.sockets) ∧
      one_client_request.connections.Perm
        (({ new_connection 5 with
          state := .REQUEST_WRITE, sock := 9, sock_other := 5, itemtype := 73,
          path := str "foo.png", buffer := str "foo.png\r\n", written := 0 } : connection) ::
          w1.connections) ∧
      (∀ j c, j ≠ 0 → one_client_request.connections[j]? = some c → c ∈ w1.connections) ∧
      (∀ c ∈ w1.connections, ∀ e ∈ one_client_request.sockets, e.fd = c.sock →
        e ∈ w1.sockets) ∧
      w1.trace = one_client_request.trace :=
  C12_remove_connection_frame 0 one_client_request
    { new_connection 5 with
        state := .REQUEST_WRITE, sock := 9, sock_other := 5, itemtype := 73,
        path := str "foo.png", buffer := str "foo.png\r\n", written := 0 }
    (by decide)
    ⟨by decide, by decide, by
      intro c hc
      simp only [one_client_request, List.mem_singleton] at hc
      subst hc
      exact ⟨1, by decide, by decide⟩⟩


/-! ## Port numbers -/

theorem strtol_digits_spec (s : List Byte) (acc : Nat) :
    (strtol_digits s acc).2 ≤ s.length ∧
    (∀ c ∈ s.take (strtol_digits s acc).2, isdigit c = true) ∧
    (strtol_digits s acc).1 =
      (s.take (strtol_digits s acc).2).foldl (fun a c => a * 10 + (c - 48)) acc := by
  induction s generalizing acc with
  | nil => simp [strtol_digits]
  | cons c rest ih =>
    simp only [strtol_digits]
    by_cases hc : isdigit c = true
    · simp only [hc, if_true, List.length_cons, List.take_succ_cons, List.foldl_cons]
      obtain ⟨h1, h2, h3⟩ := ih (acc * 10 + (c - 48))
      refine ⟨by omega, ?_, h3⟩
      intro x hx
      rcases List.mem_cons.1 hx with h | h
      · rw [h]; exact hc
      · exact h2 x h
    · simp [hc]

theorem strtol_digits_all (digits : List Byte) (acc : Nat)
    (hd : ∀ c ∈ digits, isdigit c = true) :
    strtol_digits digits acc =
      (digits.foldl (fun a c => a * 10 + (c - 48)) acc, digits.length) := by
  induction digits generalizing acc with
  | nil => rfl
  | cons c rest ih =>
    have hc : isdigit c = true := hd c (by simp)
    simp only [strtol_digits, hc, if_true, List.foldl_cons, List.length_cons]
    rw [ih _ (fun x hx => hd x (by simp [hx]))]

theorem takeWhile_white (white t : List Byte) (hw : ∀ c ∈ white, isspace c = true)
    (ht : ∀ c, t.head? = some c → isspace c = false) :
    (white ++ t).takeWhile isspace = white ∧ (white ++ t).dropWhile isspace = t := by
  induction white with
  | nil =>
    cases t with
    | nil => simp
    | cons c rest =>
      have := ht c rfl
      simp [List.takeWhile, List.dropWhile, this]
  | cons a rest ih =>
    have ha : isspace a = true := hw a (by simp)
    obtain ⟨h1, h2⟩ := ih (fun c hc => hw c (by simp [hc]))
    simp [List.takeWhile, List.dropWhile, ha, h1, h2]

theorem isdigit_not_space (c : Nat) (h : isdigit c = true) :
    isspace c = false ∧ c ≠ 45 ∧ c ≠ 43 := by
  simp only [isdigit, Bool.and_eq_true, decide_eq_true_eq] at h
  have h1 : (48 : Nat) ≤ c := h.1
  have h2 : c ≤ (57 : Nat) := h.2
  refine ⟨?_, by omega, by omega⟩
  cases hsp : isspace c with
  | false => rfl
  | true =>
    exfalso
    simp only [isspace, Bool.or_eq_true, beq_iff_eq, Bool.and_eq_true, decide_eq_true_eq] at hsp
    have hsp2 : c = (32 : Nat) ∨ ((9 : Nat) ≤ c ∧ c ≤ (13 : Nat)) := hsp
    omega

theorem strtol_signed_unsigned (white : Nat) (c : Byte) (rest : List Byte)
    (h45 : c ≠ 45) (h43 : c ≠ 43) :
    strtol_signed white (c :: rest) =
      if (strtol_digits (c :: rest) 0).2 = 0 then (0, 0)
      else (((strtol_digits (c :: rest) 0).1 : Int), white + (strtol_digits (c :: rest) 0).2) := by
  unfold strtol_signed
  split
  · rename_i heq
    simp only [List.cons.injEq] at heq
    exact absurd heq.1 h45
  · rename_i heq
    simp only [List.cons.injEq] at heq
    exact absurd heq.1 h43
  · rfl

/-- A string that scans as `n` is scanned by `strtol` to its end, with value `n`. -/
theorem strtol_scan_of_scans (s : List Byte) (n : Int) (h : scans_as s n) :
    strtol_scan s = (n, s.length) := by
  obtain ⟨white, sign, digits, hs, hw, hsign, hne, hd, hn⟩ := h
  have hall := strtol_digits_all digits 0 hd
  have hlen : digits.length ≠ 0 := by
    intro h0
    exact hne (List.length_eq_zero.1 h0)
  obtain ⟨d, ds, hdd⟩ := List.exists_cons_of_ne_nil hne
  have hdig := isdigit_not_space d (hd d (by simp [hdd]))
  rcases hsign with h0 | hp | hm
  · subst h0
    simp only [List.append_nil] at hs
    obtain ⟨h1, h2⟩ := takeWhile_white white digits hw (by
      intro c hc
      rw [hdd] at hc
      simp only [List.head?_cons, Option.some.injEq] at hc
      rw [← hc]
      exact hdig.1)
    unfold strtol_scan
    rw [hs, h1, h2]
    have hb := strtol_signed_unsigned white.length d ds hdig.2.1 hdig.2.2
    rw [← hdd] at hb
    rw [hb, hall]
    simp only [hlen, if_false, hn, List.length_append, decimal_value]
    simp
  · subst hp
    obtain ⟨h1, h2⟩ := takeWhile_white white ([43] ++ digits) hw (by
      intro c hc
      simp only [List.singleton_append, List.head?_cons, Option.some.injEq] at hc
      rw [← hc]
      decide)
    unfold strtol_scan
    rw [hs, List.append_assoc, h1, h2]
    simp only [List.singleton_append, strtol_signed, hall, hlen, if_false, hn,
      List.length_append, List.length_cons, decimal_value]
    simp
    omega
  · subst hm
    obtain ⟨h1, h2⟩ := takeWhile_white white ([45] ++ digits) hw (by
      intro c hc
      simp only [List.singleton_append, List.head?_cons, Option.some.injEq] at hc
      rw [← hc]
      decide)
    unfold strtol_scan
    rw [hs, List.append_assoc, h1, h2]
    simp only [List.singleton_append, strtol_signed, hall, hlen, if_false, hn,
      List.length_append, List.length_cons, decimal_value]
    simp
    omega


theorem strtol_signed_spec (white : Nat) (s1 : List Byte)
    (h : (strtol_signed white s1).2 ≠ 0) :
    ∃ sign digits, white + (sign ++ digits).length = (strtol_signed white s1).2 ∧
      s1.take (sign ++ digits).length = sign ++ digits ∧
      (sign = [] ∨ sign = [43] ∨ sign = [45]) ∧
      digits ≠ [] ∧ (∀ c ∈ digits, isdigit c = true) ∧
      (strtol_signed white s1).1 =
        if sign = [45] then -(decimal_value digits : Int) else (decimal_value digits : Int) := by
  have digits_ok : ∀ s2 : List Byte, (strtol_digits s2 0).2 ≠ 0 →
      (s2.take (strtol_digits s2 0).2).length = (strtol_digits s2 0).2 ∧
      s2.take (strtol_digits s2 0).2 ≠ [] ∧
      (∀ c ∈ s2.take (strtol_digits s2 0).2, isdigit c = true) ∧
      (strtol_digits s2 0).1 = decimal_value (s2.take (strtol_digits s2 0).2) := by
    intro s2 hn
    obtain ⟨h1, h2, h3⟩ := strtol_digits_spec s2 0
    have hl : (s2.take (strtol_digits s2 0).2).length = (strtol_digits s2 0).2 := by
      rw [List.length_take]
      omega
    refine ⟨hl, ?_, h2, h3⟩
    intro hnil
    rw [hnil] at hl
    exact hn hl.symm
  unfold strtol_signed at h ⊢
  split at h
  · rename_i s2
    by_cases hn : (strtol_digits s2 0).2 = 0
    · simp [hn] at h
    · obtain ⟨hl, hne, hd, hv⟩ := digits_ok s2 hn
      refine ⟨[45], s2.take (strtol_digits s2 0).2, ?_, ?_, Or.inr (Or.inr rfl), hne, hd, ?_⟩
      · simp only [hn, if_false, List.singleton_append, List.length_cons, hl]
        omega
      · simp only [List.singleton_append, List.length_cons, hl, List.take_succ_cons]
      · simp only [hn, if_false, if_true, hv]
  · rename_i s2
    by_cases hn : (strtol_digits s2 0).2 = 0
    · simp [hn] at h
    · obtain ⟨hl, hne, hd, hv⟩ := digits_ok s2 hn
      refine ⟨[43], s2.take (strtol_digits s2 0).2, ?_, ?_, Or.inr (Or.inl rfl), hne, hd, ?_⟩
      · simp only [hn, if_false, List.singleton_append, List.length_cons, hl]
        omega
      · simp only [List.singleton_append, List.length_cons, hl, List.take_succ_cons]
      · simp only [hn, if_false, hv]
        simp
  · by_cases hn : (strtol_digits s1 0).2 = 0
    · simp [hn] at h
    · obtain ⟨hl, hne, hd, hv⟩ := digits_ok s1 hn
      refine ⟨[], s1.take (strtol_digits s1 0).2, ?_, ?_, Or.inl rfl, hne, hd, ?_⟩
      · simp only [hn, if_false, List.nil_append, hl]
      · simp only [List.nil_append, hl]
      · simp only [hn, if_false, hv]
        simp

/-- What `strtol` has consumed is a string that scans as the value found. -/
theorem scans_of_strtol_scan (s : List Byte) (h : (strtol_scan s).2 ≠ 0) :
    (strtol_scan s).2 ≤ s.length ∧
    scans_as (s.take (strtol_scan s).2) (strtol_scan s).1 := by
  unfold strtol_scan at h ⊢
  obtain ⟨sign, digits, hlen, htake, hsign, hne, hd, hv⟩ :=
    strtol_signed_spec (s.takeWhile isspace).length (s.dropWhile isspace) h
  have hs : s = s.takeWhile isspace ++ s.dropWhile isspace :=
    (List.takeWhile_append_dropWhile isspace s).symm
  have hle : (sign ++ digits).length ≤ (s.dropWhile isspace).length := by
    have := congrArg List.length htake
    rw [List.length_take] at this
    omega
  have hslen : s.length = (s.takeWhile isspace).length + (s.dropWhile isspace).length := by
    conv_lhs => rw [hs]
    rw [List.length_append]
  refine ⟨by omega, s.takeWhile isspace, sign, digits, ?_, ?_, hsign, hne, hd, hv⟩
  · have e := @List.take_append _ (s.takeWhile isspace) (s.dropWhile isspace)
      (sign ++ digits).length
    rw [← hs, htake] at e
    rw [← hlen, e, List.append_assoc]
  · intro c hc
    exact (List.mem_takeWhile_imp hc)

/-- C14: `parse_port` returns `n` when the whole string scans as a base-10
integer `n` with `0 ≤ n ≤ 65536`, and -1 for every other string (a C string:
no NUL byte inside), whatever the size of the number written. -/
theorem C14_parse_port (s : List Byte) (n : Int) (h0 : (0 : Byte) ∉ s) :
    (scans_as s n → 0 ≤ n → n ≤ 65536 → parse_port s = n) ∧
    ((¬ ∃ m, scans_as s m ∧ 0 ≤ m ∧ m ≤ 65536) → parse_port s = -1) := by
  constructor
  · intro hscan hn0 hn1
    have hsc := strtol_scan_of_scans s n hscan
    obtain ⟨white, sign, digits, hs, _, _, hne, _, _⟩ := hscan
    have hpos : s.length ≠ 0 := by
      rw [hs]
      simp [hne]
    have hend : s.getD s.length 0 = 0 := by
      simp [List.getD_eq_getElem?_getD]
    simp only [parse_port, strtol, hsc, hpos, hend, ne_eq, not_true_eq_false, or_self, if_false,
      LONG_MAX, LONG_MIN]
    have h1 : min (9223372036854775807 : Int) n = n := by omega
    have h2 : max (-9223372036854775808 : Int) n = n := by omega
    rw [h1, h2]
    have h3 : ¬ (n < 0 ∨ n > 65536) := by omega
    rw [if_neg h3]
  · intro hnone
    by_contra hne
    apply hnone
    unfold parse_port at hne
    by_cases hfull : (strtol s).2 = 0 ∨ s.getD (strtol s).2 0 ≠ 0
    · rw [if_pos hfull] at hne
      exact absurd rfl hne
    · rw [if_neg hfull] at hne
      by_cases hrange : (strtol s).1 < 0 ∨ (strtol s).1 > 65536
      · rw [if_pos hrange] at hne
        exact absurd rfl hne
      · simp only [not_or, ne_eq, not_not] at hfull
        obtain ⟨he0, hend⟩ := hfull
        simp only [strtol] at he0 hend hrange
        obtain ⟨hle, hscan⟩ := scans_of_strtol_scan s he0
        have hlen : (strtol_scan s).2 = s.length := by
          rcases Nat.lt_or_ge (strtol_scan s).2 s.length with hlt | hge
          · exfalso
            apply h0
            rw [List.getD_eq_getElem?_getD, List.getElem?_eq_getElem hlt] at hend
            simp only [Option.getD_some] at hend
            rw [← hend]
            exact List.getElem_mem hlt
          · omega
        rw [hlen, List.take_length] at hscan
        refine ⟨(strtol_scan s).1, hscan, ?_, ?_⟩
        · simp only [LONG_MAX, LONG_MIN] at hrange
          omega
        · simp only [LONG_MAX, LONG_MIN] at hrange
          omega

theorem C14_witness :
    (0 : Byte) ∉ str "65536" ∧
    ((scans_as (str "65536") 65536 → (0 : Int) ≤ 65536 → (65536 : Int) ≤ 65536 →
        parse_port (str "65536") = 65536) ∧
      ((¬ ∃ m, scans_as (str "65536") m ∧ 0 ≤ m ∧ m ≤ 65536) →
        parse_port (str "65536") = -1)) ∧
    parse_port (str "65536") = 65536 ∧ parse_port (str "65537") = -1 ∧
    parse_port (str "") = -1 ∧ parse_port (str "80x") = -1 ∧ parse_port (str "-1") = -1 ∧
    parse_port (str "99999999999999999999999") = -1 :=
  ⟨by decide, C14_parse_port (str "65536") 65536 (by decide), by decide, by decide, by decide,
    by decide, by decide, by decide⟩


/-! ## The effect of one invocation -/

theorem remove_and_return_gone (index : Nat) (conn c : connection) (w w1 : World)
    (hconn : w.connections[index]? = some conn) (hsock : c.sock = conn.sock)
    (hreg : get_socket_index w.sockets conn.sock < w.sockets.length)
    (hs : w1.sockets = w.sockets) (hc : w1.connections = w.connections) :
    remove_and_return index c w1 =
      .gone { w1 with
              sockets := swap_remove w.sockets (get_socket_index w.sockets conn.sock),
              connections := swap_remove w.connections index } := by
  have hidx := getElem?_lt_length hconn
  simp only [remove_and_return, remove_connection, World.number_sockets, hs, hc]
  rw [List.getElem?_set_eq_of_lt _ hidx]
  simp only [hsock, Nat.ne_of_lt hreg, if_false, remove_socket, swap_remove_set, hs]

theorem remove_and_return_effect (env : Env) (index : Nat) (conn c : connection) (w : World)
    (evs : List Event)
    (hconn : w.connections[index]? = some conn) (hsock : c.sock = conn.sock)
    (hreg : get_socket_index w.sockets conn.sock < w.sockets.length)
    (hevs : one_call conn.sock evs) :
    (remove_and_return index c { w with trace := w.trace ++ evs }).effect env index conn w := by
  rw [remove_and_return_gone index conn c w { w with trace := w.trace ++ evs } hconn hsock hreg
    rfl rfl]
  exact ⟨rfl, rfl, rfl, evs, rfl, hevs⟩

theorem one_call_send (sock : Int) (offered : List Byte) (a : Int) :
    one_call sock [.send sock offered a] :=
  Or.inr (Or.inr (Or.inl ⟨offered, a, rfl⟩))

theorem one_call_recv (sock : Int) (o l c : Nat) (r : Option (List Byte)) :
    one_call sock [.recv sock o l c r] :=
  Or.inr (Or.inl ⟨o, l, c, r, rfl⟩)

theorem send_amount_cases (env : Env) (w : World) (left : Nat) :
    send_amount env w left = -1 ∨
      ∃ a : Nat, a ≤ left ∧ send_amount env w left = (a : Int) := by
  unfold send_amount
  cases env.send w.trace.length with
  | none => exact Or.inl rfl
  | some n => exact Or.inr ⟨min n left, Nat.min_le_right _ _, rfl⟩

theorem block_request_write_effect (env : Env) (index : Nat) (conn : connection) (w : World)
    (hconn : w.connections[index]? = some conn) (hs : conn.state = .REQUEST_WRITE)
    (hreg : get_socket_index w.sockets conn.sock < w.sockets.length) :
    (block_request_write env index conn w).effect env index conn w := by
  unfold block_request_write
  rw [if_pos hs]
  simp only [World.log]
  rcases send_amount_cases env w (conn.buffer_size - conn.written) with ha | ⟨a, _, ha⟩
  · rw [ha, if_pos rfl]
    exact remove_and_return_effect env index conn conn w _ hconn rfl hreg (one_call_send _ _ _)
  · have hne : ¬ ((a : Int) = -1) := by omega
    rw [ha, if_neg hne]
    simp only [Int.toNat_ofNat, switch_sockets]
    split
    · rw [socket_change_some _ _ _ _ (by simpa using hreg)]
      refine ⟨rfl, rfl, ⟨_, rfl, one_call_send _ _ _⟩, Or.inr (Or.inl ⟨rfl, rfl, rfl, ?_, ?_⟩),
        ?_, ?_, ?_⟩
      · exact Or.inl hs
      · exact Or.inr (Or.inl rfl)
      · intro _ h
        simp at h
      · intro h
        rw [hs] at h
        exact absurd h (by simp)
      · intro h
        have hr := h.2.2.2 (by simp [hs])
        refine ⟨by simp, by simp, by simp, fun _ => hr⟩
    · refine ⟨rfl, rfl, ⟨_, rfl, one_call_send _ _ _⟩, Or.inl ⟨rfl, rfl, rfl, Or.inr rfl⟩,
        ?_, ?_, ?_⟩
      · intro _ h
        simp [hs] at h
      · intro h
        rw [hs] at h
        exact absurd h (by simp)
      · intro h
        have hr := h.2.2.2 (by simp [hs])
        refine ⟨by simp [hs], by simp [hs], by simp [hs], fun _ => hr⟩


theorem block_header_write_effect (env : Env) (index : Nat) (conn : connection) (w : World)
    (hconn : w.connections[index]? = some conn) (hs : conn.state = .HEADER_WRITE)
    (hreg : get_socket_index w.sockets conn.sock < w.sockets.length) :
    (block_header_write env index conn w).effect env index conn w := by
  unfold block_header_write
  rw [if_pos hs]
  simp only [World.log]
  rcases send_amount_cases env w (conn.buffer_size - conn.written) with ha | ⟨a, _, ha⟩
  · rw [ha, if_pos rfl]
    exact remove_and_return_effect env index conn conn w _ hconn rfl hreg (one_call_send _ _ _)
  · have hne : ¬ ((a : Int) = -1) := by omega
    rw [ha, if_neg hne]
    simp only [Int.toNat_ofNat, switch_sockets]
    split
    · rw [socket_change_some _ _ _ _ (by simpa using hreg)]
      refine ⟨rfl, rfl, ⟨_, rfl, one_call_send _ _ _⟩, Or.inr (Or.inl ⟨rfl, rfl, rfl, ?_, ?_⟩),
        ?_, ?_, ?_⟩
      · exact Or.inr (Or.inl hs)
      · exact Or.inr (Or.inr (Or.inl rfl))
      · intro _ _
        exact Or.inl rfl
      · intro h
        rw [hs] at h
        exact absurd h (by simp)
      · intro h
        have hr := h.2.2.2 (by simp [hs])
        refine ⟨fun _ => ⟨fresh_block_length _ _, ?_⟩, by simp, fun _ => Or.inl hr, by simp⟩
        simp only [hr]
        omega
    · refine ⟨rfl, rfl, ⟨_, rfl, one_call_send _ _ _⟩, Or.inl ⟨rfl, rfl, rfl, Or.inr rfl⟩,
        ?_, ?_, ?_⟩
      · intro _ h
        simp [hs] at h
      · intro h
        rw [hs] at h
        exact absurd h (by simp)
      · intro h
        have hr := h.2.2.2 (by simp [hs])
        refine ⟨by simp [hs], by simp [hs], by simp [hs], fun _ => hr⟩

theorem recv_amount_cases (env : Env) (w : World) (len : Nat) :
    recv_amount env w len = -1 ∨
      ∃ a : Nat, a ≤ len ∧ recv_amount env w len = (a : Int) := by
  unfold recv_amount
  cases env.recv w.trace.length with
  | none => exact Or.inl rfl
  | some d => exact Or.inr ⟨(d.take len).length, by simp, rfl⟩

theorem block_read_effect (env : Env) (index : Nat) (conn : connection) (w : World)
    (hconn : w.connections[index]? = some conn) (hs : conn.state = .READ)
    (hreg : get_socket_index w.sockets conn.sock < w.sockets.length) :
    (block_read env index conn w).effect env index conn w := by
  unfold block_read
  rw [if_pos hs]
  simp only [World.log, recv_event]
  rcases recv_amount_cases env w conn.buffer_size with ha | ⟨a, hale, ha⟩
  · rw [ha, if_pos rfl]
    exact remove_and_return_effect env index conn conn w _ hconn rfl hreg (one_call_recv _ _ _ _ _)
  · have hne : ¬ ((a : Int) = -1) := by omega
    rw [ha, if_neg hne]
    by_cases h0 : (a : Int) = 0
    · rw [if_pos h0]
      exact remove_and_return_effect env index conn conn w _ hconn rfl hreg
        (one_call_recv _ _ _ _ _)
    · rw [if_neg h0]
      simp only [connection.buffer_size, memwrite_body, Int.toNat_ofNat, switch_sockets]
      rw [socket_change_some _ _ _ _ (by simpa using hreg)]
      refine ⟨rfl, rfl, ⟨_, rfl, one_call_recv _ _ _ _ _⟩,
        Or.inr (Or.inl ⟨rfl, rfl, rfl, ?_, ?_⟩), ?_, ?_, ?_⟩
      · exact Or.inr (Or.inr (Or.inl hs))
      · exact Or.inr (Or.inr (Or.inr rfl))
      · intro h _
        exact h (Or.inl hs)
      · intro h
        rw [hs] at h
        exact absurd h (by simp)
      · intro h
        have hb := (h.1 (Or.inl hs)).1
        refine ⟨fun _ => ⟨?_, ?_⟩, fun _ => ?_, by simp, by simp⟩
        · rw [store_length _ _ (recv_data_length env w _)]
          exact hb
        · simp only [connection.buffer_size, hb] at hale
          exact hale
        · simp only
          omega


theorem memchr_lt (l : List Byte) (c : Byte) (e : Nat) (h : memchr l c = some e) :
    e < l.length := by
  induction l generalizing e with
  | nil => simp [memchr] at h
  | cons b rest ih =>
    simp only [memchr] at h
    by_cases hb : b = c
    · simp only [hb, if_true, Option.some.injEq] at h
      subst h
      simp
    · simp only [hb, if_false, Option.map_eq_some'] at h
      obtain ⟨e0, he0, he⟩ := h
      have := ih e0 he0
      subst he
      simp only [List.length_cons]
      omega

/-- The end of the `WRITE` block: `c0` is the record of `conn` with the copy
mode settled and the line flag set, `a` the value of the `send` of at most
`left` bytes after `skipped` bytes left out. -/
theorem write_finish_effect (env : Env) (index : Nat) (conn c0 : connection) (w : World)
    (evsock : Int) (offered : List Byte) (a : Int) (skipped left : Nat) (hev : evsock = conn.sock)
    (hconn : w.connections[index]? = some conn) (hs : conn.state = .WRITE)
    (hreg : get_socket_index w.sockets conn.sock < w.sockets.length)
    (hstate : c0.state = conn.state) (hsock : c0.sock = conn.sock)
    (hother : c0.sock_other = conn.sock_other) (hwritten : c0.written = conn.written)
    (hread : c0.read = conn.read) (hbuffer : c0.buffer = conn.buffer)
    (hitem : c0.itemtype = conn.itemtype)
    (hmode : c0.copymode ≠ .GOPHERMAP)
    (hmode2 : c0.copymode = conn.copymode ∨ c0.copymode = .TEXT)
    (ha : a = -1 ∨ ∃ n : Nat, n ≤ left ∧ a = (n : Int))
    (hbound : conn.written < conn.read → skipped + left ≤ conn.read - conn.written) :
    (write_finish index c0 { w with trace := w.trace ++ [.send evsock offered a] }
      a skipped).effect env index conn w := by
  subst hev
  unfold write_finish
  rcases ha with ha | ⟨n, hn, ha⟩
  · rw [if_pos ha]
    exact remove_and_return_effect env index conn c0 w _ hconn hsock hreg (one_call_send _ _ _)
  · have hne : ¬ (a = -1) := by omega
    have hz : (a + (skipped : Int)).toNat = n + skipped := by omega
    rw [if_neg hne]
    simp only [hz, switch_sockets]
    have hcopy : copymode_inv conn → ∀ s : connection_state,
        (s = .READ ∨ s = .WRITE) →
          (c0.copymode = get_copymode c0.itemtype ∨ c0.copymode = .TEXT) := by
      intro h s _
      rcases hmode2 with h2 | h2
      · rw [h2, hitem]
        exact h (Or.inr hs)
      · exact Or.inr h2
    split
    · rename_i hdone
      rw [hsock, hother, socket_change_some _ _ _ _ (by simpa using hreg)]
      refine ⟨rfl, rfl, ⟨_, rfl, one_call_send _ _ _⟩,
        Or.inr (Or.inl ⟨rfl, rfl, rfl, ?_, ?_⟩), ?_, ?_, ?_⟩
      · exact Or.inr (Or.inr (Or.inr hs))
      · exact Or.inr (Or.inr (Or.inl rfl))
      · intro h hst
        exact hcopy h .READ (Or.inl rfl)
      · intro _
        exact hmode
      · intro h
        have hb := h.1 (Or.inr hs)
        have hw := h.2.1 hs
        have hbd := hbound hw
        refine ⟨fun _ => ?_, by simp, fun _ => Or.inr ?_, by simp⟩
        · simp only [hbuffer, hread]
          exact hb
        · simp only [hwritten, hread] at hdone ⊢
          omega
    · rename_i hdone
      refine ⟨rfl, rfl, ⟨_, rfl, one_call_send _ _ _⟩, Or.inl ⟨hsock, hother, rfl, Or.inr hstate⟩,
        ?_, ?_, ?_⟩
      · intro h hst
        exact hcopy h .WRITE (Or.inr rfl)
      · intro _
        exact hmode
      · intro h
        have hb := h.1 (Or.inr hs)
        refine ⟨fun _ => ?_, fun _ => ?_, ?_, ?_⟩
        · simp only [hbuffer, hread]
          exact hb
        · simp only [hwritten, hread] at hdone ⊢
          omega
        · simp only [hstate, hs]
          intro h
          exact absurd h (by simp)
        · simp only [hstate, hs]
          intro h
          exact absurd h.2 (by simp)


theorem write_text_line_effect (env : Env) (index : Nat) (conn c0 : connection) (w : World)
    (start max_left skipped : Nat)
    (hconn : w.connections[index]? = some conn) (hs : conn.state = .WRITE)
    (hreg : get_socket_index w.sockets conn.sock < w.sockets.length)
    (hstate : c0.state = conn.state) (hsock : c0.sock = conn.sock)
    (hother : c0.sock_other = conn.sock_other) (hwritten : c0.written = conn.written)
    (hread : c0.read = conn.read) (hbuffer : c0.buffer = conn.buffer)
    (hitem : c0.itemtype = conn.itemtype)
    (hmode : c0.copymode ≠ .GOPHERMAP)
    (hmode2 : c0.copymode = conn.copymode ∨ c0.copymode = .TEXT)
    (hbound : conn.written < conn.read → skipped + max_left ≤ conn.read - conn.written) :
    (write_text_line env index c0 w start max_left skipped).effect env index conn w := by
  unfold write_text_line
  simp only [World.log]
  cases hm : memchr ((c0.buffer.drop start).take max_left) 10 with
  | none =>
    simp only
    exact write_finish_effect env index conn { c0 with beginning_of_line := false } w _ _ _
      skipped max_left hsock hconn hs hreg hstate hsock hother hwritten hread hbuffer hitem hmode hmode2
      (by
        rcases send_amount_cases env w max_left with h | ⟨n, hn, h⟩
        · exact Or.inl h
        · exact Or.inr ⟨n, hn, h⟩)
      hbound
  | some end_off =>
    simp only
    have hlt := memchr_lt _ _ _ hm
    have hle : end_off + 1 ≤ max_left := by
      rw [List.length_take] at hlt
      omega
    exact write_finish_effect env index conn { c0 with beginning_of_line := true } w _ _ _
      skipped (end_off + 1) hsock hconn hs hreg hstate hsock hother hwritten hread hbuffer hitem hmode
      hmode2
      (by
        rcases send_amount_cases env w (end_off + 1) with h | ⟨n, hn, h⟩
        · exact Or.inl h
        · exact Or.inr ⟨n, hn, h⟩)
      (fun h => by
        have := hbound h
        omega)

theorem write_slice_effect (env : Env) (index : Nat) (conn c0 : connection) (w : World)
    (hconn : w.connections[index]? = some conn) (hs : conn.state = .WRITE)
    (hreg : get_socket_index w.sockets conn.sock < w.sockets.length)
    (hstate : c0.state = conn.state) (hsock : c0.sock = conn.sock)
    (hother : c0.sock_other = conn.sock_other) (hwritten : c0.written = conn.written)
    (hread : c0.read = conn.read) (hbuffer : c0.buffer = conn.buffer)
    (hitem : c0.itemtype = conn.itemtype)
    (hmode : c0.copymode ≠ .GOPHERMAP)
    (hmode2 : c0.copymode = conn.copymode ∨ c0.copymode = .TEXT) :
    (write_slice env index c0 w).effect env index conn w := by
  unfold write_slice
  cases hm : c0.copymode with
  | GOPHERMAP => exact absurd hm hmode
  | BINARY =>
    simp only [if_true, World.log]
    exact write_finish_effect env index conn c0 w _ _ _ 0 (c0.read - c0.written) hsock hconn hs hreg
      hstate hsock hother hwritten hread hbuffer hitem hmode hmode2
      (by
        rcases send_amount_cases env w (c0.read - c0.written) with h | ⟨n, hn, h⟩
        · exact Or.inl h
        · exact Or.inr ⟨n, hn, h⟩)
      (fun _ => by
        rw [hread, hwritten]
        omega)
  | TEXT =>
    simp only [reduceCtorEq, if_false, if_true]
    split
    · rename_i hdots
      exact write_text_line_effect env index conn c0 w _ _ 1 hconn hs hreg hstate hsock hother
        hwritten hread hbuffer hitem hmode hmode2
        (fun _ => by
          have := hdots.2.1
          rw [hread, hwritten] at this ⊢
          omega)
    · split
      · have h := remove_and_return_effect env index conn c0 w [] hconn hsock hreg (Or.inl rfl)
        simp only [List.append_nil] at h
        exact h
      · exact write_text_line_effect env index conn c0 w _ _ 0 hconn hs hreg hstate hsock hother
          hwritten hread hbuffer hitem hmode hmode2
          (fun _ => by
            rw [hread, hwritten]
            omega)

theorem block_write_effect (env : Env) (index : Nat) (conn : connection) (w : World)
    (hconn : w.connections[index]? = some conn) (hs : conn.state = .WRITE)
    (hreg : get_socket_index w.sockets conn.sock < w.sockets.length) :
    (block_write env index conn w).effect env index conn w := by
  unfold block_write
  rw [if_pos hs]
  by_cases hm : conn.copymode = .GOPHERMAP
  · rw [if_pos hm]
    exact write_slice_effect env index conn { conn with copymode := .TEXT } w hconn hs hreg rfl
      rfl rfl rfl rfl rfl rfl (by simp) (Or.inr rfl)
  · rw [if_neg hm]
    exact write_slice_effect env index conn conn w hconn hs hreg rfl rfl rfl rfl rfl rfl rfl hm
      (Or.inl rfl)


theorem block_start_pure (c : connection) (w : World) (hs : parser_state c.state) :
    ∃ c1, block_start c w = .next c1 w ∧ c1.sock = c.sock ∧ c1.sock_other = c.sock_other ∧
      c1.read = c.read ∧ parser_state c1.state := by
  unfold block_start
  split
  · split
    · exact ⟨_, rfl, rfl, rfl, rfl, Or.inr (Or.inl rfl)⟩
    · exact ⟨_, rfl, rfl, rfl, rfl, hs⟩
  · exact ⟨_, rfl, rfl, rfl, rfl, hs⟩

theorem block_path_pure (c : connection) (w : World) (hs : parser_state c.state) :
    ∃ c1, block_path c w = .next c1 w ∧ c1.sock = c.sock ∧ c1.sock_other = c.sock_other ∧
      c1.read = c.read ∧ parser_state c1.state := by
  unfold block_path
  split
  · split
    · exact ⟨_, rfl, rfl, rfl, rfl, Or.inr (Or.inr rfl)⟩
    · exact ⟨_, rfl, rfl, rfl, rfl, hs⟩
  · exact ⟨_, rfl, rfl, rfl, rfl, hs⟩

theorem block_request_end_pure (c : connection) (w : World) (hs : parser_state c.state) :
    ∃ c1, block_request_end c w = .next c1 w ∧ c1.sock = c.sock ∧
      c1.sock_other = c.sock_other ∧ c1.read = c.read ∧
      (parser_state c1.state ∨ c1.state = .CONNECT) := by
  unfold block_request_end
  split
  · split
    · exact ⟨_, rfl, rfl, rfl, rfl, Or.inr rfl⟩
    · exact ⟨_, rfl, rfl, rfl, rfl, Or.inl hs⟩
  · exact ⟨_, rfl, rfl, rfl, rfl, Or.inl hs⟩

theorem one_call_then_connect (sock : Int) (evs0 : List Event) (fd : Int)
    (h : evs0 = [] ∨ ∃ o l c r, evs0 = [.recv sock o l c r]) :
    one_call sock (evs0 ++ [.connect fd]) := by
  rcases h with h | ⟨o, l, c, r, h⟩
  · subst h
    exact Or.inr (Or.inr (Or.inr (Or.inl ⟨fd, rfl⟩)))
  · subst h
    exact Or.inr (Or.inr (Or.inr (Or.inr ⟨o, l, c, r, fd, rfl⟩)))

theorem one_call_of_start (sock : Int) (evs0 : List Event)
    (h : evs0 = [] ∨ ∃ o l c r, evs0 = [.recv sock o l c r]) : one_call sock evs0 := by
  rcases h with h | h
  · exact Or.inl h
  · exact Or.inr (Or.inl h)

/-- The block of `CONNECT` on the record `c` in flight, after the events `evs0`
of the invocation entered with `conn`. -/
theorem block_connect_effect (env : Env) (index : Nat) (conn c : connection) (w : World)
    (evs0 : List Event)
    (hreg : get_socket_index w.sockets conn.sock < w.sockets.length)
    (hentry : parser_state conn.state ∨ conn.state = .CONNECT)
    (hevs : evs0 = [] ∨ ∃ o l c r, evs0 = [.recv conn.sock o l c r])
    (hsock : c.sock = conn.sock) (hother : c.sock_other = conn.sock_other)
    (hread : c.read = conn.read)
    (hstate : (parser_state conn.state ∧ parser_state c.state) ∨ c.state = .CONNECT) :
    (block_connect env c { w with trace := w.trace ++ evs0 }).effect env index conn w := by
  have hnr : conn.state ≠ .READ ∧ conn.state ≠ .WRITE := by
    rcases hentry with (h | h | h) | h <;> simp [h]
  unfold block_connect
  split
  · -- the upstream is connected
    cases hc : env.connect (w.trace ++ evs0).length with
    | none => exact ⟨_, hc⟩
    | some fd =>
      simp only [World.log, hsock]
      rw [socket_change_some _ _ _ _ (by simpa using hreg)]
      refine ⟨rfl, rfl, ⟨evs0 ++ [.connect fd], by simp, one_call_then_connect _ _ _ hevs⟩,
        Or.inr (Or.inr ⟨rfl, ⟨_, hc⟩, rfl, rfl⟩), ?_, ?_, ?_⟩
      · intro _ h
        simp [buffer_append] at h
      · intro h
        exact absurd h hnr.2
      · intro h
        have hr := h.2.2.2 hnr
        refine ⟨?_, ?_, ?_, ?_⟩ <;> simp [buffer_append, hread, hr]
  · rename_i hnc
    rcases hstate with ⟨h1, h2⟩ | h
    · refine ⟨rfl, rfl, ⟨evs0, rfl, one_call_of_start _ _ hevs⟩,
        Or.inl ⟨hsock, hother, rfl, Or.inl ⟨h1, h2⟩⟩, ?_, ?_, ?_⟩
      · intro _ h
        rcases h2 with h2 | h2 | h2 <;> simp [h2] at h
      · intro h
        exact absurd h hnr.2
      · intro h
        have hr := h.2.2.2 hnr
        have hc1 : c.state ≠ .READ := by rcases h2 with h2 | h2 | h2 <;> simp [h2]
        have hc2 : c.state ≠ .WRITE := by rcases h2 with h2 | h2 | h2 <;> simp [h2]
        refine ⟨?_, ?_, ?_, ?_⟩
        · intro h
          rcases h with h | h
          · exact absurd h hc1
          · exact absurd h hc2
        · intro h
          exact absurd h hc2
        · intro h
          exact absurd h hc1
        · intro _
          rw [hread]
          exact hr
    · exact absurd h hnc


theorem recv_data_ne_nil (env : Env) (w : World) (len : Nat)
    (h : ¬ recv_amount env w len ≤ 0) : recv_data env w len ≠ [] := by
  cases hr : env.recv w.trace.length with
  | none => simp [recv_amount, hr] at h
  | some d =>
    simp only [recv_amount, hr] at h
    simp only [recv_data, hr]
    intro h0
    rw [h0] at h
    simp at h

theorem memwrite_some_length (mem : List Byte) (off : Nat) (data b : List Byte)
    (h : memwrite mem off data = some b) : b.length = mem.length := by
  unfold memwrite at h
  split at h
  · cases h
    rfl
  · split at h
    · rename_i hle
      cases h
      simp only [List.length_append, List.length_take, List.length_drop]
      omega
    · cases h

/-- The copy of the retained bytes of `REQUEST_END` is outside the local array
only when there are more than 1024 of them. -/
theorem request_end_copy_none (g retained : List Byte)
    (h : memwrite (fresh_block g 1024) 0 retained = none) : 1024 < retained.length := by
  by_contra hc
  rw [memwrite_retained g retained (by omega)] at h
  cases h

/-- The store of the `recv` of `REQUEST_END` is outside the local array only
when at least one byte is retained. -/
theorem request_end_store_none (buffer1 retained data : List Byte)
    (hb : buffer1.length = 1024) (hlen : data.length ≤ 1024 - retained.length)
    (h : memwrite buffer1 (1024 * retained.length) data = none) :
    1 ≤ retained.length := by
  by_contra hc
  have h0 : retained = [] := List.length_eq_zero.1 (by omega)
  subst h0
  simp only [List.length_nil, Nat.mul_zero] at h
  rw [memwrite_zero _ _ (by rw [hb]; simpa using hlen)] at h
  cases h

theorem world_trace_nil (w : World) : { w with trace := w.trace ++ [] } = w := by
  cases w
  simp

theorem block_recv_cases (env : Env) (index : Nat) (conn : connection) (w : World)
    (hs : parser_state conn.state) :
    (block_recv env index conn w = .fault w ∧ stores_outside env conn w) ∨
    ∃ e, (∃ o l c r, e = Event.recv conn.sock o l c r) ∧
      (block_recv env index conn w =
          remove_and_return index conn { w with trace := w.trace ++ [e] } ∨
       (∃ c1, block_recv env index conn w = .next c1 { w with trace := w.trace ++ [e] } ∧
          c1.sock = conn.sock ∧ c1.sock_other = conn.sock_other ∧ c1.read = conn.read ∧
          c1.state = conn.state) ∨
       (block_recv env index conn w = .fault { w with trace := w.trace ++ [e] } ∧
          stores_outside env conn w)) := by
  unfold block_recv
  by_cases h1 : conn.state = .START ∨ conn.state = .PATH
  · rw [if_pos h1]
    refine Or.inr ⟨recv_event env w conn.sock 0 1024 1024, ⟨_, _, _, _, rfl⟩, ?_⟩
    simp only [World.log, memwrite_scratch]
    split
    · exact Or.inl rfl
    · exact Or.inr (Or.inl ⟨_, rfl, rfl, rfl, rfl, rfl⟩)
  · have h3 : conn.state = .REQUEST_END := by
      rcases hs with h | h | h
      · exact absurd (Or.inl h) h1
      · exact absurd (Or.inr h) h1
      · exact h
    rw [if_neg h1, if_pos h3]
    simp only [World.log]
    split
    · rename_i hcopy
      exact Or.inl ⟨rfl, h3, Or.inl (request_end_copy_none _ _ hcopy)⟩
    · rename_i buffer1 hcopy
      refine Or.inr ⟨recv_event env w conn.sock (1024 * conn.buffer_size)
        (1024 - conn.buffer_size) 1024, ⟨_, _, _, _, rfl⟩, ?_⟩
      have hb : buffer1.length = 1024 := by
        rw [memwrite_some_length _ _ _ _ hcopy]
        exact fresh_block_length _ _
      split
      · exact Or.inl rfl
      · rename_i hpos
        split
        · rename_i hnone
          refine Or.inr (Or.inr ⟨rfl, h3, Or.inr ⟨?_, recv_data_ne_nil env w _ hpos⟩⟩)
          exact request_end_store_none buffer1 conn.buffer _ hb (recv_data_length env w _)
            hnone
        · split
          · exact Or.inr (Or.inl ⟨_, rfl, rfl, rfl, rfl, rfl⟩)
          · exact Or.inr (Or.inl ⟨_, rfl, rfl, rfl, rfl, rfl⟩)

/-- Every invocation of `handle_connection` on a connection whose socket is in
the table of sockets leaves through a flow with the effect `Flow.effect`. -/
theorem handle_connection_effect (env : Env) (index : Nat) (w : World) (conn : connection)
    (hconn : w.connections[index]? = some conn)
    (hreg : get_socket_index w.sockets conn.sock < w.sockets.length) :
    ∃ f : Flow, handle_connection env index w = f.finish index ∧
      f.effect env index conn w := by
  cases hst : conn.state with
  | REQUEST_WRITE =>
    exact ⟨_, handle_request_write_eq env index w conn hconn hst,
      block_request_write_effect env index conn w hconn hst hreg⟩
  | HEADER_WRITE =>
    exact ⟨_, handle_header_write_eq env index w conn hconn hst,
      block_header_write_effect env index conn w hconn hst hreg⟩
  | READ =>
    exact ⟨_, handle_read_eq env index w conn hconn hst,
      block_read_effect env index conn w hconn hst hreg⟩
  | WRITE =>
    exact ⟨_, handle_write_eq env index w conn hconn hst,
      block_write_effect env index conn w hconn hst hreg⟩
  | CONNECT =>
    refine ⟨block_connect env conn w, ?_, ?_⟩
    · unfold handle_connection
      rw [hconn]
      simp only
      rw [block_recv_skip _ _ _ _ (by simp [hst]) (by simp [hst]) (by simp [hst]), andThen_next,
        block_start_skip _ _ (by simp [hst]), andThen_next,
        block_path_skip _ _ (by simp [hst]), andThen_next,
        block_request_end_skip _ _ (by simp [hst]), andThen_next]
      have hn := block_connect_next_state env conn w (Or.inr hst)
      cases hf : block_connect env conn w with
      | next c w1 =>
        have hc := hn c w1 hf
        have hc1 : c.state ≠ .REQUEST_WRITE := by rcases hc with h | h | h <;> simp [h]
        have hc2 : c.state ≠ .HEADER_WRITE := by rcases hc with h | h | h <;> simp [h]
        have hc3 : c.state ≠ .READ := by rcases hc with h | h | h <;> simp [h]
        have hc4 : c.state ≠ .WRITE := by rcases hc with h | h | h <;> simp [h]
        simp only [andThen_next]
        rw [block_request_write_skip _ _ _ _ hc1, andThen_next,
          block_header_write_skip _ _ _ _ hc2, andThen_next,
          block_read_skip _ _ _ _ hc3, andThen_next,
          block_write_skip _ _ _ _ hc4]
      | ret c w1 => rfl
      | gone w1 => rfl
      | exit => rfl
      | fault w1 => rfl
    · have h := block_connect_effect env index conn conn w [] hreg (Or.inr hst) (Or.inl rfl)
        rfl rfl rfl (Or.inr hst)
      simp only [List.append_nil] at h
      exact h
  | START | PATH | REQUEST_END =>
    have hs : parser_state conn.state := by simp [parser_state, hst]
    refine ⟨_, handle_parser_eq env index w conn hconn hs, ?_⟩
    rcases block_recv_cases env index conn w hs with ⟨hfault0, hstore0⟩ |
      ⟨e, ⟨o, l, c, r, he⟩, hcase⟩
    · rw [hfault0]
      exact hstore0
    rcases hcase with hrem | ⟨c1, hnext, hsock, hother, hread, hstate⟩ | ⟨hfault, hstore⟩
    · rw [hrem]
      simp only [andThen_remove_and_return]
      exact remove_and_return_effect env index conn conn w _ hconn rfl hreg
        (he ▸ one_call_recv _ _ _ _ _)
    · rw [hnext, andThen_next]
      have hs1 : parser_state c1.state := hstate ▸ hs
      obtain ⟨c2, h2, hsock2, hother2, hread2, hs2⟩ := block_start_pure c1
        { w with trace := w.trace ++ [e] } hs1
      rw [h2, andThen_next]
      obtain ⟨c3, h3, hsock3, hother3, hread3, hs3⟩ := block_path_pure c2
        { w with trace := w.trace ++ [e] } hs2
      rw [h3, andThen_next]
      obtain ⟨c4, h4, hsock4, hother4, hread4, hs4⟩ := block_request_end_pure c3
        { w with trace := w.trace ++ [e] } hs3
      rw [h4, andThen_next]
      refine block_connect_effect env index conn c4 w [e] hreg (Or.inl hs)
        (Or.inr ⟨o, l, c, r, by rw [he]⟩) ?_ ?_ ?_ ?_
      · rw [hsock4, hsock3, hsock2, hsock]
      · rw [hother4, hother3, hother2, hother]
      · rw [hread4, hread3, hread2, hread]
      · rcases hs4 with h | h
        · exact Or.inl ⟨hs, h⟩
        · exact Or.inr h
    · rw [hfault]
      exact hstore


/-! ## At most one I/O call per invocation -/

theorem io_calls_of_one_call (sock : Int) (evs : List Event) (h : one_call sock evs) :
    io_calls evs = [] ∨ io_calls evs = [sock] := by
  rcases h with h | ⟨o, l, c, r, h⟩ | ⟨offered, a, h⟩ | ⟨fd, h⟩ | ⟨o, l, c, r, fd, h⟩ <;>
    subst h <;> simp [io_calls, Event.io_sock]

/-- The result of `handle_connection`, by the flow through which it leaves. -/
theorem handle_connection_result (env : Env) (index : Nat) (w : World) (conn : connection)
    (hconn : w.connections[index]? = some conn)
    (hreg : get_socket_index w.sockets conn.sock < w.sockets.length) :
    (handle_connection env index w = none ∧
      ((∃ k, env.connect k = none) ∨ stores_outside env conn w)) ∨
    (∃ w1, handle_connection env index w = some w1 ∧ removed index conn w w1) ∨
    (∃ c w1, handle_connection env index w =
        some { w1 with connections := w.connections.set index c } ∧
      kept env conn w c w1) := by
  obtain ⟨f, hf, heff⟩ := handle_connection_effect env index w conn hconn hreg
  cases f with
  | exit => exact Or.inl ⟨hf, Or.inl heff⟩
  | fault w1 => exact Or.inl ⟨hf, Or.inr heff⟩
  | gone w1 => exact Or.inr (Or.inl ⟨w1, hf, heff⟩)
  | next c w1 =>
    refine Or.inr (Or.inr ⟨c, w1, ?_, heff⟩)
    rw [hf, Flow.finish, heff.1]
  | ret c w1 =>
    refine Or.inr (Or.inr ⟨c, w1, ?_, heff⟩)
    rw [hf, Flow.finish, heff.1]

/-- The invocation that stores outside the local array ends in the fault;
before it, it has made no call (the retained bytes do not fit the array), or
the one `recv` of `REQUEST_END`, on the socket of the connection. -/
theorem block_recv_fault (env : Env) (index : Nat) (conn : connection) (w : World)
    (h : stores_outside env conn w) :
    ∃ evs, block_recv env index conn w = .fault { w with trace := w.trace ++ evs } ∧
      (evs = [] ∨ ∃ o l c r, evs = [.recv conn.sock o l c r]) := by
  obtain ⟨hs, hcase⟩ := h
  have h1 : ¬ (conn.state = .START ∨ conn.state = .PATH) := by
    rw [hs]
    simp
  by_cases hbig : 1024 < conn.buffer_size
  · refine ⟨[], ?_, Or.inl rfl⟩
    unfold block_recv
    rw [if_neg h1, if_pos hs, world_trace_nil]
    simp only [memwrite_retained_none _ _ hbig]
  · have hsmall : conn.buffer.length ≤ 1024 := by
      simp only [connection.buffer_size] at hbig
      omega
    obtain ⟨hb, hd⟩ : 1 ≤ conn.buffer_size ∧
        recv_data env w (1024 - conn.buffer_size) ≠ [] := by
      rcases hcase with h | h
      · exact absurd h hbig
      · exact h
    have hpos : ¬ recv_amount env w (1024 - conn.buffer_size) ≤ 0 := by
      cases hr : env.recv w.trace.length with
      | none => simp [recv_data, hr] at hd
      | some d =>
        simp only [recv_data, hr] at hd
        simp only [recv_amount, hr]
        have := List.length_pos.2 hd
        omega
    have hnone : memwrite (conn.buffer ++
          (fresh_block (env.stack w.trace.length) 1024).drop conn.buffer.length)
        (1024 * conn.buffer_size) (recv_data env w (1024 - conn.buffer_size)) = none := by
      refine memwrite_outside _ _ _ hd ?_
      have := List.length_pos.2 hd
      rw [store_length _ _ (by rw [fresh_block_length]; exact hsmall), fresh_block_length]
      omega
    refine ⟨[recv_event env w conn.sock (1024 * conn.buffer_size) (1024 - conn.buffer_size)
      1024], ?_, Or.inr ⟨_, _, _, _, rfl⟩⟩
    unfold block_recv
    rw [if_neg h1, if_pos hs]
    simp only [World.log, memwrite_retained _ _ hsmall, if_neg hpos, hnone]

/-- C20: every invocation of `handle_connection` (on a connection whose socket
is in the table of sockets) either does not return, or returns having made at
most one `recv` or `send` call, on the socket that was the connection's socket
at entry; so when the invocation changes the active socket, no I/O was done on
the new one.  It does not return when `connect_to_remote` exits, or when it
stores outside the local array of `REQUEST_END`, having made no call or the
one `recv`, on the socket of the connection. -/
theorem C20_one_call_on_entry_socket (env : Env) (index : Nat) (w : World) (conn : connection)
    (hconn : w.connections[index]? = some conn)
    (hreg : get_socket_index w.sockets conn.sock < w.sockets.length) :
    (handle_connection env index w = none ∧
      ((∃ k, env.connect k = none) ∨
       (stores_outside env conn w ∧
        ∃ evs, block_recv env index conn w = .fault { w with trace := w.trace ++ evs } ∧
          (io_calls evs = [] ∨ io_calls evs = [conn.sock])))) ∨
    ∃ w1 evs, handle_connection env index w = some w1 ∧ w1.trace = w.trace ++ evs ∧
      (io_calls evs = [] ∨ io_calls evs = [conn.sock]) ∧
      (∀ c1, w1.number_connections = w.number_connections →
        w1.connections[index]? = some c1 → c1.sock ≠ conn.sock → c1.sock ∉ io_calls evs) := by
  have key : ∀ w1 : World, (∃ evs, w1.trace = w.trace ++ evs ∧ one_call conn.sock evs) →
      ∃ evs, w1.trace = w.trace ++ evs ∧
        (io_calls evs = [] ∨ io_calls evs = [conn.sock]) ∧
        (∀ c1 : connection, w1.number_connections = w.number_connections →
          w1.connections[index]? = some c1 → c1.sock ≠ conn.sock →
            c1.sock ∉ io_calls evs) := by
    intro w1 ⟨evs, htrace, hone⟩
    have hio := io_calls_of_one_call conn.sock evs hone
    refine ⟨evs, htrace, hio, ?_⟩
    intro c1 _ _ hne hmem
    rcases hio with h | h
    · rw [h] at hmem
      simp at hmem
    · rw [h] at hmem
      simp only [List.mem_singleton] at hmem
      exact hne hmem
  rcases handle_connection_result env index w conn hconn hreg with
    ⟨hnone, hexit | hstore⟩ | ⟨w1, hstep, hrem⟩ | ⟨c, w1, hstep, hkept⟩
  · exact Or.inl ⟨hnone, Or.inl hexit⟩
  · obtain ⟨evs, hfault, hevs⟩ := block_recv_fault env index conn w hstore
    refine Or.inl ⟨hnone, Or.inr ⟨hstore, evs, hfault, ?_⟩⟩
    rcases hevs with h | ⟨o, l, c, r, h⟩
    · rw [h]
      exact Or.inl rfl
    · rw [h]
      exact Or.inr rfl
  · obtain ⟨evs, h1, h2, h3⟩ := key w1 hrem.2.2.2
    exact Or.inr ⟨w1, evs, hstep, h1, h2, h3⟩
  · obtain ⟨evs, h1, h2, h3⟩ := key { w1 with connections := w.connections.set index c }
      hkept.2.2.1
    exact Or.inr ⟨_, evs, hstep, h1, h2, h3⟩

theorem C20_witness :
    ((handle_connection (script [.data (str "GET /Ifoo.png HTTP/1.0\r\n\r\n"), .fd 9] []) 0
        one_client = none ∧
      ((∃ k, (script [.data (str "GET /Ifoo.png HTTP/1.0\r\n\r\n"), .fd 9] []).connect k = none) ∨
       (stores_outside (script [.data (str "GET /Ifoo.png HTTP/1.0\r\n\r\n"), .fd 9] [])
          (new_connection 5) one_client ∧
        ∃ evs, block_recv (script [.data (str "GET /Ifoo.png HTTP/1.0\r\n\r\n"), .fd 9] [])
            0 (new_connection 5) one_client =
          .fault { one_client with trace := one_client.trace ++ evs } ∧
          (io_calls evs = [] ∨ io_calls evs = [(new_connection 5).sock])))) ∨
    ∃ w1 evs, handle_connection (script [.data (str "GET /Ifoo.png HTTP/1.0\r\n\r\n"), .fd 9] [])
        0 one_client = some w1 ∧
      w1.trace = one_client.trace ++ evs ∧
      (io_calls evs = [] ∨ io_calls evs = [(new_connection 5).sock]) ∧
      (∀ c1, w1.number_connections = one_client.number_connections →
        w1.connections[0]? = some c1 → c1.sock ≠ (new_connection 5).sock →
          c1.sock ∉ io_calls evs)) ∧
    (handle_connection (script [.data (str "GET /Ifoo.png HTTP/1.0\r\n\r\n"), .fd 9] []) 0
        one_client).map
        (fun w => (io_calls w.trace, w.connections.map (fun c => (c.state, c.sock)))) =
      some ([5], [(.REQUEST_WRITE, 9)]) :=
  ⟨C20_one_call_on_entry_socket (script [.data (str "GET /Ifoo.png HTTP/1.0\r\n\r\n"), .fd 9] [])
    0 one_client (new_connection 5) (by decide) (by decide),
    by decide⟩


/-! ## The event mask of the active socket -/

theorem poll_events_reading_head (s : connection_state) (h : parser_state s) :
    poll_events s = POLLIN := by
  rcases h with h | h | h <;> rw [h] <;> rfl

theorem mask_ok_set (w : World) (conn c : connection) (sockets : List pollfd)
    (hreg : get_socket_index w.sockets conn.sock < w.sockets.length)
    (hs : sockets = w.sockets.set (get_socket_index w.sockets conn.sock)
      { fd := c.sock, events := poll_events c.state })
    (hfresh : ∀ e ∈ w.sockets, e.fd ≠ c.sock) :
    (∃ e ∈ sockets, e.fd = c.sock) ∧
    ∀ e ∈ sockets, e.fd = c.sock → e.events = poll_events c.state := by
  subst hs
  refine ⟨⟨{ fd := c.sock, events := poll_events c.state }, ?_, rfl⟩, ?_⟩
  · exact List.mem_iff_getElem.2 ⟨_, by simpa using hreg, by simp⟩
  · intro e he hfd
    rcases List.mem_or_eq_of_mem_set he with h | h
    · exact absurd hfd (hfresh e h)
    · rw [h]

/-- C19: after `add_connection` the new connection's socket is registered with
the mask of `START` (readable); and an invocation of `handle_connection` that
returns without removing the connection leaves the socket of the connection
registered with the mask of its state (readable in `START`, `PATH`,
`REQUEST_END`, `READ`; writable in `REQUEST_WRITE`, `HEADER_WRITE`, `WRITE`),
provided it was so at entry and the idle socket and a newly connected
descriptor are not already in the table of sockets.  An invocation does not
return only when `connect_to_remote` exits or `REQUEST_END` stores outside its
local array (`stores_outside`). -/
theorem C19_event_mask_follows_state (env : Env) (index : Nat) (w : World)
    (conn : connection) (sock : Int)
    (hnew : ∀ e ∈ w.sockets, e.fd ≠ sock)
    (hconn : w.connections[index]? = some conn) (hmask : mask_ok w conn)
    (hidle : ∀ e ∈ w.sockets, e.fd ≠ conn.sock_other)
    (hfresh : ∀ k fd, env.connect k = some fd → ∀ e ∈ w.sockets, e.fd ≠ fd) :
    (mask_ok (add_connection sock w) (new_connection sock) ∧
      (add_connection sock w).connections.getLast? = some (new_connection sock) ∧
      poll_events .START = POLLIN ∧ poll_events .PATH = POLLIN ∧
      poll_events .REQUEST_END = POLLIN ∧ poll_events .READ = POLLIN ∧
      poll_events .REQUEST_WRITE = POLLOUT ∧ poll_events .HEADER_WRITE = POLLOUT ∧
      poll_events .WRITE = POLLOUT) ∧
    ((handle_connection env index w = none ∧
        ((∃ k, env.connect k = none) ∨ stores_outside env conn w)) ∨
     ∃ w1, handle_connection env index w = some w1 ∧
       (w1.number_connections = w.number_connections →
         ∃ c1, w1.connections[index]? = some c1 ∧ mask_ok w1 c1)) := by
  have hidx := getElem?_lt_length hconn
  have hreg : get_socket_index w.sockets conn.sock < w.sockets.length :=
    (get_socket_index_lt_iff _ _).2 hmask.1
  constructor
  · refine ⟨⟨⟨{ fd := sock, events := POLLIN }, ?_, rfl⟩, ?_⟩, ?_, rfl, rfl, rfl, rfl, rfl, rfl,
      rfl⟩
    · simp [add_connection, add_socket]
    · intro e he hfd
      simp only [add_connection, add_socket, List.mem_append, List.mem_singleton] at he
      rcases he with h | h
      · exact absurd hfd (hnew e h)
      · rw [h]
        rfl
    · simp [add_connection]
  · rcases handle_connection_result env index w conn hconn hreg with
      hexit | ⟨w1, hstep, hrem⟩ | ⟨c, w1, hstep, hkept⟩
    · exact Or.inl hexit
    · refine Or.inr ⟨w1, hstep, fun hnum => ?_⟩
      exfalso
      have := swap_remove_length w.connections index hidx
      rw [World.number_connections, hrem.2.1] at hnum
      simp only [World.number_connections] at hnum
      omega
    · refine Or.inr ⟨_, hstep, fun _ => ⟨c, getElem?_set_self_of_some _ hconn, ?_⟩⟩
      obtain ⟨_, _, _, hcase, _⟩ := hkept
      rcases hcase with ⟨hsock, _, hsockets, hstate⟩ | ⟨hsock, _, hsockets, _, _⟩ |
        ⟨_, ⟨k, hk⟩, hsockets, _⟩
      · -- the socket is kept
        have hev : poll_events c.state = poll_events conn.state := by
          rcases hstate with ⟨h1, h2⟩ | h
          · rw [poll_events_reading_head _ h1, poll_events_reading_head _ h2]
          · rw [h]
        simp only [mask_ok, hsockets, hsock, hev]
        exact hmask
      · -- the sockets are switched
        exact mask_ok_set w conn c _ hreg hsockets (hsock ▸ hidle)
      · -- the upstream is connected
        exact mask_ok_set w conn c _ hreg hsockets (hfresh k c.sock hk)

theorem C19_witness :
    ((mask_ok (add_connection 7 one_client) (new_connection 7) ∧
      (add_connection 7 one_client).connections.getLast? = some (new_connection 7) ∧
      poll_events .START = POLLIN ∧ poll_events .PATH = POLLIN ∧
      poll_events .REQUEST_END = POLLIN ∧ poll_events .READ = POLLIN ∧
      poll_events .REQUEST_WRITE = POLLOUT ∧ poll_events .HEADER_WRITE = POLLOUT ∧
      poll_events .WRITE = POLLOUT) ∧
    ((handle_connection trickle 0 one_client = none ∧
        ((∃ k, trickle.connect k = none) ∨
          stores_outside trickle (new_connection 5) one_client)) ∨
     ∃ w1, handle_connection trickle 0 one_client = some w1 ∧
       (w1.number_connections = one_client.number_connections →
         ∃ c1, w1.connections[0]? = some c1 ∧ mask_ok w1 c1))) ∧
    (handle_connection trickle 0 one_client).map
        (fun w => (w.sockets, w.connections.map (fun c => (c.state, c.sock)))) =
      some ([{ fd := 3, events := POLLIN }, { fd := 5, events := POLLIN }], [(.START, 5)]) :=
  ⟨C19_event_mask_follows_state trickle 0 one_client (new_connection 5) 7
    (by decide) (by decide) ⟨⟨{ fd := 5, events := POLLIN }, by decide, rfl⟩, by decide⟩
    (by decide)
    (fun k fd h => by
      simp only [trickle, Option.some.injEq] at h
      subst h
      decide),
    by decide⟩


/-! ## The copy mode and the counters while streaming -/

theorem get_copymode_ne_gophermap (t : Byte) (h : t ≠ 49) : get_copymode t ≠ .GOPHERMAP := by
  unfold get_copymode
  rw [if_neg h]
  split <;> simp

theorem kept_or_removed_count (index : Nat) (conn : connection) (w w1 : World)
    (hconn : w.connections[index]? = some conn) (hrem : removed index conn w w1) :
    w1.number_connections ≠ w.number_connections := by
  have hidx := getElem?_lt_length hconn
  have := swap_remove_length w.connections index hidx
  rw [World.number_connections, hrem.2.1]
  simp only [World.number_connections]
  omega

/-- C17, as stated, fails: the request `GET /` has item type 1; when the
response head has been sent the connection is in `READ` with the Gophermap
copy mode, and after the first chunk it is in `WRITE`, still with that mode;
the `WRITE` invocation then replaces it by the text mode. -/
theorem C17_counterexample :
    (run (script [.data (str "GET / HTTP/1.0\r\n\r\n"), .fd 9, .accept 100, .accept 100,
          .data (str "iHello\r\n"), .accept 3] []) 0 3 one_client).map
      (fun w => w.connections.map (fun c => (c.state, c.itemtype, c.copymode))) =
      some [(.READ, 49, .GOPHERMAP)] ∧
    (run (script [.data (str "GET / HTTP/1.0\r\n\r\n"), .fd 9, .accept 100, .accept 100,
          .data (str "iHello\r\n"), .accept 3] []) 0 4 one_client).map
      (fun w => w.connections.map (fun c => (c.state, c.itemtype, c.copymode))) =
      some [(.WRITE, 49, .GOPHERMAP)] ∧
    (run (script [.data (str "GET / HTTP/1.0\r\n\r\n"), .fd 9, .accept 100, .accept 100,
          .data (str "iHello\r\n"), .accept 3] []) 0 5 one_client).map
      (fun w => w.connections.map (fun c => (c.state, c.itemtype, c.copymode))) =
      some [(.WRITE, 49, .TEXT)] := by
  decide

theorem remove_and_return_sat (index : Nat) (conn : connection) (w : World)
    (N R : connection → World → Prop) :
    (remove_and_return index conn w).sat N R (fun _ => True) True := by
  unfold remove_and_return
  split <;> trivial

/-- The invocation that completes `HEADER_WRITE` returns in `READ` with the
copy mode of the item type. -/
theorem block_header_write_copymode (env : Env) (index : Nat) (conn : connection) (w : World)
    (hs : conn.state = .HEADER_WRITE) :
    (block_header_write env index conn w).sat
      (fun c _ => c.state = .READ → c.copymode = get_copymode c.itemtype)
      (fun c _ => c.state = .READ → c.copymode = get_copymode c.itemtype)
      (fun _ => True) True := by
  unfold block_header_write
  rw [if_pos hs]
  simp only [World.log]
  split
  · exact remove_and_return_sat _ _ _ _ _
  · split
    · simp only [switch_sockets]
      split
      · trivial
      · intro _
        rfl
    · intro h
      simp [hs] at h

/-- The invocation of `READ` that keeps the connection returns in `WRITE` and
leaves the copy mode and the item type as they were. -/
theorem block_read_copymode (env : Env) (index : Nat) (conn : connection) (w : World)
    (hs : conn.state = .READ) :
    (block_read env index conn w).sat
      (fun c _ => c.state = .WRITE ∧ c.copymode = conn.copymode ∧ c.itemtype = conn.itemtype)
      (fun c _ => c.state = .WRITE ∧ c.copymode = conn.copymode ∧ c.itemtype = conn.itemtype)
      (fun _ => True) True := by
  unfold block_read
  rw [if_pos hs]
  simp only [World.log]
  split
  · exact remove_and_return_sat _ _ _ _ _
  · split
    · exact remove_and_return_sat _ _ _ _ _
    · split
      · trivial
      · simp only [switch_sockets]
        split
        · trivial
        · exact ⟨rfl, rfl, rfl⟩

/-- A property of the record a block leaves holds of the record in the table
when the invocation returns with the connection kept. -/
theorem finish_sat (env : Env) (index : Nat) (conn : connection) (w : World) (f : Flow)
    (P : connection → Prop) (hconn : w.connections[index]? = some conn)
    (heff : f.effect env index conn w)
    (hsat : f.sat (fun c _ => P c) (fun c _ => P c) (fun _ => True) True)
    (w1 : World) (c1 : connection) (hf : f.finish index = some w1)
    (hnum : w1.number_connections = w.number_connections)
    (hc1 : w1.connections[index]? = some c1) : P c1 := by
  cases f with
  | exit => cases hf
  | fault w0 => cases hf
  | gone w0 =>
    simp only [Flow.finish, Option.some.injEq] at hf
    subst hf
    exact absurd hnum (kept_or_removed_count index conn w _ hconn heff)
  | next c w0 =>
    simp only [Flow.finish, Option.some.injEq] at hf
    subst hf
    have h1 : w0.connections = w.connections := heff.1
    simp only [h1, getElem?_set_self_of_some c hconn, Option.some.injEq] at hc1
    subst hc1
    exact hsat
  | ret c w0 =>
    simp only [Flow.finish, Option.some.injEq] at hf
    subst hf
    have h1 : w0.connections = w.connections := heff.1
    simp only [h1, getElem?_set_self_of_some c hconn, Option.some.injEq] at hc1
    subst hc1
    exact hsat

/-- C17, amended: a new connection satisfies the invariant of the copy mode,
and every invocation of `handle_connection` that returns with the connection
kept keeps the invariant: in `READ` and `WRITE` the copy mode is
`get_copymode` of the item type, or the text mode that replaced the Gophermap
mode; so it is TEXT or BINARY for every item type other than 1.  For every
item type the invocation that completes `HEADER_WRITE` returns in `READ` with
`get_copymode` of the item type (the Gophermap mode for item type 1), the
invocation entered in `READ` returns in `WRITE` with the copy mode and the
item type unchanged, and every invocation entered in `WRITE` returns with TEXT
or BINARY.  An invocation does not return only when `connect_to_remote` exits
or `REQUEST_END` stores outside its local array (`stores_outside`). -/
theorem C17_copymode_while_streaming (env : Env) (index : Nat) (w : World)
    (conn : connection) (sock : Int)
    (hconn : w.connections[index]? = some conn)
    (hreg : get_socket_index w.sockets conn.sock < w.sockets.length)
    (hinv : copymode_inv conn) :
    copymode_inv (new_connection sock) ∧
    ((handle_connection env index w = none ∧
        ((∃ k, env.connect k = none) ∨ stores_outside env conn w)) ∨
     ∃ w1, handle_connection env index w = some w1 ∧
       (w1.number_connections = w.number_connections →
         ∃ c1, w1.connections[index]? = some c1 ∧ copymode_inv c1 ∧
           (conn.state = .WRITE → (c1.copymode = .TEXT ∨ c1.copymode = .BINARY)) ∧
           ((c1.state = .READ ∨ c1.state = .WRITE) → c1.itemtype ≠ 49 →
             (c1.copymode = .TEXT ∨ c1.copymode = .BINARY)) ∧
           (conn.state = .HEADER_WRITE → c1.state = .READ →
             c1.copymode = get_copymode c1.itemtype ∧
               (c1.itemtype = 49 → c1.copymode = .GOPHERMAP)) ∧
           (conn.state = .READ →
             c1.state = .WRITE ∧ c1.copymode = conn.copymode ∧
               c1.itemtype = conn.itemtype))) := by
  have hmode : ∀ m : copymode, m ≠ .GOPHERMAP → (m = .TEXT ∨ m = .BINARY) := by
    intro m hm
    cases m with
    | TEXT => exact Or.inl rfl
    | BINARY => exact Or.inr rfl
    | GOPHERMAP => exact absurd rfl hm
  constructor
  · intro h
    simp [new_connection] at h
  · rcases handle_connection_result env index w conn hconn hreg with
      hexit | ⟨w1, hstep, hrem⟩ | ⟨c, w1, hstep, hkept⟩
    · exact Or.inl hexit
    · exact Or.inr ⟨w1, hstep, fun h =>
        absurd h (kept_or_removed_count index conn w w1 hconn hrem)⟩
    · refine Or.inr ⟨_, hstep, fun hnum => ⟨c, getElem?_set_self_of_some _ hconn, ?_⟩⟩
      have hc1 := getElem?_set_self_of_some c hconn
      obtain ⟨_, _, _, _, hcopy, hwrite, _⟩ := hkept
      have hc := hcopy hinv
      refine ⟨hc, fun h => hmode _ (hwrite h), fun hst hitem => ?_, fun hs hst => ?_,
        fun hs => ?_⟩
      · rcases hc hst with h | h
        · rw [h]
          exact hmode _ (get_copymode_ne_gophermap _ hitem)
        · exact Or.inl h
      · have h := finish_sat env index conn w _
          (fun c => c.state = .READ → c.copymode = get_copymode c.itemtype) hconn
          (block_header_write_effect env index conn w hconn hs hreg)
          (block_header_write_copymode env index conn w hs) _ c
          ((handle_header_write_eq env index w conn hconn hs).symm.trans hstep) hnum hc1 hst
        refine ⟨h, fun hitem => ?_⟩
        rw [h, hitem]
        rfl
      · exact finish_sat env index conn w _
          (fun c => c.state = .WRITE ∧ c.copymode = conn.copymode ∧
            c.itemtype = conn.itemtype) hconn
          (block_read_effect env index conn w hconn hs hreg)
          (block_read_copymode env index conn w hs) _ c
          ((handle_read_eq env index w conn hconn hs).symm.trans hstep) hnum hc1

theorem C17_witness :
    (copymode_inv (new_connection 5) ∧
    ((handle_connection trickle 0 (streaming .TEXT) = none ∧
        ((∃ k, trickle.connect k = none) ∨
          stores_outside trickle
            { new_connection 9 with
                state := .READ, sock_other := 5, itemtype := 48, copymode := .TEXT,
                buffer := fresh_block [] 1024, beginning_of_line := true }
            (streaming .TEXT))) ∨
     ∃ w1, handle_connection trickle 0 (streaming .TEXT) = some w1 ∧
       (w1.number_connections = (streaming .TEXT).number_connections →
         ∃ c1, w1.connections[0]? = some c1 ∧ copymode_inv c1 ∧
           (({ new_connection 9 with
                state := .READ, sock_other := 5, itemtype := 48, copymode := .TEXT,
                buffer := fresh_block [] 1024, beginning_of_line := true } :
                  connection).state = .WRITE →
              (c1.copymode = .TEXT ∨ c1.copymode = .BINARY)) ∧
           ((c1.state = .READ ∨ c1.state = .WRITE) → c1.itemtype ≠ 49 →
             (c1.copymode = .TEXT ∨ c1.copymode = .BINARY)) ∧
           (({ new_connection 9 with
                state := .READ, sock_other := 5, itemtype := 48, copymode := .TEXT,
                buffer := fresh_block [] 1024, beginning_of_line := true } :
                  connection).state = .HEADER_WRITE → c1.state = .READ →
             c1.copymode = get_copymode c1.itemtype ∧
               (c1.itemtype = 49 → c1.copymode = .GOPHERMAP)) ∧
           (({ new_connection 9 with
                state := .READ, sock_other := 5, itemtype := 48, copymode := .TEXT,
                buffer := fresh_block [] 1024, beginning_of_line := true } :
                  connection).state = .READ →
             c1.state = .WRITE ∧
               c1.copymode = ({ new_connection 9 with
                state := .READ, sock_other := 5, itemtype := 48, copymode := .TEXT,
                buffer := fresh_block [] 1024, beginning_of_line := true } :
                  connection).copymode ∧
               c1.itemtype = ({ new_connection 9 with
                state := .READ, sock_other := 5, itemtype := 48, copymode := .TEXT,
                buffer := fresh_block [] 1024, beginning_of_line := true } :
                  connection).itemtype)))) ∧
    (handle_connection trickle 0 (streaming .TEXT)).map
        (fun w => w.connections.map (fun c => (c.state, c.copymode, c.itemtype))) =
      some [(.WRITE, .TEXT, 48)] :=
  ⟨C17_copymode_while_streaming trickle 0 (streaming .TEXT)
    { new_connection 9 with
        state := .READ, sock_other := 5, itemtype := 48, copymode := .TEXT,
        buffer := fresh_block [] 1024, beginning_of_line := true } 5
    (by decide) (by decide) (fun _ => Or.inr (by decide)),
    by decide⟩


/-- C18, as stated, fails: when the response head (44 bytes for `image/png`)
has been sent, the connection is in `READ` with `written` still 44 and `read`
still 0; the `READ` step resets them. -/
theorem C18_counterexample :
    (run (script [.fail, .fail, .accept 100, .accept 100] []) 0 2 one_client_request).map
      (fun w => w.connections.map (fun c => (c.state, c.written, c.read, c.buffer_size))) =
      some [(.READ, 44, 0, 1024)] ∧
    ¬ ((44 : Nat) ≤ 0) := by
  decide

/-- C18, amended: a new connection satisfies the invariant of the counters, and
every invocation of `handle_connection` that returns with the connection kept
keeps it.  So at every return a connection in `WRITE` has
`written < read ≤ buffer_size` with `buffer_size` 1024, and a connection in
`READ` has `read ≤ buffer_size` with `buffer_size` 1024 and `written = read`,
unless no chunk was received yet (`read` is 0 and `written` is what
`HEADER_WRITE` left).  An invocation does not return only when
`connect_to_remote` exits or `REQUEST_END` stores outside its local array
(`stores_outside`). -/
theorem C18_counters_while_streaming (env : Env) (index : Nat) (w : World)
    (conn : connection) (sock : Int)
    (hconn : w.connections[index]? = some conn)
    (hreg : get_socket_index w.sockets conn.sock < w.sockets.length)
    (hinv : counters_inv conn) :
    counters_inv (new_connection sock) ∧
    ((handle_connection env index w = none ∧
        ((∃ k, env.connect k = none) ∨ stores_outside env conn w)) ∨
     ∃ w1, handle_connection env index w = some w1 ∧
       (w1.number_connections = w.number_connections →
         ∃ c1, w1.connections[index]? = some c1 ∧ counters_inv c1 ∧
           (c1.state = .WRITE →
             c1.written < c1.read ∧ c1.read ≤ c1.buffer_size ∧ c1.buffer_size = 1024) ∧
           (c1.state = .READ →
             c1.read ≤ c1.buffer_size ∧ c1.buffer_size = 1024 ∧
               (c1.read = 0 ∨ c1.written = c1.read)))) := by
  constructor
  · refine ⟨?_, ?_, ?_, ?_⟩ <;> simp [new_connection]
  · rcases handle_connection_result env index w conn hconn hreg with
      hexit | ⟨w1, hstep, hrem⟩ | ⟨c, w1, hstep, hkept⟩
    · exact Or.inl hexit
    · exact Or.inr ⟨w1, hstep, fun h =>
        absurd h (kept_or_removed_count index conn w w1 hconn hrem)⟩
    · refine Or.inr ⟨_, hstep, fun _ => ⟨c, getElem?_set_self_of_some _ hconn, ?_⟩⟩
      obtain ⟨_, _, _, _, _, _, hcount⟩ := hkept
      have hc := hcount hinv
      refine ⟨hc, fun hst => ?_, fun hst => ?_⟩
      · have h1 := hc.1 (Or.inr hst)
        have h2 := hc.2.1 hst
        simp only [connection.buffer_size]
        omega
      · have h1 := hc.1 (Or.inl hst)
        have h2 := hc.2.2.1 hst
        simp only [connection.buffer_size]
        refine ⟨by omega, h1.1, h2⟩

theorem C18_witness :
    (counters_inv (new_connection 5) ∧
    ((handle_connection trickle 0 (streaming .TEXT) = none ∧
        ((∃ k, trickle.connect k = none) ∨
          stores_outside trickle
            { new_connection 9 with
                state := .READ, sock_other := 5, itemtype := 48, copymode := .TEXT,
                buffer := fresh_block [] 1024, beginning_of_line := true }
            (streaming .TEXT))) ∨
     ∃ w1, handle_connection trickle 0 (streaming .TEXT) = some w1 ∧
       (w1.number_connections = (streaming .TEXT).number_connections →
         ∃ c1, w1.connections[0]? = some c1 ∧ counters_inv c1 ∧
           (c1.state = .WRITE →
             c1.written < c1.read ∧ c1.read ≤ c1.buffer_size ∧ c1.buffer_size = 1024) ∧
           (c1.state = .READ →
             c1.read ≤ c1.buffer_size ∧ c1.buffer_size = 1024 ∧
               (c1.read = 0 ∨ c1.written = c1.read))))) ∧
    (handle_connection trickle 0 (streaming .TEXT)).map
        (fun w => w.connections.map (fun c => (c.state, c.written, c.read, c.buffer_size))) =
      some [(.WRITE, 0, 8, 1024)] :=
  ⟨C18_counters_while_streaming trickle 0 (streaming .TEXT)
    { new_connection 9 with
        state := .READ, sock_other := 5, itemtype := 48, copymode := .TEXT,
        buffer := fresh_block [] 1024, beginning_of_line := true } 5
    (by decide) (by decide)
    ⟨fun _ => ⟨by decide, by decide⟩, fun h => absurd h (by decide), fun _ => Or.inl rfl,
      fun h => absurd rfl h.1⟩,
    by decide⟩


/-! ## The table of sockets over the life of the server -/

theorem get_socket_index_entry (l : List pollfd) (sock : Int)
    (h : get_socket_index l sock < l.length) :
    ∃ e, l[get_socket_index l sock]? = some e ∧ e.fd = sock := by
  induction l with
  | nil => simp [get_socket_index] at h
  | cons s rest ih =>
    by_cases hs : s.fd = sock
    · exact ⟨s, by simp [get_socket_index, hs], hs⟩
    · simp only [get_socket_index, hs, if_false, List.length_cons,
        Nat.add_lt_add_iff_right] at h ⊢
      obtain ⟨e, he, hfd⟩ := ih h
      exact ⟨e, by simpa using he, hfd⟩

theorem perm_set_swap_remove {α : Type} (l : List α) (i : Nat) (a c : α)
    (h : l[i]? = some a) : (l.set i c).Perm (c :: swap_remove l i) := by
  have hlt := getElem?_lt_length h
  have h2 := perm_swap_remove (l.set i c) i c (by simp [List.getElem?_set, hlt])
  rwa [swap_remove_set] at h2

theorem descriptors_perm (L : List Int) {a b : List connection} (h : a.Perm b) :
    (descriptors L a).Perm (descriptors L b) := by
  unfold descriptors
  exact ((List.Perm.refl L).append (h.map _)).append ((h.map _).filter _)

theorem mem_descriptors (L : List Int) (conns : List connection) (fd : Int) :
    fd ∈ descriptors L conns ↔
      fd ∈ L ∨ (∃ c ∈ conns, c.sock = fd) ∨ (∃ c ∈ conns, c.sock_other = fd ∧ fd ≠ -1) := by
  unfold descriptors
  simp only [List.mem_append, List.mem_map, List.mem_filter, decide_eq_true_eq, or_assoc]
  constructor
  · rintro (h | h | ⟨⟨c, hc, rfl⟩, h2⟩)
    · exact Or.inl h
    · exact Or.inr (Or.inl h)
    · exact Or.inr (Or.inr ⟨c, hc, rfl, h2⟩)
  · rintro (h | h | ⟨c, hc, rfl, h2⟩)
    · exact Or.inl h
    · exact Or.inr (Or.inl h)
    · exact Or.inr (Or.inr ⟨⟨c, hc, rfl⟩, h2⟩)

theorem descriptors_cons_perm (L : List Int) (x : connection) (R : List connection) :
    (descriptors L (x :: R)).Perm
      (x.sock :: ((if x.sock_other ≠ -1 then [x.sock_other] else []) ++ descriptors L R)) := by
  unfold descriptors
  rw [List.perm_iff_count]
  intro a
  by_cases h : x.sock_other = -1
  · simp only [List.map_cons, h, ne_eq, not_true_eq_false, if_false, List.nil_append,
      List.filter_cons, decide_False, Bool.false_eq_true, List.count_append, List.count_cons]
    omega
  · simp only [List.map_cons, ne_eq, h, not_false_eq_true, if_true, List.filter_cons,
      decide_True, List.count_append, List.count_cons, List.count_nil]
    omega

theorem descriptors_cons_nodup (L : List Int) (x : connection) (R : List connection) :
    (descriptors L (x :: R)).Nodup ↔
      (descriptors L R).Nodup ∧ x.sock ∉ descriptors L R ∧
      (x.sock_other ≠ -1 → x.sock_other ∉ descriptors L R ∧ x.sock ≠ x.sock_other) := by
  rw [(descriptors_cons_perm L x R).nodup_iff]
  by_cases h : x.sock_other = -1
  · simp only [h, ne_eq, not_true_eq_false, if_false, List.nil_append, List.nodup_cons,
      false_implies, and_true]
    tauto
  · simp only [ne_eq, h, not_false_eq_true, if_true, List.singleton_append, List.nodup_cons,
      List.mem_cons, not_or, true_implies]
    tauto


theorem fd_inv_split (L : List Int) (w : World) (index : Nat) (conn : connection)
    (hconn : w.connections[index]? = some conn) (hinv : fd_inv L w) :
    get_socket_index w.sockets conn.sock < w.sockets.length ∧
    ((swap_remove w.sockets (get_socket_index w.sockets conn.sock)).map (·.fd)).Perm
      (L ++ (swap_remove w.connections index).map (·.sock)) ∧
    (descriptors L (swap_remove w.connections index)).Nodup ∧
    conn.sock ∉ descriptors L (swap_remove w.connections index) ∧
    (conn.sock_other ≠ -1 →
      conn.sock_other ∉ descriptors L (swap_remove w.connections index) ∧
        conn.sock ≠ conn.sock_other) ∧
    conn.sock ≠ -1 ∧ (-1 : Int) ∉ L ++ (swap_remove w.connections index).map (·.sock) ∧
    (∀ c ∈ swap_remove w.connections index, past_connect c.state → c.sock_other ≠ -1) ∧
    (past_connect conn.state → conn.sock_other ≠ -1) ∧
    (∀ c ∈ swap_remove w.connections index, c ∈ w.connections) := by
  obtain ⟨hperm, hnd, hneg, hpast⟩ := hinv
  have hp := perm_swap_remove w.connections index conn hconn
  have hmem : conn ∈ w.connections := List.getElem?_mem hconn
  have hsub : ∀ c ∈ swap_remove w.connections index, c ∈ w.connections :=
    fun c hc => hp.symm.subset (List.mem_cons_of_mem _ hc)
  have hin2 : conn.sock ∈ L ++ w.connections.map (·.sock) :=
    List.mem_append_right _ (List.mem_map_of_mem _ hmem)
  have hin : conn.sock ∈ w.sockets.map (·.fd) := hperm.symm.subset hin2
  have hreg : get_socket_index w.sockets conn.sock < w.sockets.length := by
    rw [get_socket_index_lt_iff]
    obtain ⟨e, he, hfd⟩ := List.mem_map.1 hin
    exact ⟨e, he, hfd⟩
  obtain ⟨e, he, hfd⟩ := get_socket_index_entry _ _ hreg
  have hsp := (perm_swap_remove w.sockets _ e he).map (·.fd)
  have hnd2 := ((descriptors_perm L hp).nodup_iff).1 hnd
  rw [descriptors_cons_nodup] at hnd2
  have h0 := hsp.symm.trans (hperm.trans ((List.Perm.refl L).append (hp.map (·.sock))))
  simp only [List.map_cons, hfd] at h0
  have h1 := (h0.trans List.perm_middle).cons_inv
  refine ⟨hreg, h1, hnd2.1, hnd2.2.1, hnd2.2.2, ?_, ?_, ?_, ?_, hsub⟩
  · intro h
    exact hneg (h ▸ hin2)
  · intro h
    apply hneg
    rcases List.mem_append.1 h with h | h
    · exact List.mem_append_left _ h
    · obtain ⟨c, hc, hcs⟩ := List.mem_map.1 h
      exact List.mem_append_right _ (List.mem_map.2 ⟨c, hsub c hc, hcs⟩)
  · exact fun c hc => hpast c (hsub c hc)
  · exact hpast conn hmem

theorem fd_inv_join (L : List Int) (w1 : World) (R : List connection) (c : connection)
    (S : List Int)
    (hs : (w1.sockets.map (·.fd)).Perm (c.sock :: S)) (hS : S.Perm (L ++ R.map (·.sock)))
    (hc : w1.connections.Perm (c :: R))
    (hnd : (descriptors L R).Nodup) (h1 : c.sock ∉ descriptors L R)
    (h2 : c.sock_other ≠ -1 → c.sock_other ∉ descriptors L R ∧ c.sock ≠ c.sock_other)
    (h3 : c.sock ≠ -1) (h4 : (-1 : Int) ∉ L ++ R.map (·.sock))
    (h5 : ∀ c ∈ R, past_connect c.state → c.sock_other ≠ -1)
    (h6 : past_connect c.state → c.sock_other ≠ -1) : fd_inv L w1 := by
  have hmap := (List.Perm.refl L).append (hc.map (·.sock))
  refine ⟨?_, ?_, ?_, ?_⟩
  · refine hs.trans ((hS.cons _).trans ?_)
    refine List.perm_middle.symm.trans ?_
    simpa only [List.map_cons] using hmap.symm
  · exact ((descriptors_perm L hc).nodup_iff).2 ((descriptors_cons_nodup L c R).2 ⟨hnd, h1, h2⟩)
  · intro h
    have h7 := hmap.subset h
    simp only [List.map_cons, List.mem_append, List.mem_cons] at h7
    rcases h7 with h7 | h7 | h7
    · exact h4 (List.mem_append_left _ h7)
    · exact h3 h7.symm
    · exact h4 (List.mem_append_right _ h7)
  · intro c1 hc1
    rcases List.mem_cons.1 (hc.subset hc1) with h7 | h7
    · exact h7 ▸ h6
    · exact h5 c1 h7

theorem fd_inv_handle (L : List Int) (env : Env) (w w1 : World) (index : Nat)
    (hinv : fd_inv L w) (hfresh : ∀ k fd, env.connect k = some fd → fresh fd w)
    (h : handle_connection env index w = some w1) : fd_inv L w1 := by
  cases hconn : w.connections[index]? with
  | none => simp [handle_connection, hconn] at h
  | some conn =>
    obtain ⟨hreg, hS, hnd, h1, h2, h3, h4, h5, h6, hsub⟩ := fd_inv_split L w index conn hconn hinv
    obtain ⟨e, he, hfd⟩ := get_socket_index_entry _ _ hreg
    have hdesc : ∀ fd, fresh fd w → fd ∉ descriptors L (swap_remove w.connections index) := by
      intro fd hf hmem
      rw [mem_descriptors] at hmem
      rcases hmem with hm | ⟨c, hc, hcs⟩ | ⟨c, hc, hcs, _⟩
      · have h8 : fd ∈ w.sockets.map (·.fd) :=
          hinv.1.symm.subset (List.mem_append_left _ hm)
        obtain ⟨e1, he1, hfd1⟩ := List.mem_map.1 h8
        exact hf.2.1 e1 he1 hfd1
      · exact (hf.2.2 c (hsub c hc)).1 hcs
      · exact (hf.2.2 c (hsub c hc)).2 hcs
    rcases handle_connection_result env index w conn hconn hreg with
      ⟨hn, _⟩ | ⟨w2, hw2, hrem⟩ | ⟨c, w2, hw2, hk⟩
    · rw [hn] at h
      cases h
    · rw [hw2] at h
      cases h
      obtain ⟨hsock, hcon, _, _⟩ := hrem
      refine ⟨?_, ?_, ?_, ?_⟩
      · rw [hsock, hcon]
        exact hS
      · rw [hcon]
        exact hnd
      · rw [hcon]
        exact h4
      · rw [hcon]
        exact h5
    · rw [hw2] at h
      cases h
      obtain ⟨_, _, _, hcase, _, _, _⟩ := hk
      have hcp := perm_set_swap_remove w.connections index conn c hconn
      rcases hcase with ⟨hs1, hs2, hso, hst⟩ | ⟨hs1, hs2, hso, hp1, hp2⟩ | ⟨hs2, ⟨k, hk⟩, hso, hst⟩
      · refine fd_inv_join L _ _ c _ ?_ hS hcp hnd (hs1 ▸ h1) ?_ (hs1 ▸ h3) h4 h5 ?_
        · show (w2.sockets.map (·.fd)).Perm _
          rw [hso, hs1]
          have := (perm_swap_remove w.sockets _ e he).map (·.fd)
          simpa only [List.map_cons, hfd] using this
        · rw [hs1, hs2]
          exact h2
        · rw [hs2]
          rcases hst with ⟨_, hps⟩ | hst
          · intro hpc
            rcases hps with h9 | h9 | h9 <;> rcases hpc with h8 | h8 | h8 | h8 <;>
              rw [h9] at h8 <;> cases h8
          · rw [hst]
            exact h6
      · have hne := h6 hp1
        obtain ⟨h21, h22⟩ := h2 hne
        refine fd_inv_join L _ _ c _ ?_ hS hcp hnd (hs1 ▸ h21) ?_ (hs1 ▸ hne) h4 h5 ?_
        · show (w2.sockets.map (·.fd)).Perm _
          rw [hso]
          have := (perm_set_swap_remove w.sockets _ e
            { fd := c.sock, events := poll_events c.state } he).map (·.fd)
          simpa only [List.map_cons] using this
        · rw [hs1, hs2]
          exact fun _ => ⟨h1, fun h => h22 h.symm⟩
        · rw [hs2]
          exact fun _ => h3
      · have hf := hfresh k c.sock hk
        refine fd_inv_join L _ _ c _ ?_ hS hcp hnd (hdesc _ hf) ?_ hf.1 h4 h5 ?_
        · show (w2.sockets.map (·.fd)).Perm _
          rw [hso]
          have := (perm_set_swap_remove w.sockets _ e
            { fd := c.sock, events := poll_events c.state } he).map (·.fd)
          simpa only [List.map_cons] using this
        · rw [hs2]
          refine fun _ => ⟨h1, fun h => ?_⟩
          exact (hf.2.2 conn (List.getElem?_mem hconn)).1 h.symm
        · rw [hs2]
          exact fun _ => h3


theorem setup_listen_fold (l : List Int) (w : World) :
    (l.foldl (fun acc sock => add_socket sock POLLIN acc) w).sockets =
        w.sockets ++ l.map (fun sock => { fd := sock, events := POLLIN }) ∧
      (l.foldl (fun acc sock => add_socket sock POLLIN acc) w).connections = w.connections := by
  induction l generalizing w with
  | nil => simp
  | cons a rest ih =>
    obtain ⟨h1, h2⟩ := ih (add_socket a POLLIN w)
    refine ⟨?_, ?_⟩
    · rw [List.foldl_cons, h1]
      simp [add_socket]
    · rw [List.foldl_cons, h2]
      rfl

theorem fd_inv_init (L : List Int) (hL : L.Nodup) (hneg : (-1 : Int) ∉ L) :
    fd_inv L (setup_listen L boot) := by
  obtain ⟨h1, h2⟩ := setup_listen_fold L boot
  have hs : (setup_listen L boot).sockets =
      L.map (fun sock => { fd := sock, events := POLLIN }) := by
    simpa [setup_listen, boot] using h1
  have hc : (setup_listen L boot).connections = [] := by
    simpa [setup_listen, boot] using h2
  refine ⟨?_, ?_, ?_, ?_⟩
  · rw [hs, hc, List.map_map, List.map_nil, List.append_nil,
      show ((fun x : pollfd => x.fd) ∘ fun sock => ({ fd := sock, events := POLLIN } : pollfd)) =
        id from rfl, List.map_id]
  · rw [hc]
    simpa [descriptors] using hL
  · rw [hc]
    simpa using hneg
  · rw [hc]
    simp

theorem fd_inv_add (L : List Int) (w : World) (sock : Int) (hinv : fd_inv L w)
    (hf : fresh sock w) : fd_inv L (add_connection sock w) := by
  obtain ⟨hperm, hnd, hneg, hpast⟩ := hinv
  have hdesc : sock ∉ descriptors L w.connections := by
    intro hmem
    rw [mem_descriptors] at hmem
    rcases hmem with hm | ⟨c, hc, hcs⟩ | ⟨c, hc, hcs, _⟩
    · have h8 : sock ∈ w.sockets.map (·.fd) := hperm.symm.subset (List.mem_append_left _ hm)
      obtain ⟨e1, he1, hfd1⟩ := List.mem_map.1 h8
      exact hf.2.1 e1 he1 hfd1
    · exact (hf.2.2 c hc).1 hcs
    · exact (hf.2.2 c hc).2 hcs
  refine fd_inv_join L _ w.connections (new_connection sock) (L ++ w.connections.map (·.sock))
    ?_ (List.Perm.refl _) ?_ hnd hdesc ?_ hf.1 hneg hpast ?_
  · show ((w.sockets ++ [({ fd := sock, events := POLLIN } : pollfd)]).map (·.fd)).Perm _
    rw [List.map_append]
    refine (List.perm_append_comm).trans ?_
    simpa [new_connection] using hperm
  · show (w.connections ++ [new_connection sock]).Perm _
    exact List.perm_append_comm
  · intro h
    exact absurd rfl h
  · intro h
    rcases h with h | h | h | h <;> cases h

theorem fd_inv_remove (L : List Int) (w w1 : World) (index : Nat) (hinv : fd_inv L w)
    (h : remove_connection index w = some w1) : fd_inv L w1 := by
  cases hconn : w.connections[index]? with
  | none => simp [remove_connection, hconn] at h
  | some conn =>
    obtain ⟨hreg, hS, hnd, _, _, _, h4, h5, _, _⟩ := fd_inv_split L w index conn hconn hinv
    simp only [remove_connection, hconn, World.number_sockets, Nat.ne_of_lt hreg, if_false,
      Option.some.injEq] at h
    subst h
    exact ⟨hS, hnd, h4, h5⟩

theorem reach_fd_inv (L : List Int) (hL : L.Nodup) (hneg : (-1 : Int) ∉ L) (w : World)
    (h : Reach L w) : fd_inv L w := by
  induction h with
  | init => exact fd_inv_init L hL hneg
  | add w sock _ hf ih => exact fd_inv_add L w sock ih hf
  | remove w w1 index _ hr ih => exact fd_inv_remove L w w1 index ih hr
  | handle env w w1 index _ hf hh ih => exact fd_inv_handle L env w w1 index ih hf hh

/-- C16: in every state the server reaches from the end of listener setup (on
distinct descriptors) by `add_connection`, `remove_connection` and the
invocations of `handle_connection` that return, when accept and connect return
descriptors not in use, the descriptors in the table of sockets are the
listeners and the active sockets of the connections; the active socket of each
connection is in exactly one entry of the table and its idle socket is in
none. -/
theorem C16_socket_table_tracks_active (L : List Int) (w : World)
    (hL : L.Nodup) (hneg : (-1 : Int) ∉ L) (h : Reach L w) :
    (∀ fd, (∃ e ∈ w.sockets, e.fd = fd) ↔ (fd ∈ L ∨ ∃ c ∈ w.connections, c.sock = fd)) ∧
    ∀ c ∈ w.connections,
      (w.sockets.filter (fun e => e.fd = c.sock)).length = 1 ∧
      ∀ e ∈ w.sockets, e.fd ≠ c.sock_other := by
  obtain ⟨hperm, hnd, hneg1, _⟩ := reach_fd_inv L hL hneg w h
  have hmem : ∀ fd, (∃ e ∈ w.sockets, e.fd = fd) ↔
      (fd ∈ L ∨ ∃ c ∈ w.connections, c.sock = fd) := by
    intro fd
    have h1 : (∃ e ∈ w.sockets, e.fd = fd) ↔ fd ∈ w.sockets.map (·.fd) := by
      simp [List.mem_map]
    rw [h1, hperm.mem_iff]
    simp [List.mem_append, List.mem_map]
  refine ⟨hmem, fun c hc => ⟨?_, ?_⟩⟩
  · have hnd1 : (L ++ w.connections.map (·.sock)).Nodup := by
      unfold descriptors at hnd
      exact (List.nodup_append.1 hnd).1
    have hin : c.sock ∈ L ++ w.connections.map (·.sock) :=
      List.mem_append_right _ (List.mem_map_of_mem _ hc)
    have hcount : (w.sockets.map (·.fd)).count c.sock = 1 := by
      rw [hperm.count_eq]
      exact List.count_eq_one_of_mem hnd1 hin
    have hlen : ∀ l : List pollfd,
        (l.filter (fun e => e.fd = c.sock)).length = (l.map (·.fd)).count c.sock := by
      intro l
      induction l with
      | nil => rfl
      | cons a rest ih =>
        by_cases ha : a.fd = c.sock
        · simp [List.filter_cons, ha, ih]
        · simp [List.filter_cons, ha, ih, List.count_cons]
    rw [hlen, hcount]
  · intro e he hfd
    have hin : c.sock_other ∈ L ++ w.connections.map (·.sock) := by
      have h2 := (hmem c.sock_other).1 ⟨e, he, hfd⟩
      simpa [List.mem_append, List.mem_map] using h2
    have hne : c.sock_other ≠ -1 := fun h3 => hneg1 (h3 ▸ hin)
    unfold descriptors at hnd
    have hdis := (List.nodup_append.1 hnd).2.2
    refine hdis hin ?_
    simp only [List.mem_filter, List.mem_map, decide_eq_true_eq]
    exact ⟨⟨c, hc, rfl⟩, hne⟩


/-- C16 at a concrete state: one listener (descriptor 3), a client accepted on
descriptor 5, and the invocation that reads the request and connects upstream
on descriptor 9: the table holds 3 and 9, and not the idle socket 5. -/
theorem C16_witness :
    ([3] : List Int).Nodup ∧ (-1 : Int) ∉ ([3] : List Int) ∧ Reach [3] one_client_request ∧
    ((∀ fd, (∃ e ∈ one_client_request.sockets, e.fd = fd) ↔
        (fd ∈ ([3] : List Int) ∨ ∃ c ∈ one_client_request.connections, c.sock = fd)) ∧
      ∀ c ∈ one_client_request.connections,
        (one_client_request.sockets.filter (fun e => e.fd = c.sock)).length = 1 ∧
        ∀ e ∈ one_client_request.sockets, e.fd ≠ c.sock_other) :=
  have hr : Reach [3] one_client_request :=
    Reach.handle one_request one_client one_client_request 0
      (Reach.add (setup_listen [3] boot) 5 Reach.init (by unfold fresh; decide))
      (fun k fd h => by
        have h1 : fd = 9 := by
          simp only [one_request, trickle, Option.some.injEq] at h
          exact h.symm
        subst h1
        unfold fresh
        decide)
      (by decide)
  ⟨by decide, by decide, hr,
    C16_socket_table_tracks_active [3] one_client_request (by decide) (by decide) hr⟩


/-! ## Streaming the body in TEXT mode, line by line -/

/-- C22: TEXT mode, the chunk `a..b` CRLF.  When the `send` accepts the whole
line the client is sent the line as it is; when the first `send` accepts one
byte, the flag `beginning_of_line` is already set from the slice offered, so
the next `WRITE` step takes the two dots in the middle of the line for
dot-stuffing and the client is sent `a.b` CRLF.  In the same way the chunk
`a.` CRLF `b` CRLF is sent whole, but after a first `send` of one byte the
rest of the first line is taken for the terminator: the connection is removed
with only `a` sent. -/
theorem C22_partial_send_changes_body :
    (run (script [.data (str "a..b\r\n"), .accept 1024] []) 0 10 (streaming .TEXT)).map
      (fun w => (sent_bytes 5 w.trace, w.number_connections)) =
      some (str "a..b\r\n", 0) ∧
    (run (script [.data (str "a..b\r\n"), .accept 1, .accept 1024] []) 0 10
        (streaming .TEXT)).map
      (fun w => (sent_bytes 5 w.trace, w.number_connections)) =
      some (str "a.b\r\n", 0) ∧
    (run (script [.data (str "a..b\r\n"), .accept 1, .accept 1024] []) 0 2
        (streaming .TEXT)).map
      (fun w => w.connections.map
        (fun c => (c.state, c.written, c.beginning_of_line, pending c))) =
      some [(.WRITE, 1, true, str "..b\r\n")] ∧
    (run (script [.data (str "a.\r\nb\r\n"), .accept 1024, .accept 1024] []) 0 10
        (streaming .TEXT)).map
      (fun w => (sent_bytes 5 w.trace, w.number_connections)) =
      some (str "a.\r\nb\r\n", 0) ∧
    (run (script [.data (str "a.\r\nb\r\n"), .accept 1, .accept 1024] []) 0 10
        (streaming .TEXT)).map
      (fun w => (sent_bytes 5 w.trace, w.number_connections, w.trace.length)) =
      some (str "a", 0, 2) := by
  decide

/-- C23: the `recv` of `REQUEST_END` with retained bytes.  After the chunk
`GET /x HTTP/1.0` CRLF four bytes are retained, and the next `recv` is given
the destination 4096 bytes after the start of the array of 1024 bytes, with
length 1020; after the chunk `GET /x ` one byte is retained, and the
destination is 1024 bytes after the start, with length 1023.  Both end outside
the array, the bytes delivered are stored outside it, and the invocation does
not return; the `recv` of `START` has offset 0 and length 1024. -/
theorem C23_request_end_recv_outside_array :
    (run (script [.data (str "GET /x HTTP/1.0\r\n"), .data (str "\r\n")] []) 0 1 one_client).map
      (fun w => (w.connections.map (fun c => (c.state, c.buffer_size)), w.trace)) =
      some ([(.REQUEST_END, 4)], [.recv 5 0 1024 1024 (some (str "GET /x HTTP/1.0\r\n"))]) ∧
    (run (script [.data (str "GET /x HTTP/1.0\r\n"), .data (str "\r\n")] []) 0 1 one_client).map
      (fun w => w.connections.map (fun c =>
        match block_recv (script [.data (str "GET /x HTTP/1.0\r\n"), .data (str "\r\n")] [])
            0 c w with
        | .fault w1 => w1.trace.getLast?
        | _ => none)) =
      some [some (.recv 5 4096 1020 1024 (some (str "\r\n")))] ∧
    ¬ (4096 + 1020 ≤ 1024) ∧
    run (script [.data (str "GET /x HTTP/1.0\r\n"), .data (str "\r\n")] []) 0 2 one_client =
      none ∧
    (run (script [.data (str "GET /x "), .data (str "H")] []) 0 1 one_client).map
      (fun w => w.connections.map (fun c => (c.state, c.buffer_size))) =
      some [(.REQUEST_END, 1)] ∧
    (run (script [.data (str "GET /x "), .data (str "H")] []) 0 1 one_client).map
      (fun w => w.connections.map (fun c =>
        match block_recv (script [.data (str "GET /x "), .data (str "H")] []) 0 c w with
        | .fault w1 => w1.trace.getLast?
        | _ => none)) =
      some [some (.recv 5 1024 1023 1024 (some (str "H")))] ∧
    ¬ (1024 + 1023 ≤ 1024) ∧
    run (script [.data (str "GET /x "), .data (str "H")] []) 0 2 one_client = none := by
  decide


/-! ## Progress of the `WRITE` steps -/

theorem write_finish_outcome (env : Env) (index : Nat) (conn c0 : connection) (w : World)
    (skip left : Nat)
    (hconn : w.connections[index]? = some conn)
    (hreg : get_socket_index w.sockets conn.sock < w.sockets.length)
    (hstate : c0.state = .WRITE) (hsock : c0.sock = conn.sock)
    (hwritten : c0.written = conn.written)
    (hread : c0.read = conn.read) (hbuffer : c0.buffer = conn.buffer)
    (hmode : conn.copymode = .BINARY → c0.copymode = .BINARY)
    (hbound : conn.written + skip + left ≤ conn.read) :
    ∃ w1, (write_finish index c0
        { w with trace := w.trace ++
          [.send conn.sock ((conn.buffer.drop (conn.written + skip)).take left)
            (send_amount env w left)] }
        (send_amount env w left) skip).finish index = some w1 ∧
      write_outcome env index conn w skip left w1 := by
  rcases send_amount_cases env w left with ha | ⟨a, hle, ha⟩
  · rw [ha]
    unfold write_finish
    rw [if_pos rfl]
    refine ⟨_, finish_removed index conn c0 w _ hconn hsock hreg, ?_, Or.inl ⟨ha, rfl⟩⟩
    rw [ha]
  · rw [ha, write_finish_accept]
    by_cases hdone : c0.written + (a + skip) ≥ c0.read
    · rw [if_pos hdone, socket_change_some _ _ _ _ (by simpa [hsock] using hreg)]
      refine ⟨_, rfl, ?_, Or.inr ⟨a, _, ha, hle, rfl, ?_, ?_, hread, hbuffer, hmode,
        Or.inr ⟨rfl, ?_⟩⟩⟩
      · simp [ha]
      · simp only [hsock]
        exact get_socket_index_set w.sockets conn.sock c0.sock_other POLLIN hreg
      · simp only [hwritten]
        omega
      · simp only [hwritten, hread] at hdone ⊢
        omega
    · rw [if_neg hdone]
      refine ⟨_, rfl, ?_, Or.inr ⟨a, _, ha, hle, rfl, ?_, ?_, hread, hbuffer, hmode,
        Or.inl ⟨hstate, ?_⟩⟩⟩
      · simp [ha]
      · simp only [hsock]
        exact hreg
      · simp only [hwritten]
        omega
      · simp only [hwritten, hread] at hdone ⊢
        omega


theorem write_text_line_outcome (env : Env) (index : Nat) (conn c0 : connection) (w : World)
    (skip : Nat)
    (hconn : w.connections[index]? = some conn)
    (hreg : get_socket_index w.sockets conn.sock < w.sockets.length)
    (hstate : c0.state = .WRITE) (hsock : c0.sock = conn.sock)
    (hwritten : c0.written = conn.written)
    (hread : c0.read = conn.read) (hbuffer : c0.buffer = conn.buffer)
    (hmode : conn.copymode = .BINARY → c0.copymode = .BINARY)
    (hbound : conn.written + skip < conn.read) :
    ∃ w1 left, (write_text_line env index c0 w (conn.written + skip)
        (conn.read - conn.written - skip) skip).finish index = some w1 ∧
      1 ≤ left ∧ conn.written + skip + left ≤ conn.read ∧
      write_outcome env index conn w skip left w1 := by
  unfold write_text_line
  simp only [World.log, hsock, hbuffer]
  cases hm : memchr ((conn.buffer.drop (conn.written + skip)).take
      (conn.read - conn.written - skip)) 10 with
  | none =>
    simp only
    obtain ⟨w1, h1, h2⟩ := write_finish_outcome env index conn
      { c0 with sock := conn.sock, buffer := conn.buffer, beginning_of_line := false }
      w skip (conn.read - conn.written - skip)
      hconn hreg hstate rfl hwritten hread rfl hmode (by omega)
    exact ⟨w1, _, h1, by omega, by omega, h2⟩
  | some end_off =>
    simp only
    have hlt := memchr_lt _ _ _ hm
    have hle : end_off + 1 ≤ conn.read - conn.written - skip := by
      rw [List.length_take] at hlt
      omega
    obtain ⟨w1, h1, h2⟩ := write_finish_outcome env index conn
      { c0 with sock := conn.sock, buffer := conn.buffer, beginning_of_line := true }
      w skip (end_off + 1)
      hconn hreg hstate rfl hwritten hread rfl hmode (by omega)
    exact ⟨w1, _, h1, by omega, by omega, h2⟩

/-- One `WRITE` step with bytes left to send: the connection is removed at the
terminator line without a `send` (never in BINARY mode), or one non-empty
slice inside `buffer[written .. read)` is offered to `send`, at most one byte
after `written`. -/
theorem handle_write_progress (env : Env) (index : Nat) (w : World) (conn : connection)
    (hconn : w.connections[index]? = some conn) (hs : conn.state = .WRITE)
    (hreg : get_socket_index w.sockets conn.sock < w.sockets.length)
    (hw : conn.written < conn.read) :
    ∃ w1, handle_connection env index w = some w1 ∧
      ((conn.copymode ≠ .BINARY ∧ w1.trace = w.trace ∧
          w1.connections = swap_remove w.connections index) ∨
       ∃ skip left, skip ≤ 1 ∧ (skip = 1 → conn.copymode ≠ .BINARY) ∧ 1 ≤ left ∧
         conn.written + skip + left ≤ conn.read ∧
         write_outcome env index conn w skip left w1) := by
  rw [handle_write_eq env index w conn hconn hs]
  unfold block_write
  rw [if_pos hs]
  have key : ∀ c0 : connection, c0.state = .WRITE → c0.sock = conn.sock →
      c0.written = conn.written → c0.read = conn.read → c0.buffer = conn.buffer →
      c0.copymode ≠ .GOPHERMAP →
      (c0.copymode = conn.copymode ∨ conn.copymode = .GOPHERMAP) →
      ∃ w1, (write_slice env index c0 w).finish index = some w1 ∧
        ((conn.copymode ≠ .BINARY ∧ w1.trace = w.trace ∧
            w1.connections = swap_remove w.connections index) ∨
         ∃ skip left, skip ≤ 1 ∧ (skip = 1 → conn.copymode ≠ .BINARY) ∧ 1 ≤ left ∧
           conn.written + skip + left ≤ conn.read ∧
           write_outcome env index conn w skip left w1) := by
    intro c0 hstate hsock hwritten hread hbuffer hng hmode2
    unfold write_slice
    cases hm : c0.copymode with
    | GOPHERMAP => exact absurd hm hng
    | BINARY =>
      simp only [if_true, World.log, hsock, hbuffer, hwritten, hread]
      obtain ⟨w1, h1, h2⟩ := write_finish_outcome env index conn c0 w 0
        (conn.read - conn.written) hconn hreg hstate hsock hwritten hread hbuffer
        (fun _ => hm) (by omega)
      exact ⟨w1, h1, Or.inr ⟨0, _, by omega, by omega, by omega, by omega, h2⟩⟩
    | TEXT =>
      have hnb : conn.copymode ≠ .BINARY := by
        rcases hmode2 with h | h
        · rw [← h, hm]
          simp
        · rw [h]
          simp
      simp only [reduceCtorEq, if_false, if_true, hwritten, hread]
      split
      · rename_i h1
        have hlt : conn.written + 1 < conn.read := by omega
        obtain ⟨w1, left, h2, h3, h4, h5⟩ := write_text_line_outcome env index conn c0 w 1
          hconn hreg hstate hsock hwritten hread hbuffer (fun h => absurd h hnb) hlt
        exact ⟨w1, h2, Or.inr ⟨1, left, by omega, fun _ => hnb, h3, h4, h5⟩⟩
      · split
        · refine ⟨_, remove_and_return_finish index conn c0 w hconn (by rw [hsock]; exact hreg),
            Or.inl ⟨hnb, rfl, rfl⟩⟩
        · obtain ⟨w1, left, h2, h3, h4, h5⟩ := write_text_line_outcome env index conn c0 w 0
            hconn hreg hstate hsock hwritten hread hbuffer (fun h => absurd h hnb) (by omega)
          exact ⟨w1, h2, Or.inr ⟨0, left, by omega, by omega, h3, h4, h5⟩⟩
  by_cases hg : conn.copymode = .GOPHERMAP
  · rw [if_pos hg]
    exact key { conn with copymode := .TEXT } hs rfl rfl rfl rfl (by simp) (Or.inr hg)
  · rw [if_neg hg]
    exact key conn hs rfl rfl rfl rfl hg (Or.inl rfl)


theorem write_drains (env : Env) (index : Nat)
    (hsend : ∀ k, ∃ n, env.send k = some n ∧ 1 ≤ n) (d : Nat) :
    ∀ (w : World) (conn : connection), w.connections[index]? = some conn →
      conn.state = .WRITE → get_socket_index w.sockets conn.sock < w.sockets.length →
      conn.written < conn.read → conn.read - conn.written ≤ d →
      ∃ m w1, m ≤ d ∧ run env index m w = some w1 ∧
        ((w1.number_connections < w.number_connections ∧ conn.copymode ≠ .BINARY) ∨
         (w1.number_connections = w.number_connections ∧
            ∃ c1, w1.connections[index]? = some c1 ∧ c1.state = .READ ∧
              c1.written = c1.read ∧ c1.read = conn.read)) := by
  induction d with
  | zero =>
    intro w conn _ _ _ hw hd
    omega
  | succ d ih =>
    intro w conn hconn hs hreg hw hd
    have hidx := getElem?_lt_length hconn
    have hless : (swap_remove w.connections index).length < w.connections.length := by
      have := swap_remove_length w.connections index hidx
      omega
    obtain ⟨w1, hstep, hcase⟩ := handle_write_progress env index w conn hconn hs hreg hw
    rcases hcase with ⟨hnb, _, hrem⟩ | ⟨skip, left, _, _, hleft, _, _, hout⟩
    · refine ⟨1, w1, by omega, ?_, Or.inl ⟨?_, hnb⟩⟩
      · have hlt : w1.number_connections < w.number_connections := by
          simp only [World.number_connections, hrem]
          exact hless
        simp only [run, hstep, hlt, if_true]
      · simp only [World.number_connections, hrem]
        exact hless
    · obtain ⟨n, hn, hn1⟩ := hsend w.trace.length
      have hamount := send_amount_some env w left n hn
      rcases hout with ⟨hfail, _⟩ | ⟨a, c1, ha, _, hc1, hreg1, hwr, hrd, _, hmode, hst⟩
      · rw [hamount] at hfail
        omega
      · have hpos : 1 ≤ a := by
          rw [hamount] at ha
          have h1 : min n left = a := by exact_mod_cast ha
          omega
        have hcount : w1.number_connections = w.number_connections := by
          simp [World.number_connections, hc1]
        have hget : w1.connections[index]? = some c1 := by
          rw [hc1]
          exact getElem?_set_self_of_some _ hconn
        rcases hst with ⟨hs1, hw1⟩ | ⟨hs1, hw1⟩
        · obtain ⟨m, w2, hm, hrun, hres⟩ := ih w1 c1 hget hs1 hreg1 hw1 (by omega)
          refine ⟨m + 1, w2, by omega, ?_, ?_⟩
          · simp only [run, hstep, hcount, Nat.lt_irrefl, if_false, hrun]
          · rw [hcount, hrd] at hres
            rcases hres with ⟨h1, h2⟩ | h1
            · exact Or.inl ⟨h1, fun h => h2 (hmode h)⟩
            · exact Or.inr h1
        · refine ⟨1, w1, by omega, ?_, Or.inr ⟨hcount, c1, hget, hs1, hw1, hrd⟩⟩
          simp only [run, hstep, hcount, Nat.lt_irrefl, if_false]


/-- C24, as stated, fails in TEXT mode at the terminator: the chunk `.` CRLF of
three bytes puts the connection in `WRITE` with `written` 0 and `read` 3, and
the `WRITE` step removes the connection without a `send`; the state does not
return to `READ`. -/
theorem C24_counterexample :
    (run (script [.data (str ".\r\n"), .accept 1024, .accept 1024] []) 0 1
        (streaming .TEXT)).map
      (fun w => w.connections.map (fun c => (c.state, c.written, c.read))) =
      some [(.WRITE, 0, 3)] ∧
    (run (script [.data (str ".\r\n"), .accept 1024, .accept 1024] []) 0 2
        (streaming .TEXT)).map
      (fun w => (w.connections.map (fun c => c.state), w.trace.length)) =
      some ([], 1) ∧
    (run (script [.data (str ".\r\n"), .accept 1024, .accept 1024] []) 0 4
        (streaming .TEXT)).map
      (fun w => (w.connections.map (fun c => c.state), w.trace.length)) =
      some ([], 1) := by
  decide

/-- C24, amended.  A `READ` step that keeps the connection enters `WRITE` with
`written` 0 and `0 < read ≤ buffer_size`.  A connection in `WRITE` that
satisfies the invariant of the counters has `written < read ≤ 1024`; its
`WRITE` step returns, and either removes the connection at the terminator line
without a `send` (never in BINARY mode), or offers `send` one non-empty slice
that lies in `buffer[written .. read)`, at most one byte after `written`
(BINARY: at `written`); when the `send` returns -1 the connection is removed,
otherwise `written` advances by the amount accepted plus the bytes skipped,
strictly when the amount is at least 1, the invariant is kept, and the
connection stays in `WRITE` or is in `READ` with the chunk sent.  When every
`send` returns at least 1, after at most `read - written` invocations the
connection is in `READ` with the chunk sent, or it has been removed at the
terminator (never in BINARY mode). -/
theorem C24_write_progress (env : Env) (index : Nat) (w : World) (conn : connection)
    (hconn : w.connections[index]? = some conn) (hs : conn.state = .WRITE)
    (hreg : get_socket_index w.sockets conn.sock < w.sockets.length)
    (hinv : counters_inv conn) :
    (∀ (w0 w2 : World) (c0 c2 : connection), w0.connections[index]? = some c0 →
      c0.state = .READ → get_socket_index w0.sockets c0.sock < w0.sockets.length →
      handle_connection env index w0 = some w2 →
      w2.number_connections = w0.number_connections → w2.connections[index]? = some c2 →
      c2.state = .WRITE ∧ c2.written = 0 ∧ 0 < c2.read ∧ c2.read ≤ c2.buffer_size ∧
        c2.buffer_size = c0.buffer_size) ∧
    (conn.written < conn.read ∧ conn.read ≤ 1024 ∧ conn.buffer_size = 1024) ∧
    (∃ w1, handle_connection env index w = some w1 ∧
      ((conn.copymode ≠ .BINARY ∧ w1.trace = w.trace ∧
          w1.number_connections < w.number_connections) ∨
       ∃ skip left, skip ≤ 1 ∧ (skip = 1 → conn.copymode ≠ .BINARY) ∧ 1 ≤ left ∧
         conn.written + skip + left ≤ conn.read ∧
         ((conn.buffer.drop (conn.written + skip)).take left).length = left ∧
         w1.trace = w.trace ++
           [.send conn.sock ((conn.buffer.drop (conn.written + skip)).take left)
             (send_amount env w left)] ∧
         ((send_amount env w left = -1 ∧ w1.number_connections < w.number_connections) ∨
          ∃ (a : Nat) (c1 : connection), send_amount env w left = (a : Int) ∧ a ≤ left ∧
            w1.connections = w.connections.set index c1 ∧
            c1.written = conn.written + a + skip ∧ (1 ≤ a → conn.written < c1.written) ∧
            c1.read = conn.read ∧ c1.buffer = conn.buffer ∧ counters_inv c1 ∧
            ((c1.state = .WRITE ∧ c1.written < c1.read) ∨
             (c1.state = .READ ∧ c1.written = c1.read))))) ∧
    ((∀ k, ∃ n, env.send k = some n ∧ 1 ≤ n) →
      ∃ m w1, m ≤ conn.read - conn.written ∧ run env index m w = some w1 ∧
        ((w1.number_connections < w.number_connections ∧ conn.copymode ≠ .BINARY) ∨
         (w1.number_connections = w.number_connections ∧
            ∃ c1, w1.connections[index]? = some c1 ∧ c1.state = .READ ∧
              c1.written = c1.read ∧ c1.read = conn.read))) := by
  have hb := hinv.1 (Or.inr hs)
  have hw := hinv.2.1 hs
  have hidx := getElem?_lt_length hconn
  have hless : (swap_remove w.connections index).length < w.connections.length := by
    have := swap_remove_length w.connections index hidx
    omega
  refine ⟨?_, ⟨hw, hb.2, hb.1⟩, ?_, fun hsend => ?_⟩
  · intro w0 w2 c0 c2 hc0 hs0 hreg0 hstep hcount hc2
    have hidx0 := getElem?_lt_length hc0
    have hless0 : (swap_remove w0.connections index).length < w0.connections.length := by
      have := swap_remove_length w0.connections index hidx0
      omega
    cases hr : (env.recv w0.trace.length).map (fun d => d.take c0.buffer.length) with
    | none =>
      rw [handle_read_no_data env index w0 c0 none hc0 hs0 hreg0 hr (Or.inl rfl)] at hstep
      cases hstep
      simp only [World.number_connections] at hcount
      omega
    | some data =>
      cases data with
      | nil =>
        rw [handle_read_no_data env index w0 c0 (some []) hc0 hs0 hreg0 hr (Or.inr rfl)]
          at hstep
        cases hstep
        simp only [World.number_connections] at hcount
        omega
      | cons b rest =>
        obtain ⟨d, hd, hdt⟩ := Option.map_eq_some'.1 hr
        have hne : d.take c0.buffer.length ≠ [] := by simp [hdt]
        rw [handle_read_data env index w0 c0 d hc0 hs0 hreg0 hd hne] at hstep
        cases hstep
        simp only [getElem?_set_self_of_some _ hc0, Option.some.injEq] at hc2
        subst hc2
        have hpos : 0 < (d.take c0.buffer.length).length := List.length_pos.2 hne
        have hlen0 : (d.take c0.buffer.length).length ≤ c0.buffer.length := by simp
        refine ⟨rfl, rfl, hpos, ?_, ?_⟩
        · show (d.take c0.buffer.length).length ≤
            (d.take c0.buffer.length ++ c0.buffer.drop (d.take c0.buffer.length).length).length
          rw [store_length _ _ hlen0]
          exact hlen0
        · show (d.take c0.buffer.length ++
            c0.buffer.drop (d.take c0.buffer.length).length).length = c0.buffer.length
          exact store_length _ _ hlen0
  · obtain ⟨w1, hstep, hcase⟩ := handle_write_progress env index w conn hconn hs hreg hw
    refine ⟨w1, hstep, ?_⟩
    rcases hcase with ⟨hnb, htr, hrem⟩ | ⟨skip, left, h1, h2, h3, h4, htr, hout⟩
    · left
      refine ⟨hnb, htr, ?_⟩
      simp only [World.number_connections, hrem]
      exact hless
    · right
      refine ⟨skip, left, h1, h2, h3, h4, ?_, htr, ?_⟩
      · simp only [List.length_take, List.length_drop]
        omega
      · rcases hout with ⟨hfail, hrem⟩ | ⟨a, c1, ha, hle, hc1, _, hwr, hrd, hbuf, _, hst⟩
        · left
          refine ⟨hfail, ?_⟩
          simp only [World.number_connections, hrem]
          exact hless
        · right
          refine ⟨a, c1, ha, hle, hc1, hwr, fun _ => by omega, hrd, hbuf, ?_, hst⟩
          refine ⟨fun _ => ?_, fun h => ?_, fun h => ?_, fun h => ?_⟩
          · rw [hbuf, hrd]
            exact hb
          · rcases hst with ⟨_, h5⟩ | ⟨h5, _⟩
            · exact h5
            · rw [h5] at h
              cases h
          · rcases hst with ⟨h5, _⟩ | ⟨_, h5⟩
            · rw [h5] at h
              cases h
            · exact Or.inr h5
          · rcases hst with ⟨h5, _⟩ | ⟨h5, _⟩
            · exact absurd h5 h.2
            · exact absurd h5 h.1
  · exact write_drains env index hsend (conn.read - conn.written) w conn hconn hs hreg hw
      (Nat.le_refl _)


/-- C24 at the chunk `..dotted` CRLF `.` CRLF in TEXT mode, every `send`
accepting all it is offered: `written` 0 is less than `read` 13, and within 13
invocations the connection is removed at the terminator; the first `WRITE`
step offers the nine bytes after the first dot and advances `written` to 10. -/
theorem C24_witness :
    counters_inv dotted_conn ∧
    (dotted_conn.written < dotted_conn.read ∧ dotted_conn.read ≤ 1024 ∧
      dotted_conn.buffer_size = 1024) ∧
    (∃ m w1, m ≤ dotted_conn.read - dotted_conn.written ∧
      run dotted_reply 0 m dotted_chunk = some w1 ∧
      ((w1.number_connections < dotted_chunk.number_connections ∧
          dotted_conn.copymode ≠ .BINARY) ∨
       (w1.number_connections = dotted_chunk.number_connections ∧
          ∃ c1, w1.connections[0]? = some c1 ∧ c1.state = .READ ∧
            c1.written = c1.read ∧ c1.read = dotted_conn.read))) ∧
    (handle_connection dotted_reply 0 dotted_chunk).map
      (fun w => (w.connections.map (fun c => (c.state, c.written, c.read)), w.trace.getLast?)) =
      some ([(.WRITE, 10, 13)], some (.send 5 (str ".dotted\r\n") 9)) :=
  have hinv : counters_inv dotted_conn :=
    ⟨fun _ => ⟨by decide, by decide⟩, fun _ => by decide, fun h => absurd h (by decide),
      fun h => absurd rfl h.2⟩
  have h := C24_write_progress dotted_reply 0 dotted_chunk dotted_conn
    (by decide) (by decide) (by decide) hinv
  ⟨hinv, h.2.1, h.2.2.2 (fun _ => ⟨1024, rfl, by decide⟩), by decide⟩


/-! ## The size of the parser buffer -/

/-- C21, as stated, fails in `START` and in `PATH`.  A request with another
method stays in `START` with all its 38 bytes in the buffer, and 76 after a
second such chunk, while its request line has 15 bytes; after `GET /x` CRLF
and a header without a space the connection is in `PATH` with 23 bytes in the
buffer, while the request line has 6 bytes. -/
theorem C21_counterexample :
    (run (script [.data (str "PUT /x HTTP/1.0\r\nHost: example.org\r\n\r\n")] []) 0 1
        one_client).map
      (fun w => (w.connections.map (fun c => (c.state, c.buffer_size)),
        (request_line (received_bytes 5 w.trace)).length + 4)) =
      some ([(.START, 38)], 19) ∧
    (run (script [.data (str "PUT /x HTTP/1.0\r\nHost: example.org\r\n\r\n"),
          .data (str "PUT /x HTTP/1.0\r\nHost: example.org\r\n\r\n")] []) 0 2
        one_client).map
      (fun w => (w.connections.map (fun c => (c.state, c.buffer_size)),
        (request_line (received_bytes 5 w.trace)).length + 4)) =
      some ([(.START, 76)], 19) ∧
    (run (script [.data (str "GET /x\r\nUser-Agent:none\r\n\r\n")] []) 0 1 one_client).map
      (fun w => (w.connections.map (fun c => (c.state, c.buffer_size)),
        (request_line (received_bytes 5 w.trace)).length + 4)) =
      some ([(.PATH, 23)], 10) ∧
    ¬ (38 ≤ 19) ∧ ¬ (76 ≤ 19) ∧ ¬ (23 ≤ 10) := by
  decide


theorem sat_andThen (f : Flow) (k : connection → World → Flow)
    (N N1 R : connection → World → Prop) (G : World → Prop) (X : Prop)
    (hf : f.sat N R G X) (hk : ∀ c w, N c w → (k c w).sat N1 R G X) :
    (f.andThen k).sat N1 R G X := by
  cases f with
  | next c w => exact hk c w hf
  | ret c w => exact hf
  | gone w => exact hf
  | exit => exact hf
  | fault w1 => exact hf

theorem block_recv_sat (env : Env) (index : Nat) (w : World) (conn : connection) (sock : Int)
    (base : List Event)
    (hconn : w.connections[index]? = some conn) (hs : parser_state conn.state)
    (hat : head_at sock base conn w) :
    (block_recv env index conn w).sat (head_mid sock base w) (head_end sock base w)
      (fun w1 => w1.connections = swap_remove w.connections index)
      ((∃ k, env.connect k = none) ∨ stores_outside env conn w) := by
  obtain ⟨hreg, evs, htrace, hcase⟩ := hat
  have hnp : ¬ past_connect conn.state := by
    intro h
    rcases hs with h1 | h1 | h1 <;> rcases h with h2 | h2 | h2 | h2 <;>
      rw [h1] at h2 <;> cases h2
  rcases hcase with ⟨_, hsock, hok⟩ | hpc
  swap
  · exact absurd hpc hnp
  have hgone : ∀ e, (remove_and_return index conn { w with trace := w.trace ++ [e] }).sat
      (head_mid sock base w) (head_end sock base w)
      (fun w1 => w1.connections = swap_remove w.connections index)
      ((∃ k, env.connect k = none) ∨ stores_outside env conn w) := by
    intro e
    rw [remove_and_return_gone index conn conn w { w with trace := w.trace ++ [e] } hconn rfl
      hreg rfl rfl]
    rfl
  by_cases h1 : conn.state = .START ∨ conn.state = .PATH
  · cases hr : env.recv w.trace.length with
    | none =>
      unfold block_recv
      rw [if_pos h1]
      simp only [recv_amount, hr, World.log]
      exact hgone _
    | some d =>
      by_cases h0 : d.take 1024 = []
      · unfold block_recv
        rw [if_pos h1]
        simp only [recv_amount, hr, World.log, h0, List.length_nil]
        exact hgone _
      · rw [block_recv_data env index conn w d h1 hr h0]
        refine ⟨rfl, ⟨hreg, evs ++ [.recv conn.sock 0 1024 1024 (some (d.take 1024))], ?_,
          Or.inl ⟨Or.inl hs, hsock, ?_⟩⟩, Or.inl hs⟩
        · simp only [World.log, htrace, List.append_assoc]
        · rw [hsock, received_bytes_snoc_recv]
          refine ⟨fun h => ?_, fun h => ?_, fun h => ?_⟩
          · simp only [hok.1 h]
          · simp only [← hok.2.1 h, List.append_assoc]
          · rcases h1 with h2 | h2 <;> rw [h2] at h <;> cases h
  · have h3 : conn.state = .REQUEST_END := by
      rcases hs with h | h | h
      · exact absurd (Or.inl h) h1
      · exact absurd (Or.inr h) h1
      · exact h
    unfold block_recv
    rw [if_neg h1, if_pos h3]
    have hsmall : conn.buffer.length ≤ 1024 := by
      have h4 : conn.buffer.length ≤ 4 := (hok.2.2 h3).1
      omega
    simp only [World.log, memwrite_retained _ _ hsmall]
    split
    · exact hgone _
    · rename_i hpos
      have hne := recv_data_ne_nil env w _ hpos
      have hdl := recv_data_length env w (1024 - conn.buffer_size)
      cases hr : env.recv w.trace.length with
      | none =>
        simp [recv_amount, hr] at hpos
      | some d =>
        have hb := (hok.2.2 h3).2
        have hstate : ∀ b : List Byte, parser_state ({ conn with buffer := b }).state :=
          fun _ => hs
        have hok2 : ∀ b : List Byte, b.length ≤ 4 →
            b.length ≤ conn.buffer.length + (d.take (1024 - conn.buffer_size)).length →
            head_ok (received_bytes sock (evs ++
              [.recv conn.sock (1024 * conn.buffer_size) (1024 - conn.buffer_size) 1024
                (some (d.take (1024 - conn.buffer_size)))])) { conn with buffer := b } := by
          intro b hb4 hbl
          rw [hsock, received_bytes_snoc_recv]
          refine ⟨fun h => ?_, fun h => ?_, fun _ => ⟨hb4, ?_⟩⟩
          · rw [h3] at h
            cases h
          · rw [h3] at h
            cases h
          · simp only [List.length_append]
            omega
        split
        · rename_i hnone
          exact Or.inr ⟨h3, Or.inr ⟨request_end_store_none _ conn.buffer _
            (by rw [store_length _ _ (by rw [fresh_block_length]; exact hsmall),
              fresh_block_length]) hdl hnone, hne⟩⟩
        · simp only [recv_amount, recv_event, hr, Option.map_some', Int.toNat_ofNat]
          split
          · rename_i hfill
            refine ⟨rfl, ⟨hreg, _, ?_, Or.inl ⟨Or.inl (hstate _), hsock, hok2 _ ?_ ?_⟩⟩,
              Or.inl (hstate _)⟩
            · simp only [htrace, List.append_assoc]
            · simp only [List.length_take, connection.buffer_size] at hfill ⊢
              omega
            · simp only [List.length_take, connection.buffer_size] at hfill ⊢
              omega
          · rename_i hfill
            refine ⟨rfl, ⟨hreg, _, ?_, Or.inl ⟨Or.inl (hstate _), hsock, hok2 _ ?_ ?_⟩⟩,
              Or.inl (hstate _)⟩
            · simp only [htrace, List.append_assoc]
            · simp only [List.length_take, List.length_drop, connection.buffer_size] at hfill ⊢
              omega
            · simp only [List.length_take, List.length_drop, connection.buffer_size] at hfill ⊢
              omega


theorem head_mid_parts (sock : Int) (base : List Event) (w : World) (c : connection)
    (w1 : World) (h : head_mid sock base w c w1) :
    w1.connections = w.connections ∧
    get_socket_index w1.sockets c.sock < w1.sockets.length ∧ c.sock = sock ∧
    ∃ evs, w1.trace = base ++ evs ∧ head_ok (received_bytes sock evs) c := by
  obtain ⟨hc, ⟨hreg, evs, htrace, hcase⟩, hst⟩ := h
  rcases hcase with ⟨_, hsock, hok⟩ | hpc
  · exact ⟨hc, hreg, hsock, evs, htrace, hok⟩
  · rcases hst with (h1 | h1 | h1) | h1 <;> rcases hpc with h2 | h2 | h2 | h2 <;>
      rw [h1] at h2 <;> cases h2

theorem block_start_sat (sock : Int) (base : List Event) (w : World) (c : connection)
    (w1 : World) (R : connection → World → Prop) (G : World → Prop) (X : Prop)
    (h : head_mid sock base w c w1) :
    (block_start c w1).sat (head_mid sock base w) R G X := by
  obtain ⟨hc, hreg, hsock, evs, htrace, hok⟩ := head_mid_parts sock base w c w1 h
  unfold block_start
  split
  · rename_i hs
    split
    · rename_i hget
      refine ⟨hc, ⟨hreg, evs, htrace, Or.inl ⟨Or.inl (Or.inr (Or.inl rfl)), hsock, ?_⟩⟩,
        Or.inl (Or.inr (Or.inl rfl))⟩
      refine ⟨fun h1 => (by cases h1), fun _ => ?_, fun h1 => (by cases h1)⟩
      show str "GET " ++ c.buffer.drop 4 = _
      rw [← hget.2, List.take_append_drop]
      exact hok.1 hs
    · exact h
  · exact h

theorem block_path_sat (sock : Int) (base : List Event) (w : World) (c : connection)
    (w1 : World) (R : connection → World → Prop) (G : World → Prop) (X : Prop)
    (h : head_mid sock base w c w1) :
    (block_path c w1).sat (head_mid sock base w) R G X := by
  obtain ⟨hc, hreg, hsock, evs, htrace, hok⟩ := head_mid_parts sock base w c w1 h
  unfold block_path
  split
  · rename_i hs
    split
    · rename_i path_end hm
      refine ⟨hc, ⟨hreg, evs, htrace, Or.inl ⟨Or.inl (Or.inr (Or.inr rfl)), hsock, ?_⟩⟩,
        Or.inl (Or.inr (Or.inr rfl))⟩
      refine ⟨fun h1 => (by cases h1), fun h1 => (by cases h1), fun _ => ?_⟩
      have hlen : (received_bytes sock evs).length = 4 + c.buffer.length := by
        rw [← hok.2.1 hs]
        simp [str]
        omega
      show (if c.buffer_size - path_end < 4 then
          (c.buffer.drop path_end).take (c.buffer_size - path_end)
        else (c.buffer.drop (c.buffer_size - 4)).take 4).length ≤ 4 ∧
        (if c.buffer_size - path_end < 4 then
          (c.buffer.drop path_end).take (c.buffer_size - path_end)
        else (c.buffer.drop (c.buffer_size - 4)).take 4).length ≤ _
      rw [hlen]
      split
      · simp only [List.length_take, List.length_drop, connection.buffer_size] at *
        omega
      · simp only [List.length_take, List.length_drop, connection.buffer_size] at *
        omega
    · exact h
  · exact h

theorem block_request_end_sat (sock : Int) (base : List Event) (w : World) (c : connection)
    (w1 : World) (R : connection → World → Prop) (G : World → Prop) (X : Prop)
    (h : head_mid sock base w c w1) :
    (block_request_end c w1).sat (head_mid sock base w) R G X := by
  obtain ⟨hc, hreg, hsock, evs, htrace, _⟩ := head_mid_parts sock base w c w1 h
  unfold block_request_end
  split
  · split
    · refine ⟨hc, ⟨hreg, evs, htrace, Or.inl ⟨Or.inr rfl, hsock, ?_⟩⟩, Or.inr rfl⟩
      exact ⟨fun h1 => (by cases h1), fun h1 => (by cases h1), fun h1 => (by cases h1)⟩
    · exact h
  · exact h

theorem block_connect_sat (env : Env) (sock : Int) (base : List Event) (w : World)
    (c : connection) (w1 : World) (G : World → Prop) (Y : Prop)
    (h : head_mid sock base w c w1) :
    (block_connect env c w1).sat (head_end sock base w) (head_end sock base w) G
      ((∃ k, env.connect k = none) ∨ Y) := by
  obtain ⟨hc, hreg, hsock, evs, htrace, _⟩ := head_mid_parts sock base w c w1 h
  unfold block_connect
  split
  · cases hr : env.connect w1.trace.length with
    | none => exact Or.inl ⟨_, hr⟩
    | some remote_socket =>
      simp only
      rw [socket_change_some _ _ _ _ (by simpa [World.log] using hreg)]
      refine ⟨hc, ⟨?_, evs ++ [.connect remote_socket], ?_, Or.inr (Or.inl rfl)⟩, ?_⟩
      · exact get_socket_index_set w1.sockets c.sock remote_socket POLLOUT hreg
      · simp only [World.log, htrace, List.append_assoc]
      · intro h1
        cases h1
  · rename_i hs
    exact ⟨h.1, h.2.1, hs⟩


theorem head_inv_step (env : Env) (sock : Int) (index : Nat) (base : List Event) (w : World)
    (hinv : head_inv sock index base w) :
    (handle_connection env index w = none ∧
      ((∃ k, env.connect k = none) ∨
       ∃ conn, w.connections[index]? = some conn ∧ stores_outside env conn w)) ∨
    ∃ w1, handle_connection env index w = some w1 ∧
      ((w1.number_connections = w.number_connections ∧ head_inv sock index base w1) ∨
       w1.number_connections < w.number_connections) := by
  obtain ⟨conn, hconn, hnc, hat⟩ := hinv
  have hidx := getElem?_lt_length hconn
  have hless : (swap_remove w.connections index).length < w.connections.length := by
    have := swap_remove_length w.connections index hidx
    omega
  by_cases hs : parser_state conn.state
  · rw [handle_parser_eq env index w conn hconn hs]
    have hsat := sat_andThen _ (block_connect env) _ _ _ _ _
      (sat_andThen _ block_request_end _ _ _ _ _
        (sat_andThen _ block_path _ _ _ _ _
          (sat_andThen _ block_start _ _ _ _ _
            (block_recv_sat env index w conn sock base hconn hs hat)
            (fun c w1 h => block_start_sat sock base w c w1 _ _ _ h))
          (fun c w1 h => block_path_sat sock base w c w1 _ _ _ h))
        (fun c w1 h => block_request_end_sat sock base w c w1 _ _ _ h))
      (fun c w1 h => block_connect_sat env sock base w c w1 _ _ h)
    have hkeep : ∀ c w1, head_end sock base w c w1 →
        ∃ w2, (some { w1 with connections := w1.connections.set index c } : Option World) =
            some w2 ∧
          ((w2.number_connections = w.number_connections ∧ head_inv sock index base w2) ∨
           w2.number_connections < w.number_connections) := by
      intro c w1 ⟨hc, hat1, hst⟩
      refine ⟨_, rfl, Or.inl ⟨?_, c, ?_, hst, hat1⟩⟩
      · simp [World.number_connections, hc]
      · show (w1.connections.set index c)[index]? = some c
        rw [hc]
        exact getElem?_set_self_of_some _ hconn
    cases hf : ((((block_recv env index conn w).andThen block_start).andThen
        block_path).andThen block_request_end).andThen (block_connect env) with
    | next c w1 =>
      rw [hf] at hsat
      exact Or.inr (hkeep c w1 hsat)
    | ret c w1 =>
      rw [hf] at hsat
      exact Or.inr (hkeep c w1 hsat)
    | gone w1 =>
      rw [hf] at hsat
      refine Or.inr ⟨w1, rfl, Or.inr ?_⟩
      have h1 : w1.connections = swap_remove w.connections index := hsat
      simp only [World.number_connections, h1]
      exact hless
    | exit =>
      rw [hf] at hsat
      exact Or.inl ⟨rfl, hsat.imp id (fun h => ⟨conn, hconn, h⟩)⟩
    | fault w1 =>
      rw [hf] at hsat
      exact Or.inl ⟨rfl, hsat.imp id (fun h => ⟨conn, hconn, h⟩)⟩
  · obtain ⟨hreg, evs, htrace, hcase⟩ := hat
    have hpc : past_connect conn.state := by
      rcases hcase with ⟨h1 | h1, _, _⟩ | h1
      · exact absurd h1 hs
      · exact absurd h1 hnc
      · exact h1
    rcases handle_connection_result env index w conn hconn hreg with
      ⟨hnone, hx⟩ | ⟨w1, hstep, hrem⟩ | ⟨c, w1, hstep, hkept⟩
    · exact Or.inl ⟨hnone, hx.imp id (fun h => ⟨conn, hconn, h⟩)⟩
    · refine Or.inr ⟨w1, hstep, Or.inr ?_⟩
      simp only [World.number_connections, hrem.2.1]
      exact hless
    · obtain ⟨hc, _, ⟨evs1, htr1, _⟩, hsk, _, _, _⟩ := hkept
      refine Or.inr ⟨_, hstep, Or.inl ⟨?_, c, ?_, ?_, ?_, evs ++ evs1, ?_, Or.inr ?_⟩⟩
      · simp [World.number_connections]
      · exact getElem?_set_self_of_some _ hconn
      · rcases hsk with ⟨_, _, _, h1⟩ | ⟨_, _, _, _, h1⟩ | ⟨_, _, _, h1⟩
        · rcases h1 with ⟨h2, _⟩ | h2
          · exact absurd h2 hs
          · rw [h2]
            exact hnc
        · intro h2
          rcases h1 with h3 | h3 | h3 | h3 <;> rw [h2] at h3 <;> cases h3
        · rw [h1]
          intro h2
          cases h2
      · show get_socket_index w1.sockets c.sock < w1.sockets.length
        rcases hsk with ⟨h1, _, h2, _⟩ | ⟨_, _, h2, _⟩ | ⟨_, _, h2, _⟩
        · rw [h2, h1]
          exact hreg
        · rw [h2]
          exact get_socket_index_set w.sockets conn.sock c.sock _ hreg
        · rw [h2]
          exact get_socket_index_set w.sockets conn.sock c.sock _ hreg
      · show w1.trace = base ++ (evs ++ evs1)
        rw [htr1, htrace, List.append_assoc]
      · rcases hsk with ⟨_, _, _, h1⟩ | ⟨_, _, _, _, h1⟩ | ⟨_, _, _, h1⟩
        · rcases h1 with ⟨h2, _⟩ | h2
          · exact absurd h2 hs
          · rw [h2]
            exact hpc
        · exact h1
        · rw [h1]
          exact Or.inl rfl

theorem head_inv_run (env : Env) (sock : Int) (index : Nat) (base : List Event) (n : Nat) :
    ∀ w, head_inv sock index base w →
      (run env index n w = none ∧
        ((∃ k, env.connect k = none) ∨
         ∃ m w2 c2, m < n ∧ run env index m w = some w2 ∧
           w2.connections[index]? = some c2 ∧ stores_outside env c2 w2)) ∨
      ∃ w1, run env index n w = some w1 ∧
        ((w1.number_connections = w.number_connections ∧ head_inv sock index base w1) ∨
         w1.number_connections < w.number_connections) := by
  induction n with
  | zero =>
    intro w hinv
    exact Or.inr ⟨w, rfl, Or.inl ⟨rfl, hinv⟩⟩
  | succ n ih =>
    intro w hinv
    rcases head_inv_step env sock index base w hinv with ⟨hnone, hx⟩ | ⟨w1, hstep, hcase⟩
    · left
      refine ⟨?_, hx.imp id (fun ⟨c, hc, hst⟩ => ⟨0, w, c, Nat.succ_pos n, rfl, hc, hst⟩)⟩
      simp only [run, hnone]
    · rcases hcase with ⟨hnum, hinv1⟩ | hnum
      · rcases ih w1 hinv1 with ⟨hnone, hx⟩ | ⟨w2, hrun, hcase2⟩
        · left
          refine ⟨?_, hx.imp id (fun ⟨m, w2, c2, hm, hrun, hc, hst⟩ =>
            ⟨m + 1, w2, c2, Nat.succ_lt_succ hm, ?_, hc, hst⟩)⟩
          · simp only [run, hstep, hnum, Nat.lt_irrefl, if_false, hnone]
          · simp only [run, hstep, hnum, Nat.lt_irrefl, if_false, hrun]
        · right
          refine ⟨w2, ?_, ?_⟩
          · simp only [run, hstep, hnum, Nat.lt_irrefl, if_false, hrun]
          · rw [hnum] at hcase2
            exact hcase2
      · right
        refine ⟨w1, ?_, Or.inr hnum⟩
        simp only [run, hstep, hnum, if_true]


/-- C21, amended: for a new connection (in `START` with an empty buffer), for
every environment and every number of invocations, the run does not return
only when `connect_to_remote` exits or when, after some of the invocations,
`REQUEST_END` stores outside its local array; and whenever the
connection is still in the table in `START`, `PATH` or `REQUEST_END`, the size
of the parser buffer is at most the number of bytes received from the client
so far: in `START` the buffer holds all the bytes received, in `PATH` all of
them after the method `GET `, and in `REQUEST_END` at most four bytes. -/
theorem C21_parser_buffer_bound (env : Env) (index n : Nat) (w : World) (conn : connection)
    (hconn : w.connections[index]? = some conn) (hs : conn.state = .START)
    (hbuf : conn.buffer = [])
    (hreg : get_socket_index w.sockets conn.sock < w.sockets.length) :
    (run env index n w = none ∧
      ((∃ k, env.connect k = none) ∨
       ∃ m w2 c2, m < n ∧ run env index m w = some w2 ∧
         w2.connections[index]? = some c2 ∧ stores_outside env c2 w2)) ∨
    ∃ w1, run env index n w = some w1 ∧
      (w1.number_connections = w.number_connections →
        ∃ conn1 evs, w1.connections[index]? = some conn1 ∧ w1.trace = w.trace ++ evs ∧
          (conn1.state = .START → conn1.buffer = received_bytes conn.sock evs) ∧
          (conn1.state = .PATH →
            str "GET " ++ conn1.buffer = received_bytes conn.sock evs) ∧
          (conn1.state = .REQUEST_END → conn1.buffer_size ≤ 4) ∧
          (parser_state conn1.state →
            conn1.buffer_size ≤ (received_bytes conn.sock evs).length)) := by
  have hinv : head_inv conn.sock index w.trace w := by
    refine ⟨conn, hconn, ?_, hreg, [], by simp, Or.inl ⟨Or.inl (Or.inl hs), rfl, ?_⟩⟩
    · rw [hs]
      intro h
      cases h
    · refine ⟨fun _ => ?_, fun h => ?_, fun h => ?_⟩
      · rw [hbuf]
        rfl
      · rw [hs] at h
        cases h
      · rw [hs] at h
        cases h
  rcases head_inv_run env conn.sock index w.trace n w hinv with hexit | ⟨w1, hrun, hcase⟩
  · exact Or.inl hexit
  · refine Or.inr ⟨w1, hrun, fun hnum => ?_⟩
    rcases hcase with ⟨_, conn1, hc1, _, _, evs, htrace, hst⟩ | hlt
    · refine ⟨conn1, evs, hc1, htrace, ?_⟩
      rcases hst with ⟨_, _, hok⟩ | hpc
      · refine ⟨hok.1, hok.2.1, fun h => (hok.2.2 h).1, fun h => ?_⟩
        simp only [connection.buffer_size]
        rcases h with h | h | h
        · rw [hok.1 h]
        · rw [← hok.2.1 h]
          simp
        · exact (hok.2.2 h).2
      · have hnot : ∀ s : connection_state, parser_state s → conn1.state ≠ s := by
          intro s h1 h2
          rcases h1 with h1 | h1 | h1 <;> rcases hpc with h3 | h3 | h3 | h3 <;>
            rw [h2, h1] at h3 <;> cases h3
        refine ⟨fun h => absurd h (hnot _ (Or.inl rfl)),
          fun h => absurd h (hnot _ (Or.inr (Or.inl rfl))),
          fun h => absurd h (hnot _ (Or.inr (Or.inr rfl))), fun h => ?_⟩
        exact absurd rfl (hnot _ h)
    · omega

/-- C21 at a client that sends chunks of eight bytes which never begin with
the method: after three invocations the connection is in `START` with the 24
bytes received in its buffer.  And a run that does not return: after the chunk
`GET /x HTTP/1.0` CRLF the connection is in `REQUEST_END` with four bytes
retained, and the `recv` of the next invocation delivers two bytes, which are
stored outside the local array. -/
theorem C21_witness :
    ((run trickle 0 3 one_client = none ∧
        ((∃ k, trickle.connect k = none) ∨
         ∃ m w2 c2, m < 3 ∧ run trickle 0 m one_client = some w2 ∧
           w2.connections[0]? = some c2 ∧ stores_outside trickle c2 w2)) ∨
     ∃ w1, run trickle 0 3 one_client = some w1 ∧
       (w1.number_connections = one_client.number_connections →
         ∃ conn1 evs, w1.connections[0]? = some conn1 ∧ w1.trace = one_client.trace ++ evs ∧
           (conn1.state = .START → conn1.buffer = received_bytes 5 evs) ∧
           (conn1.state = .PATH → str "GET " ++ conn1.buffer = received_bytes 5 evs) ∧
           (conn1.state = .REQUEST_END → conn1.buffer_size ≤ 4) ∧
           (parser_state conn1.state →
             conn1.buffer_size ≤ (received_bytes 5 evs).length))) ∧
    (run trickle 0 3 one_client).map
      (fun w => (w.connections.map (fun c => (c.state, c.buffer_size)),
        (received_bytes 5 w.trace).length)) =
      some ([(.START, 24)], 24) ∧
    (run (script [.data (str "GET /x HTTP/1.0\r\n"), .data (str "\r\n")] []) 0 1 one_client).map
      (fun w => w.connections.map (fun c => (c.state, c.buffer_size,
        recv_data (script [.data (str "GET /x HTTP/1.0\r\n"), .data (str "\r\n")] []) w
          (1024 - c.buffer_size)))) =
      some [(.REQUEST_END, 4, str "\r\n")] ∧
    run (script [.data (str "GET /x HTTP/1.0\r\n"), .data (str "\r\n")] []) 0 2 one_client =
      none :=
  ⟨C21_parser_buffer_bound trickle 0 3 one_client (new_connection 5)
      (by decide) (by decide) (by decide) (by decide),
    by decide, by decide, by decide⟩

end Idigna
